import Mathlib

/-!
Subsonic scanner: resolver and scheduler.

A shallow embedding of `internal/scanner/resolver.go` and
`internal/scanner/scheduler.go`, followed by the properties proved of it.

Conventions of the embedding.

* Go's `int32` values are integers kept in range by `int32`, the two's
  complement wrap-around of `atomic.AddInt32` and of the `int32(...)`
  conversion.
* The only sources of nondeterminism of `Resolve` are `rand.Intn` and the
  network.  Both are read from a `DNSEnv`, indexed by the attempt number, so
  that every behaviour of the random generator and of the DNS servers is one
  value of `DNSEnv`.
* `Resolve` additionally returns what it did on the wire: the exchanges it
  made, the attempts it skipped and the attempts after which it slept.  These
  fields are observations, the code does not read them.
-/

namespace Subsonic

/-! ## resolver.go -/

/-- Outcome of a DNS resolution (`ResolveStatus`). -/
inductive ResolveStatus
  | Success
  | NotFound
  | Failed
  deriving DecidableEq, Repr

/-- The constant `maxAttempts` (1 initial + 5 retries). -/
def maxAttempts : Nat := 6

/-- The value `dns.RcodeSuccess`. -/
def RcodeSuccess : Nat := 0

/-- A resource record of the answer section: an A record with the text of its
address (`a.A.String()`), or a record of another type. -/
inductive RR
  | A (addr : String)
  | other (rrtype : Nat)
  deriving DecidableEq, Repr

/-- An error returned by `dnsClient.Exchange`: `transport` is an error that
implements `net.Error`, `other` is any other error. -/
inductive ExchangeError
  | transport (msg : String)
  | other (msg : String)
  deriving DecidableEq, Repr

/-- The type assertion `err.(net.Error)`. -/
def ExchangeError.isNetError : ExchangeError → Bool
  | ExchangeError.transport _ => true
  | ExchangeError.other _ => false

/-- The non-nil `error` values that `Resolve` returns: the error of the
exchange itself, or one of the three errors it builds with `fmt.Errorf`, the
last two wrapping `lastErr`. -/
inductive GoError
  | exchange (err : ExchangeError)
  | invalidRcode (rcode : Nat)
  | allAttemptsFailed (domain : String) (last : Option ExchangeError)
  | noDefinitiveResult (domain : String) (last : Option ExchangeError)
  deriving DecidableEq, Repr

/-- What `dnsClient.Exchange` returns: a reply (`err == nil`) with its rcode
and answer section, or an error. -/
inductive ExchangeResult
  | reply (rcode : Nat) (answer : List RR)
  | error (err : ExchangeError)
  deriving DecidableEq, Repr

/-- The environment of one `Resolve` call: `intn k n` is the value that
`rand.Intn(n)` returns at attempt `k` (reduced modulo `n` by the caller), and
`exchange k server` is the outcome of the exchange made at attempt `k` with
`server`. -/
structure DNSEnv where
  intn : Nat → Nat → Nat
  exchange : Nat → String → ExchangeResult

/-- The fields of `Resolver` that `Resolve` reads. -/
structure Resolver where
  tier1Servers : List String
  tier2Servers : List String
  debugNetwork : Bool
  deriving DecidableEq, Repr

/-- The resolver made by `NewResolver`, with the default tiered servers. -/
def NewResolver (debugNetwork : Bool) : Resolver :=
  { tier1Servers := ["8.8.8.8:53", "8.8.4.4:53", "1.1.1.1:53", "1.0.0.1:53",
      "114.114.114.114:53", "114.114.115.115:53", "223.5.5.5:53"]
    tier2Servers := ["119.29.29.29:53", "119.28.28.28:53", "223.6.6.6:53",
      "9.9.9.9:53", "149.112.112.112:53"]
    debugNetwork := debugNetwork }

/-- The loop of `SetDNSServers`: a server without a colon gets the default
port. -/
def validServers (servers : List String) : List String :=
  servers.map (fun s => if s.data.contains ':' then s else s ++ ":53")

/-- Custom DNS servers replace tier 1 and empty tier 2, unless the list is
empty. -/
def Resolver.SetDNSServers (r : Resolver) (servers : List String) : Resolver :=
  if (validServers servers).length > 0 then
    { r with tier1Servers := validServers servers, tier2Servers := [] }
  else r

/-- The function `selectServer`: a random server among those of `servers`
not yet used, `none` when there is none (the `false` of the Go result).
`usedServers` lists the keys of the Go map. -/
def selectServer (intn : Nat → Nat) (servers : List String)
    (usedServers : List String) : Option String :=
  if servers.length = 0 then none
  else
    let available := servers.filter (fun s => !(usedServers.contains s))
    if available.length = 0 then none
    else some (available.getD (intn available.length % available.length) "")

/-- What `Resolve` returns, with the observations of what it did: `sent` lists
the exchanges made as (attempt, server), latest first; `skipped` the attempts
at which no server was found; `sleeps` the attempts followed by the retry
delay. -/
structure ResolveResult where
  ip : String
  status : ResolveStatus
  attempts : Nat
  err : Option GoError
  sent : List (Nat × String)
  skipped : List Nat
  sleeps : List Nat
  deriving DecidableEq, Repr

/-- The local variables of `Resolve` that live across attempts, with the
observations made so far. -/
structure LoopState where
  usedServers : List String
  lastErr : Option ExchangeError
  isNetworkError : Bool
  sent : List (Nat × String)
  skipped : List Nat
  sleeps : List Nat
  deriving DecidableEq, Repr

/-- The scan of the answer section: the first A record wins. -/
def firstA : List RR → Option String
  | [] => none
  | RR.A addr :: _ => some addr
  | RR.other _ :: rest => firstA rest

/-- One iteration of the attempt loop: either the call returns, or the loop
continues with a new state. -/
def attemptBody (r : Resolver) (env : DNSEnv) (attempt : Nat) (st : LoopState) :
    ResolveResult ⊕ LoopState :=
  let sel :=
    if attempt ≤ 3 then selectServer (env.intn attempt) r.tier1Servers st.usedServers
    else selectServer (env.intn attempt) r.tier2Servers st.usedServers
  match sel with
  | none => Sum.inr { st with skipped := attempt :: st.skipped }
  | some server =>
    let usedServers := server :: st.usedServers
    let sent := (attempt, server) :: st.sent
    match env.exchange attempt server with
    | ExchangeResult.reply rcode answer =>
      if rcode ≠ RcodeSuccess then
        Sum.inl { ip := "", status := ResolveStatus.NotFound, attempts := attempt,
                  err := some (GoError.invalidRcode rcode),
                  sent := sent, skipped := st.skipped, sleeps := st.sleeps }
      else
        match firstA answer with
        | some addr =>
          Sum.inl { ip := addr, status := ResolveStatus.Success, attempts := attempt,
                    err := none, sent := sent, skipped := st.skipped, sleeps := st.sleeps }
        | none =>
          Sum.inl { ip := "", status := ResolveStatus.NotFound, attempts := attempt,
                    err := none, sent := sent, skipped := st.skipped, sleeps := st.sleeps }
    | ExchangeResult.error err =>
      if err.isNetError then
        Sum.inr { usedServers := usedServers, lastErr := some err, isNetworkError := true,
                  sent := sent, skipped := st.skipped, sleeps := attempt :: st.sleeps }
      else
        Sum.inl { ip := "", status := ResolveStatus.Failed, attempts := attempt,
                  err := some (GoError.exchange err), sent := sent, skipped := st.skipped,
                  sleeps := st.sleeps }

/-- The two returns after the loop. -/
def afterLoop (domain : String) (st : LoopState) : ResolveResult :=
  if st.isNetworkError then
    { ip := "", status := ResolveStatus.Failed, attempts := maxAttempts,
      err := some (GoError.allAttemptsFailed domain st.lastErr),
      sent := st.sent, skipped := st.skipped, sleeps := st.sleeps }
  else
    { ip := "", status := ResolveStatus.NotFound, attempts := maxAttempts,
      err := some (GoError.noDefinitiveResult domain st.lastErr),
      sent := st.sent, skipped := st.skipped, sleeps := st.sleeps }

/-- The attempt loop over the attempts still to make. -/
def resolveLoop (r : Resolver) (env : DNSEnv) (domain : String) :
    List Nat → LoopState → ResolveResult
  | [], st => afterLoop domain st
  | attempt :: rest, st =>
    match attemptBody r env attempt st with
    | Sum.inl res => res
    | Sum.inr st' => resolveLoop r env domain rest st'

/-- The state on entry of the loop. -/
def initLoop : LoopState :=
  { usedServers := [], lastErr := none, isNetworkError := false,
    sent := [], skipped := [], sleeps := [] }

/-- The method `Resolve`: `for attempt := 1; attempt <= maxAttempts; attempt++`. -/
def Resolver.Resolve (r : Resolver) (env : DNSEnv) (domain : String) : ResolveResult :=
  resolveLoop r env domain (List.range' 1 maxAttempts) initLoop

/-! ## scheduler.go -/

/-- Two's complement wrap-around to 32 bits: the value of a Go `int32` after
an addition, a subtraction or a conversion from `int`. -/
def int32 (x : Int) : Int := (x + 2147483648) % 4294967296 - 2147483648

/-- The constant `guaranteedMinConcurrency`. -/
def guaranteedMinConcurrency : Int := 150

/-- The constant `maxConcurrency`. -/
def maxConcurrency : Int := 5000

/-- A found subdomain and its address (`ScanResult`). -/
structure ScanResult where
  Subdomain : String
  IPAddress : String
  deriving DecidableEq, Repr

/-- The progress record `ScanStatus`. -/
structure ScanStatus where
  Scanned : Int
  Total : Int
  Failed : Int
  Concurrency : Int
  TotalRequests : Int
  TotalRetries : Int
  Phase : String
  TotalRetrying : Int
  deriving DecidableEq, Repr

/-- The state of the `scheduler` struct.  `limiter` holds `maxQPS` when a rate
limiter was made.  The channels are represented by what was sent on them:
`results` (resultsChan) and `statuses` (statusChan), oldest first, and
`stopSignals`, the number of values sent on stopChan.  `spawned` counts the
workers started by the monitor and `resolved` lists the arguments of the
calls of `Resolve`, oldest first. -/
structure scheduler where
  resolver : Resolver
  domain : String
  adaptive : Bool
  limiter : Option Int
  totalTasks : Int
  scanned : Int
  failed : Int
  totalRequests : Int
  totalRetries : Int
  activeWorkers : Int
  minConcurrency : Int
  totalResolutions : Int
  retriedResolutions : Int
  failedDomains : List String
  results : List ScanResult
  statuses : List ScanStatus
  stopSignals : Nat
  spawned : Nat
  resolved : List String

/-- The constructor `newScheduler`; `concurrency`, `totalTasks` and `maxQPS`
are Go `int`s. -/
def newScheduler (resolver : Resolver) (domain : String) (totalTasks : Int)
    (concurrency : Int) (adaptive : Bool) (maxQPS : Int) : scheduler :=
  let minWorkers : Int :=
    if !adaptive ∧ concurrency > 0 then int32 concurrency
    else if adaptive ∧ concurrency > 0 ∧ concurrency < guaranteedMinConcurrency then
      int32 concurrency
    else int32 guaranteedMinConcurrency
  let initialConcurrency : Int :=
    if !adaptive ∧ concurrency > 0 then int32 concurrency else minWorkers
  { resolver := resolver
    domain := domain
    adaptive := adaptive
    limiter := if maxQPS > 0 then some maxQPS else none
    totalTasks := totalTasks
    scanned := 0
    failed := 0
    totalRequests := 0
    totalRetries := 0
    activeWorkers := initialConcurrency
    minConcurrency := minWorkers
    totalResolutions := 0
    retriedResolutions := 0
    failedDomains := []
    results := []
    statuses := []
    stopSignals := 0
    spawned := 0
    resolved := [] }

/-- The method `sendStatus`: an empty phase is reported as `main_scan` on both
branches of the source. -/
def sendStatus (s : scheduler) (phase : String) (totalRetrying : Int) : scheduler :=
  let phase := if phase = "" then
      (if s.failedDomains.length > 0 then "main_scan" else "main_scan")
    else phase
  { s with statuses := s.statuses ++ [{
      Scanned := s.scanned
      Total := s.totalTasks
      Failed := s.failed
      Concurrency := s.activeWorkers
      TotalRequests := s.totalRequests
      TotalRetries := s.totalRetries
      Phase := phase
      TotalRetrying := totalRetrying }] }

/-- The counter updates a worker makes after `Resolve` has returned `res` for
`subdomain`, up to the send on the results channel.  The updates touch
distinct fields, so they are written as one record update. -/
def recordResolution (s : scheduler) (subdomain : String) (res : ResolveResult) :
    scheduler :=
  let attempts : Int := res.attempts
  { s with
    resolved := s.resolved ++ [subdomain]
    scanned := int32 (s.scanned + 1)
    totalRequests := int32 (s.totalRequests + int32 attempts)
    totalRetries :=
      if attempts > 1 then int32 (s.totalRetries + int32 (attempts - 1)) else s.totalRetries
    retriedResolutions :=
      if attempts > 1 then int32 (s.retriedResolutions + 1) else s.retriedResolutions
    failed :=
      if res.status = ResolveStatus.Failed then int32 (s.failed + 1) else s.failed
    failedDomains :=
      if res.status = ResolveStatus.Failed then s.failedDomains ++ [subdomain]
      else s.failedDomains
    totalResolutions := int32 (s.totalResolutions + 1)
    results :=
      if res.status = ResolveStatus.Success ∧ res.ip ≠ "" then
        s.results ++ [{ Subdomain := subdomain, IPAddress := res.ip }]
      else s.results }

/-- The status a worker sends on every 1000th scanned candidate or when
`scanned` reaches `totalTasks`. -/
def workerStatus (s : scheduler) : scheduler :=
  if s.scanned % 1000 = 0 ∨ s.scanned = s.totalTasks then sendStatus s "" 0 else s

/-- One pass of the worker loop on a task received from the task channel:
the resolution of `subdomain` under the DNS behaviour `env`, the counter
updates and the status that follow it. -/
def workerTask (s : scheduler) (subdomain : String) (env : DNSEnv) : scheduler :=
  workerStatus (recordResolution s subdomain (s.resolver.Resolve env subdomain))

/-- The method `adjustWorkers`; `delta` is a Go `int`. -/
def adjustWorkers (s : scheduler) (delta : Int) : scheduler :=
  if delta > 0 then
    { s with activeWorkers := int32 (s.activeWorkers + int32 delta)
             spawned := s.spawned + delta.toNat }
  else if delta < 0 then
    let numToStop : Int := -delta
    let currentWorkers := s.activeWorkers
    let numToStop : Int :=
      if int32 (currentWorkers - int32 numToStop) < s.minConcurrency then
        int32 (currentWorkers - s.minConcurrency)
      else numToStop
    if numToStop ≤ 0 then s
    else
      { s with activeWorkers := int32 (s.activeWorkers + int32 (-numToStop))
               stopSignals := s.stopSignals + numToStop.toNat }
  else s

/-- The quotient `float64(retried) / float64(total)` of the monitor, as an
exact rational.  On `int32` operands with `total ≠ 0` the comparisons of the
source with `0.20`, `0.50` and `0.70` have the same outcome on the rounded
quotient as on the exact one: a quotient different from a threshold `p/q` with
`q ≤ 10` is at least `1 / (10 * 2^31)` away from it, far more than the
rounding error of a `float64`, and an equal one rounds to the same `float64`
as the constant. -/
def retryRate (retried total : Int) : ℚ := (retried : ℚ) / (total : ℚ)

/-- One tick of `monitorAndAdjust`: the body of the `ticker.C` case. -/
def monitorTick (s : scheduler) : scheduler :=
  let total := s.totalResolutions
  let retried := s.retriedResolutions
  let s := { s with totalResolutions := 0, retriedResolutions := 0 }
  if total = 0 then s
  else
    let retryRate := retryRate retried total
    let currentConcurrency := s.activeWorkers
    if retryRate < 20 / 100 ∧ currentConcurrency < maxConcurrency then
      adjustWorkers s 40
    else if retryRate ≥ 20 / 100 ∧ retryRate < 50 / 100
        ∧ currentConcurrency < maxConcurrency then
      adjustWorkers s 20
    else if retryRate ≥ 50 / 100 ∧ retryRate < 70 / 100
        ∧ currentConcurrency > s.minConcurrency then
      adjustWorkers s (-60)
    else if retryRate ≥ 70 / 100 ∧ currentConcurrency > s.minConcurrency then
      adjustWorkers s (-120)
    else s

/-- A monitor tick that finds the given window counters: the workers have set
`totalResolutions` and `retriedResolutions` to `window` since the last tick. -/
def tickWith (s : scheduler) (window : Int × Int) : scheduler :=
  monitorTick { s with totalResolutions := window.1, retriedResolutions := window.2 }

/-- The monitor over a sequence of windows.  `run` starts the monitor only in
adaptive mode, so that no tick happens otherwise. -/
def monitorTicks (s : scheduler) (windows : List (Int × Int)) : scheduler :=
  if s.adaptive then windows.foldl tickWith s else s

/-- What the scheduler cannot decide of one run: `env phase i` is the DNS
behaviour met by the `i`-th resolution of `phase` (1 for the main scan, 2 for
the retry scan), and `ticks phase i` is the number of monitor ticks that fire
before that resolution completes (for `i` the number of tasks of the phase:
after the last one). -/
structure Schedule where
  env : Nat → Nat → DNSEnv
  ticks : Nat → Nat → Nat

/-- The monitor goroutine during `n` ticks.  `run` starts it only in adaptive
mode. -/
def monitorFor (s : scheduler) : Nat → scheduler
  | 0 => s
  | n + 1 => if s.adaptive then monitorFor (monitorTick s) n else s

/-- The sequential reading of a phase: one worker pass after the other, from
index `i` on, every task resolved.  It leaves out the receive on stopChan and
the interleaving of the counter updates, and is used for the worker count of a
scheduler without monitor only; the goroutines are in `poolStep` below. -/
def phaseLoop (sch : Schedule) (phase : Nat) : Nat → List String → scheduler → scheduler
  | i, [], s => monitorFor s (sch.ticks phase i)
  | i, task :: rest, s =>
    phaseLoop sch phase (i + 1) rest
      (workerTask (monitorFor s (sch.ticks phase i)) task (sch.env phase i))

/-- One phase of `run` in the sequential reading, from the launch of the
workers to the return of `wg.Wait`.  A negative `activeWorkers` makes `wg.Add`
panic.  With no worker nothing is taken from the task channel: the caller is
stuck when it feeds the channel itself (`feedBlocks`, phase 1) beyond its
capacity, and nothing is resolved otherwise.  With at least one worker and no
stop signal every task is resolved. -/
def runPhase (sch : Schedule) (phase : Nat) (feedBlocks : Bool) (tasks : List String)
    (s : scheduler) : Option scheduler :=
  if s.activeWorkers < 0 then none
  else if s.activeWorkers = 0 then
    if feedBlocks ∧ (tasks.length : Int) > maxConcurrency then none
    else some (monitorFor s (sch.ticks phase 0))
  else some (phaseLoop sch phase 0 tasks s)

/-- The tasks of phase 1: `fmt.Sprintf("%s.%s", word, s.domain)`. -/
def candidates (s : scheduler) (words : List String) : List String :=
  words.map (fun word => word ++ "." ++ s.domain)

/-- The start of the retry phase: the failed domains become the tasks,
`failedDomains` is cleared, `totalTasks`, `scanned` and `failed` are reset and
the `retry_scan` status is sent. -/
def startRetry (s : scheduler) : scheduler :=
  let retryTasks := s.failedDomains
  let s := { s with failedDomains := [], totalTasks := retryTasks.length,
                    scanned := 0, failed := 0 }
  sendStatus s "retry_scan" s.totalTasks

/-- The method `run` on the words read from `wordlistChan`, in the sequential
reading of its phases.  The status `main_scan` is sent after the workers are
launched, as in the source.  `runPool` below is `run` with its goroutines. -/
def run (s : scheduler) (enableRetry : Bool) (words : List String) (sch : Schedule) :
    Option scheduler :=
  if s.activeWorkers < 0 then none
  else
    match runPhase sch 1 true (candidates s words) (sendStatus s "main_scan" 0) with
    | none => none
    | some s1 =>
      if !enableRetry ∨ s1.failedDomains.length = 0 then
        some (sendStatus s1 "done" 0)
      else
        let retryTasks := s1.failedDomains
        match runPhase sch 2 false retryTasks (startRetry s1) with
        | none => none
        | some s2 => some (sendStatus s2 "done" 0)

/-! ## The worker pool, step by step

The workers of `run` are goroutines that share the scheduler.  Below, a run
is a sequence of events, each one atomic step of one goroutine: a worker
receiving from a channel, one of its counter updates, or a tick of the
monitor.  Every interleaving of the goroutines is one list of events.  The
words are all in the task channel when the workers start: a slow feeder is a
worker that receives later.  Three things are one step each: the body of a
tick (its two swaps of the window counters and `adjustWorkers`, which write
the window counters and the worker count only), the launch of the workers by
`run`, and the loads of `sendStatus`, so that only the status that `run`
sends when no worker is left is read as the source sends it. -/

/-- A worker between two steps: at the `select` of its loop (`idle`), or after
`Resolve` returned `res` for `subdomain`, with `pc` of the steps that follow
done. -/
inductive WorkerState
  | idle
  | busy (subdomain : String) (res : ResolveResult) (pc : Nat)
  deriving DecidableEq, Repr

/-- The number of steps of a worker between the return of `Resolve` and its
next `select`. -/
def workerSteps : Nat := 9

/-- Step `pc` of a worker after `Resolve` returned `res`, in the order of the
source: the atomic additions to `scanned`, `totalRequests`, `totalRetries`,
`retriedResolutions` and `failed`, the append to `failedDomains` under the
mutex, the addition to `totalResolutions`, the send of the result and the
status. -/
def workerUpdate (s : scheduler) (subdomain : String) (res : ResolveResult) (pc : Nat) :
    scheduler :=
  match pc with
  | 0 => { s with scanned := int32 (s.scanned + 1) }
  | 1 => { s with totalRequests := int32 (s.totalRequests + int32 (res.attempts : Int)) }
  | 2 =>
    if (res.attempts : Int) > 1 then
      { s with totalRetries := int32 (s.totalRetries + int32 ((res.attempts : Int) - 1)) }
    else s
  | 3 =>
    if (res.attempts : Int) > 1 then
      { s with retriedResolutions := int32 (s.retriedResolutions + 1) }
    else s
  | 4 =>
    if res.status = ResolveStatus.Failed then { s with failed := int32 (s.failed + 1) }
    else s
  | 5 =>
    if res.status = ResolveStatus.Failed then
      { s with failedDomains := s.failedDomains ++ [subdomain] }
    else s
  | 6 => { s with totalResolutions := int32 (s.totalResolutions + 1) }
  | 7 =>
    if res.status = ResolveStatus.Success ∧ res.ip ≠ "" then
      { s with results := s.results ++ [{ Subdomain := subdomain, IPAddress := res.ip }] }
    else s
  | _ => workerStatus s

/-- The scheduler with its goroutines.  `tasks` is what is left in the task
channel of the phase, `workers` the workers that read it, `strays` the number
of workers that the monitor started during phase 2 on the channel of phase 1,
which is closed and empty by then (`mainScan_drained`), `stopsRead` the number
of values received from stopChan (out of `s.stopSignals` sent).  `outcomes`
logs the calls of `Resolve` of the phase and `earlier` those of the phase
before, in call order. -/
structure Pool where
  s : scheduler
  tasks : List String
  workers : List WorkerState
  strays : Nat
  stopsRead : Nat
  outcomes : List (String × ResolveResult)
  earlier : List (String × ResolveResult)

/-- One atomic step of one goroutine.  `receive i env`: worker `i` receives the
next task and resolves it under the DNS behaviour `env`; `stop i`: worker `i`
receives from stopChan and returns; `closed i`: worker `i` finds the task
channel closed and empty and returns; `update i`: worker `i` makes its next
step after `Resolve`; `strayStop` and `strayClosed`: a worker on the closed
channel of phase 1 returns, through stopChan or not; `tick`: the ticker of
the monitor fires. -/
inductive PoolEvent
  | tick
  | receive (i : Nat) (env : DNSEnv)
  | stop (i : Nat)
  | closed (i : Nat)
  | update (i : Nat)
  | strayStop
  | strayClosed

/-- The effect of one event, `none` when the event cannot happen in the state
of the pool.  `mainPhase` tells whether the monitor starts its workers on the
task channel of the phase (phase 1) or on a closed one (phase 2).  Without
adaptive mode there is no monitor and a tick changes nothing. -/
def poolStep (mainPhase : Bool) (p : Pool) : PoolEvent → Option Pool
  | PoolEvent.tick =>
    if p.s.adaptive then
      let started := (monitorTick p.s).spawned - p.s.spawned
      if mainPhase then
        some { p with s := monitorTick p.s
                      workers := p.workers ++ List.replicate started WorkerState.idle }
      else
        some { p with s := monitorTick p.s, strays := p.strays + started }
    else some p
  | PoolEvent.receive i env =>
    match p.workers[i]?, p.tasks with
    | some WorkerState.idle, task :: rest =>
      some { p with
        s := { p.s with resolved := p.s.resolved ++ [task] }
        tasks := rest
        workers := p.workers.set i
          (WorkerState.busy task (p.s.resolver.Resolve env task) 0)
        outcomes := p.outcomes ++ [(task, p.s.resolver.Resolve env task)] }
    | _, _ => none
  | PoolEvent.stop i =>
    if p.workers[i]? = some WorkerState.idle ∧ p.stopsRead < p.s.stopSignals then
      some { p with workers := p.workers.eraseIdx i, stopsRead := p.stopsRead + 1 }
    else none
  | PoolEvent.closed i =>
    if p.workers[i]? = some WorkerState.idle ∧ p.tasks = [] then
      some { p with workers := p.workers.eraseIdx i }
    else none
  | PoolEvent.update i =>
    match p.workers[i]? with
    | some (WorkerState.busy subdomain res pc) =>
      some { p with
        s := workerUpdate p.s subdomain res pc
        workers := p.workers.set i
          (if pc + 1 < workerSteps then WorkerState.busy subdomain res (pc + 1)
           else WorkerState.idle) }
    | _ => none
  | PoolEvent.strayStop =>
    if 0 < p.strays ∧ p.stopsRead < p.s.stopSignals then
      some { p with strays := p.strays - 1, stopsRead := p.stopsRead + 1 }
    else none
  | PoolEvent.strayClosed =>
    if 0 < p.strays then some { p with strays := p.strays - 1 } else none

/-- The pool along a list of events. -/
def poolRun (mainPhase : Bool) : List PoolEvent → Pool → Option Pool
  | [], p => some p
  | e :: rest, p =>
    match poolStep mainPhase p e with
    | none => none
    | some p' => poolRun mainPhase rest p'

/-- The pool when the workers of phase 1 are launched and the `main_scan`
status is sent. -/
def launchMain (s : scheduler) (words : List String) : Pool :=
  { s := sendStatus s "main_scan" 0
    tasks := candidates s words
    workers := List.replicate s.activeWorkers.toNat WorkerState.idle
    strays := 0
    stopsRead := 0
    outcomes := []
    earlier := [] }

/-- Phase 1 of `run` along the events `events`, up to the return of `wg.Wait`:
`none` when `wg.Add` panics on a negative count, when the events leave a
worker running (the wait has not returned), or when the feeder is stuck with
more tasks than the channel holds and no worker left. -/
def mainScan (s : scheduler) (words : List String) (events : List PoolEvent) :
    Option Pool :=
  if s.activeWorkers < 0 then none
  else
    match poolRun true events (launchMain s words) with
    | none => none
    | some p =>
      if p.workers ≠ [] then none
      else if (p.tasks.length : Int) > maxConcurrency then none
      else some p

/-- The pool when the workers of phase 2 are launched: the failed domains are
the tasks, and the values left in stopChan are still there. -/
def launchRetry (p : Pool) : Pool :=
  { s := startRetry p.s
    tasks := p.s.failedDomains
    workers := List.replicate (startRetry p.s).activeWorkers.toNat WorkerState.idle
    strays := 0
    stopsRead := p.stopsRead
    outcomes := []
    earlier := p.outcomes }

/-- Phase 2 of `run` along the events `events`, up to the return of `wg.Wait`,
which also waits for the workers that the monitor started meanwhile.  Tasks
may be left when every worker was stopped. -/
def retryScan (p : Pool) (events : List PoolEvent) : Option Pool :=
  if (startRetry p.s).activeWorkers < 0 then none
  else
    match poolRun false events (launchRetry p) with
    | none => none
    | some p2 => if p2.workers ≠ [] ∨ p2.strays ≠ 0 then none else some p2

/-- The method `run` with its goroutines, along the events of phase 1 and of
phase 2. -/
def runPool (s : scheduler) (enableRetry : Bool) (words : List String)
    (events1 events2 : List PoolEvent) : Option Pool :=
  match mainScan s words events1 with
  | none => none
  | some p1 =>
    if !enableRetry ∨ p1.s.failedDomains.length = 0 then
      some { p1 with s := sendStatus p1.s "done" 0 }
    else
      match retryScan p1 events2 with
      | none => none
      | some p2 => some { p2 with s := sendStatus p2.s "done" 0 }

/-! ## Vocabulary of the properties and example inputs -/

/-- The exchange ended in a transport error: an error that is a `net.Error`. -/
def ExchangeResult.isTransportError : ExchangeResult → Bool
  | ExchangeResult.error err => err.isNetError
  | ExchangeResult.reply _ _ => false

/-- A DNS behaviour in which every exchange times out. -/
def timeoutEnv : DNSEnv :=
  { intn := fun _ _ => 0
    exchange := fun _ _ => ExchangeResult.error (ExchangeError.transport "i/o timeout") }

/-- A resolver with one custom server. -/
def oneServerResolver : Resolver := (NewResolver false).SetDNSServers ["192.0.2.1"]

/-- How an exchange that does not end in a transport error decides the
result. -/
def decides (x : ExchangeResult) (res : ResolveResult) : Prop :=
  match x with
  | ExchangeResult.reply rcode answer =>
    if rcode ≠ RcodeSuccess then
      res.status = ResolveStatus.NotFound ∧ res.ip = "" ∧
        res.err = some (GoError.invalidRcode rcode)
    else
      match firstA answer with
      | some addr => res.status = ResolveStatus.Success ∧ res.ip = addr ∧ res.err = none
      | none => res.status = ResolveStatus.NotFound ∧ res.ip = "" ∧ res.err = none
  | ExchangeResult.error err =>
    res.status = ResolveStatus.Failed ∧ res.ip = "" ∧ res.err = some (GoError.exchange err)

/-- A scheduler on the one-server resolver, for the worker's counters. -/
def oneServerScheduler : scheduler :=
  newScheduler oneServerResolver "example.com" 1 1 false 0

/-- A DNS behaviour in which the first exchange times out and the next ones
answer with a CNAME record followed by two A records. -/
def answerEnv : DNSEnv :=
  { intn := fun _ _ => 0
    exchange := fun k _ =>
      if k = 1 then ExchangeResult.error (ExchangeError.transport "i/o timeout")
      else ExchangeResult.reply RcodeSuccess
        [RR.other 5, RR.A "198.51.100.7", RR.A "198.51.100.8"] }

/-- The state a tick leaves when it does not adjust the workers. -/
def clearWindow (s : scheduler) : scheduler :=
  { s with totalResolutions := 0, retriedResolutions := 0 }

/-- The bounds that the monitor keeps in adaptive mode. -/
def WorkersInBounds (s : scheduler) : Prop :=
  1 ≤ s.minConcurrency ∧ s.minConcurrency ≤ 150 ∧
  s.minConcurrency ≤ s.activeWorkers ∧ s.activeWorkers ≤ 5039

/-- The step a tick requests when the retry rate is at least one half and the
worker count is above the minimum. -/
def shrinkStep (rate : ℚ) : Int := if rate < 7 / 10 then 60 else 120

/-- The part of the scheduler that only the workers and `run` write. -/
def SameScan (s s' : scheduler) : Prop :=
  s'.resolver = s.resolver ∧ s'.domain = s.domain ∧ s'.adaptive = s.adaptive ∧
  s'.totalTasks = s.totalTasks ∧ s'.scanned = s.scanned ∧ s'.failed = s.failed ∧
  s'.totalRequests = s.totalRequests ∧ s'.totalRetries = s.totalRetries ∧
  s'.minConcurrency = s.minConcurrency ∧ s'.failedDomains = s.failedDomains ∧
  s'.results = s.results ∧ s'.statuses = s.statuses ∧ s'.resolved = s.resolved

/-- The candidates of a phase whose resolution ends `Failed`, in order: task
number `i` of the phase meets the DNS behaviour `envs i`. -/
def failedCandidates (r : Resolver) (envs : Nat → DNSEnv) : Nat → List String → List String
  | _, [] => []
  | i, task :: rest =>
    if (r.Resolve (envs i) task).status = ResolveStatus.Failed then
      task :: failedCandidates r envs (i + 1) rest
    else failedCandidates r envs (i + 1) rest

/-- Workers can be launched: the worker count is positive, and within the
bounds of the monitor in adaptive mode. -/
def Launchable (s : scheduler) : Prop :=
  0 < s.activeWorkers ∧ (s.adaptive = true → WorkersInBounds s)

/-- The run went through a retry phase: it sent the `retry_scan` status. -/
def ranRetry (s : scheduler) : Prop := ∃ st ∈ s.statuses, st.Phase = "retry_scan"

/-- No `retry_scan` status was sent so far. -/
def NoRetryStatus (s : scheduler) : Prop := ∀ st ∈ s.statuses, st.Phase ≠ "retry_scan"

/-- A schedule without monitor ticks in which every exchange times out. -/
def timeoutSchedule : Schedule :=
  { env := fun _ _ => timeoutEnv, ticks := fun _ _ => 0 }

/-- The worker pool of a scheduler without monitor: `a` workers, none
spawned or stopped, and every status sent so far reports `a`. -/
def FixedWorkers (a : Int) (s : scheduler) : Prop :=
  s.adaptive = false ∧ s.activeWorkers = a ∧ s.minConcurrency = a ∧ s.spawned = 0 ∧
  s.stopSignals = 0 ∧ ∀ st ∈ s.statuses, st.Concurrency = a

/-- The scheduler of an adaptive scan with the default sizing. -/
def defaultAdaptiveScheduler : scheduler :=
  newScheduler (NewResolver false) "example.com" 10000 0 true 0

/-- A monitor window of 5 resolutions, 4 of them retried: a retry rate of
0.80. -/
def highRetryWindow : Int × Int := (5, 4)

/-- The tier an attempt selects from: tier 1 for the attempts 1 to 3, tier 2
afterwards. -/
def tierOf (r : Resolver) (attempt : Nat) : List String :=
  if attempt ≤ 3 then r.tier1Servers else r.tier2Servers

/-- What holds of the trace on entry of attempt `k`: the used servers are the
servers of the exchanges made, no server and no attempt occurs twice, every
exchange was made at an earlier attempt with a server of the tier of that
attempt, every sleep follows an exchange and no skipped attempt made one. -/
def TraceInv (r : Resolver) (k : Nat) (st : LoopState) : Prop :=
  st.usedServers = st.sent.map Prod.snd ∧
  (st.sent.map Prod.snd).Nodup ∧ (st.sent.map Prod.fst).Nodup ∧
  (∀ p ∈ st.sent, 1 ≤ p.1 ∧ p.1 < k ∧ p.2 ∈ tierOf r p.1) ∧
  (∀ j ∈ st.sleeps, ∃ server, (j, server) ∈ st.sent) ∧
  (∀ j ∈ st.skipped, j < k ∧ ∀ server, (j, server) ∉ st.sent)

/-- What holds of the trace of a result. -/
def ResultTraceOK (r : Resolver) (res : ResolveResult) : Prop :=
  (res.sent.map Prod.snd).Nodup ∧ (res.sent.map Prod.fst).Nodup ∧
  (∀ p ∈ res.sent, 1 ≤ p.1 ∧ p.1 ≤ 6 ∧ p.2 ∈ tierOf r p.1) ∧
  (∀ j ∈ res.sleeps, ∃ server, (j, server) ∈ res.sent) ∧
  (∀ j ∈ res.skipped, ∀ server, (j, server) ∉ res.sent)

/-- The state of a worker after step `pc`. -/
def nextWorker (subdomain : String) (res : ResolveResult) (pc : Nat) : WorkerState :=
  if pc + 1 < workerSteps then WorkerState.busy subdomain res (pc + 1) else WorkerState.idle

/-- The domain that a worker has still to append to `failedDomains`. -/
def WorkerState.pendingFailed : WorkerState → Option String
  | WorkerState.idle => none
  | WorkerState.busy subdomain res pc =>
    if pc ≤ 5 ∧ res.status = ResolveStatus.Failed then some subdomain else none

/-- The domains that the workers have still to append to `failedDomains`. -/
def pendingFailed (workers : List WorkerState) : List String :=
  workers.filterMap WorkerState.pendingFailed

/-- The candidates of a log of `Resolve` calls that ended `Failed`, in call
order. -/
def failedOf (outcomes : List (String × ResolveResult)) : List String :=
  (outcomes.filter (fun o => decide (o.2.status = ResolveStatus.Failed))).map Prod.fst

/-- No worker is in the middle of its updates: every worker is at its
`select`. -/
def Quiescent (p : Pool) : Prop := ∀ w ∈ p.workers, w = WorkerState.idle

/-- The workers of phase 1 and the stop signals: no worker reads a closed
channel of an earlier phase, no more signals are received than were sent, and
while tasks are left every worker launched or started is still there unless a
stop signal took it. -/
def MainBalance (p : Pool) : Prop :=
  p.strays = 0 ∧ p.stopsRead ≤ p.s.stopSignals ∧ Launchable p.s ∧
  (p.tasks ≠ [] →
    (p.workers.length : Int) + (p.stopsRead : Int)
      = p.s.activeWorkers + (p.s.stopSignals : Int))

/-- What holds of the task channel and of `failedDomains` during a phase that
started with the tasks `tasks0`: the tasks are received in order, each once,
and the failed domains recorded or about to be are the candidates whose
resolution ended `Failed`, each once. -/
def PhaseTrace (tasks0 : List String) (p : Pool) : Prop :=
  p.outcomes.map Prod.fst ++ p.tasks = tasks0 ∧
  List.Perm (p.s.failedDomains ++ pendingFailed p.workers) (failedOf p.outcomes)

/-- Every logged outcome and every result held by a worker is what `Resolve`
returned on the resolver `r` for the logged domain, under some DNS
behaviour. -/
def ResolvedBy (r : Resolver) (p : Pool) : Prop :=
  p.s.resolver = r ∧
  (∀ o ∈ p.earlier ++ p.outcomes, ∃ env, o.2 = r.Resolve env o.1) ∧
  (∀ subdomain res pc, WorkerState.busy subdomain res pc ∈ p.workers →
    ∃ env, res = r.Resolve env subdomain)

/-- The events of a phase with one worker and one task whose exchanges time
out: the worker receives the task, makes its nine steps and finds the channel
closed. -/
def oneWorkerEvents : List PoolEvent :=
  PoolEvent.receive 0 timeoutEnv :: (List.replicate 9 (PoolEvent.update 0)
    ++ [PoolEvent.closed 0])

/-- The events of one worker on one task whose exchanges time out: the worker
receives the task and makes its nine steps. -/
def timeoutCycle : List PoolEvent :=
  PoolEvent.receive 0 timeoutEnv :: List.replicate 9 (PoolEvent.update 0)

/-- The events of one worker on `n` tasks in a row whose exchanges time out. -/
def timeoutCycles : Nat → List PoolEvent
  | 0 => []
  | n + 1 => timeoutCycle ++ timeoutCycles n

/-- What a worker has still to add to `scanned`. -/
def WorkerState.dueScanned : WorkerState → Nat
  | WorkerState.idle => 0
  | WorkerState.busy _ _ pc => if pc = 0 then 1 else 0

/-- What a worker has still to add to `totalRequests`. -/
def WorkerState.dueRequests : WorkerState → Nat
  | WorkerState.idle => 0
  | WorkerState.busy _ res pc => if pc ≤ 1 then res.attempts else 0

/-- What a worker has still to add to `totalRetries`. -/
def WorkerState.dueRetries : WorkerState → Nat
  | WorkerState.idle => 0
  | WorkerState.busy _ res pc => if pc ≤ 2 then res.attempts - 1 else 0

/-- The sum of what the workers have still to add. -/
def due (f : WorkerState → Nat) (workers : List WorkerState) : Nat := (workers.map f).sum

/-- The attempts of a log of `Resolve` calls. -/
def totalAttempts (outcomes : List (String × ResolveResult)) : Nat :=
  (outcomes.map (fun o => o.2.attempts)).sum

/-- The counters and what the workers have still to add make up the
resolutions of the phase, the attempts of the run and its retries. -/
def CountersBalanced (p : Pool) : Prop :=
  p.s.scanned + (due WorkerState.dueScanned p.workers : Int) = (p.outcomes.length : Int) ∧
  0 ≤ p.s.scanned ∧
  p.s.totalRequests + (due WorkerState.dueRequests p.workers : Int)
    = (totalAttempts p.earlier : Int) + (totalAttempts p.outcomes : Int) ∧
  0 ≤ p.s.totalRequests ∧
  p.s.totalRetries + (due WorkerState.dueRetries p.workers : Int)
      + ((p.earlier.length : Int) + (p.outcomes.length : Int))
    = (totalAttempts p.earlier : Int) + (totalAttempts p.outcomes : Int) ∧
  0 ≤ p.s.totalRetries

/-- The invariant of the counters of the pool: the results come from
`Resolve`, and the counters are balanced as long as the `int32` counters
cannot have wrapped, that is while 6 times the resolutions made are below
2^31. -/
def PoolCounters (r : Resolver) (p : Pool) : Prop :=
  ResolvedBy r p ∧
  (6 * ((p.earlier.length : Int) + (p.outcomes.length : Int)) < 2147483648 →
    CountersBalanced p)

/-! ## Properties of `Resolve` -/

theorem resolveLoop_cons (r : Resolver) (env : DNSEnv) (domain : String) (a : Nat)
    (rest : List Nat) (st : LoopState) :
    resolveLoop r env domain (a :: rest) st =
      match attemptBody r env a st with
      | Sum.inl res => res
      | Sum.inr st' => resolveLoop r env domain rest st' := rfl

theorem selectServer_nil_used (intn : Nat → Nat) (servers : List String)
    (h : servers ≠ []) : ∃ server, selectServer intn servers [] = some server := by
  cases servers with
  | nil => exact absurd rfl h
  | cons a l => simp [selectServer]

/-- Once a transport error has been seen, a loop all of whose exchanges end in
transport errors runs to the end and reports the failure. -/
theorem resolveLoop_all_transport (r : Resolver) (env : DNSEnv) (domain : String)
    (l : List Nat) : ∀ st : LoopState, st.isNetworkError = true →
    (∀ p ∈ (resolveLoop r env domain l st).sent,
      (env.exchange p.1 p.2).isTransportError = true) →
    (resolveLoop r env domain l st).status = ResolveStatus.Failed ∧
    (resolveLoop r env domain l st).attempts = maxAttempts ∧
    (resolveLoop r env domain l st).err ≠ none := by
  induction l with
  | nil =>
    intro st hst _
    simp [resolveLoop, afterLoop, hst]
  | cons a rest ih =>
    intro st hst hall
    simp only [resolveLoop] at hall ⊢
    cases hb : attemptBody r env a st with
    | inl res =>
      rw [hb] at hall
      simp only at hall ⊢
      exfalso
      unfold attemptBody at hb
      simp only at hb
      split at hb
      · cases hb
      · rename_i server _
        split at hb
        · rename_i rcode answer hex
          have hmem : (a, server) ∈ res.sent := by
            split at hb
            · cases hb; simp
            · split at hb <;> (cases hb; simp)
          have := hall _ hmem
          simp [hex, ExchangeResult.isTransportError] at this
        · rename_i err hex
          split at hb
          · cases hb
          · rename_i hnet
            cases hb
            have := hall (a, server) (by simp)
            simp [hex, ExchangeResult.isTransportError] at this
            exact hnet this
    | inr st' =>
      rw [hb] at hall
      simp only at hall ⊢
      apply ih st' _ hall
      unfold attemptBody at hb
      simp only at hb
      split at hb
      · cases hb; exact hst
      · split at hb
        · split at hb
          · cases hb
          · split at hb <;> cases hb
        · split at hb
          · cases hb; rfl
          · cases hb

theorem attemptBody_inl (r : Resolver) (env : DNSEnv) (a : Nat) (st : LoopState)
    (res : ResolveResult) (hb : attemptBody r env a st = Sum.inl res) :
    ∃ server, res.sent = (a, server) :: st.sent ∧ res.attempts = a ∧
      res.skipped = st.skipped ∧ res.sleeps = st.sleeps ∧
      (env.exchange a server).isTransportError = false ∧
      decides (env.exchange a server) res := by
  unfold attemptBody at hb
  simp only at hb
  split at hb
  · cases hb
  · rename_i server _
    refine ⟨server, ?_⟩
    split at hb
    · rename_i rcode answer hex
      rw [hex]
      split at hb
      · rename_i hrc
        cases hb
        simp [ExchangeResult.isTransportError, decides, hrc]
      · rename_i hrc
        split at hb
        · rename_i addr hfa
          cases hb
          simp [ExchangeResult.isTransportError, decides, hrc, hfa]
        · rename_i hfa
          cases hb
          simp [ExchangeResult.isTransportError, decides, hrc, hfa]
    · rename_i err hex
      rw [hex]
      split at hb
      · cases hb
      · rename_i hnet
        cases hb
        simp [ExchangeResult.isTransportError, decides, hnet]

theorem attemptBody_inr (r : Resolver) (env : DNSEnv) (a : Nat) (st st' : LoopState)
    (hb : attemptBody r env a st = Sum.inr st') :
    (st'.sent = st.sent ∧ st'.skipped = a :: st.skipped ∧ st'.sleeps = st.sleeps ∧
      st'.isNetworkError = st.isNetworkError ∧ st'.usedServers = st.usedServers) ∨
    (∃ server, st'.sent = (a, server) :: st.sent ∧ st'.skipped = st.skipped ∧
      st'.sleeps = a :: st.sleeps ∧ st'.isNetworkError = true ∧
      st'.usedServers = server :: st.usedServers ∧
      (env.exchange a server).isTransportError = true) := by
  unfold attemptBody at hb
  simp only at hb
  split at hb
  · cases hb
    left
    simp
  · rename_i server _
    split at hb
    · split at hb
      · cases hb
      · split at hb <;> cases hb
    · rename_i err hex
      split at hb
      · rename_i hnet
        cases hb
        right
        exact ⟨server, rfl, rfl, rfl, rfl, rfl, by simp [hex, ExchangeResult.isTransportError, hnet]⟩
      · cases hb

/-- In any run of the loop, an exchange that does not end in a transport error
is the latest one made, and it decides the result. -/
theorem resolveLoop_decided (r : Resolver) (env : DNSEnv) (domain : String)
    (l : List Nat) : ∀ st : LoopState,
    (∀ p ∈ st.sent, (env.exchange p.1 p.2).isTransportError = true) →
    ∀ k server, (k, server) ∈ (resolveLoop r env domain l st).sent →
    (env.exchange k server).isTransportError = false →
    k ∈ l ∧ (resolveLoop r env domain l st).attempts = k ∧
    (resolveLoop r env domain l st).sent.head? = some (k, server) ∧
    (∀ p ∈ (resolveLoop r env domain l st).sent.tail,
      (env.exchange p.1 p.2).isTransportError = true) ∧
    decides (env.exchange k server) (resolveLoop r env domain l st) := by
  induction l with
  | nil =>
    intro st hst k server hmem hnt
    have hs : (resolveLoop r env domain [] st).sent = st.sent := by
      simp only [resolveLoop, afterLoop]
      split <;> rfl
    rw [hs] at hmem
    have := hst _ hmem
    simp [hnt] at this
  | cons a rest ih =>
    intro st hst k server hmem hnt
    simp only [resolveLoop] at hmem ⊢
    cases hb : attemptBody r env a st with
    | inl res =>
      rw [hb] at hmem
      simp only at hmem ⊢
      obtain ⟨srv, hsent, hatt, -, -, -, hdec⟩ := attemptBody_inl r env a st res hb
      rw [hsent] at hmem
      rcases List.mem_cons.mp hmem with heq | hold
      · cases heq
        refine ⟨by simp, hatt, by simp [hsent], ?_, hdec⟩
        rw [hsent]
        exact hst
      · have := hst _ hold
        simp [hnt] at this
    | inr st' =>
      rw [hb] at hmem
      simp only at hmem ⊢
      have hst' : ∀ p ∈ st'.sent, (env.exchange p.1 p.2).isTransportError = true := by
        rcases attemptBody_inr r env a st st' hb with ⟨hs, -⟩ | ⟨srv, hs, -, -, -, -, ht⟩
        · rw [hs]; exact hst
        · rw [hs]
          intro p hp
          rcases List.mem_cons.mp hp with heq | hold
          · cases heq; exact ht
          · exact hst p hold
      obtain ⟨h1, h2⟩ := ih st' hst' k server hmem hnt
      exact ⟨List.mem_cons_of_mem _ h1, h2⟩

/-- The attempts of the loop are counted by the exchanges made and the
attempts skipped. -/
theorem resolveLoop_attempts (r : Resolver) (env : DNSEnv) (domain : String)
    (n : Nat) : ∀ (k : Nat) (st : LoopState), 1 ≤ k → k + n = maxAttempts + 1 →
    st.sent.length + st.skipped.length + 1 = k →
    1 ≤ (resolveLoop r env domain (List.range' k n) st).attempts ∧
    (resolveLoop r env domain (List.range' k n) st).attempts ≤ maxAttempts ∧
    (resolveLoop r env domain (List.range' k n) st).sent.length +
      (resolveLoop r env domain (List.range' k n) st).skipped.length =
      (resolveLoop r env domain (List.range' k n) st).attempts := by
  induction n with
  | zero =>
    intro k st hk hkn hst
    simp only [List.range', resolveLoop, afterLoop, maxAttempts] at *
    split <;> simp <;> omega
  | succ n ih =>
    intro k st hk hkn hst
    simp only [List.range', resolveLoop]
    cases hb : attemptBody r env k st with
    | inl res =>
      simp only
      obtain ⟨srv, hsent, hatt, hskip, -⟩ := attemptBody_inl r env k st res hb
      rw [hsent, hatt, hskip]
      simp only [List.length_cons, maxAttempts] at *
      omega
    | inr st' =>
      simp only
      apply ih (k + 1) st' (by omega) (by omega)
      rcases attemptBody_inr r env k st st' hb with ⟨hs, hk', -⟩ | ⟨srv, hs, hk', -⟩
      · rw [hs, hk']; simp only [List.length_cons]; omega
      · rw [hs, hk']; simp only [List.length_cons]; omega

theorem firstA_eq_some (answer pre post : List RR) (addr : String)
    (h : answer = pre ++ RR.A addr :: post) (hpre : ∀ x ∈ pre, ∃ t, x = RR.other t) :
    firstA answer = some addr := by
  subst h
  induction pre with
  | nil => rfl
  | cons x pre ih =>
    obtain ⟨t, rfl⟩ := hpre x (by simp)
    simp only [List.cons_append, firstA]
    exact ih (fun y hy => hpre y (List.mem_cons_of_mem _ hy))

theorem firstA_eq_none (answer : List RR) (h : ∀ x ∈ answer, ∃ t, x = RR.other t) :
    firstA answer = none := by
  induction answer with
  | nil => rfl
  | cons x rest ih =>
    obtain ⟨t, rfl⟩ := h x (by simp)
    simp only [firstA]
    exact ih (fun y hy => h y (List.mem_cons_of_mem _ hy))

/-- C1: with a non-empty tier 1, when every exchange made during the call ends
in a transport error, `Resolve` returns `Failed` with 6 attempts and a non-nil
error, and the worker adds 6 to `totalRequests` and 5 to `totalRetries`. -/
theorem resolve_all_transport_errors_failed (s : scheduler) (env : DNSEnv)
    (domain : String) (htier : s.resolver.tier1Servers ≠ [])
    (hall : ∀ p ∈ (s.resolver.Resolve env domain).sent,
      (env.exchange p.1 p.2).isTransportError = true) :
    (s.resolver.Resolve env domain).status = ResolveStatus.Failed ∧
    (s.resolver.Resolve env domain).attempts = 6 ∧
    (s.resolver.Resolve env domain).err ≠ none ∧
    (workerTask s domain env).totalRequests = int32 (s.totalRequests + 6) ∧
    (workerTask s domain env).totalRetries = int32 (s.totalRetries + 5) := by
  have key : (s.resolver.Resolve env domain).status = ResolveStatus.Failed ∧
      (s.resolver.Resolve env domain).attempts = maxAttempts ∧
      (s.resolver.Resolve env domain).err ≠ none := by
    unfold Resolver.Resolve at hall ⊢
    have hr : List.range' 1 maxAttempts = 1 :: List.range' 2 5 := rfl
    rw [hr, resolveLoop_cons] at hall ⊢
    cases hb : attemptBody s.resolver env 1 initLoop with
    | inl res =>
      rw [hb] at hall
      simp only at hall
      obtain ⟨srv, hsent, -, -, -, hnt, -⟩ := attemptBody_inl _ env 1 initLoop res hb
      have := hall (1, srv) (by rw [hsent]; simp)
      simp [hnt] at this
    | inr st' =>
      rw [hb] at hall
      simp only at hall ⊢
      apply resolveLoop_all_transport _ env domain _ st' _ hall
      rcases attemptBody_inr _ env 1 initLoop st' hb with ⟨-, hskip, -⟩ | ⟨srv, -, -, -, hnet, -⟩
      · exfalso
        obtain ⟨server, hsel⟩ := selectServer_nil_used (env.intn 1) _ htier
        unfold attemptBody at hb
        simp only [show (1 : Nat) ≤ 3 by decide, if_true, initLoop, hsel] at hb
        split at hb
        · split at hb
          · cases hb
          · split at hb <;> cases hb
        · split at hb
          · cases hb
            simp at hskip
          · cases hb
      · exact hnet
  obtain ⟨h1, h2, h3⟩ := key
  have h2' : (s.resolver.Resolve env domain).attempts = 6 := h2
  refine ⟨h1, h2', h3, ?_, ?_⟩
  · simp [workerTask, workerStatus, recordResolution, sendStatus, h2']
    split <;> simp [int32]
  · simp [workerTask, workerStatus, recordResolution, sendStatus, h2']
    split <;> simp [int32]

/-- C1 at the resolver with one custom server whose every exchange times
out. -/
theorem resolve_all_transport_errors_failed_witness :
    oneServerScheduler.resolver.tier1Servers ≠ [] ∧
    (∀ p ∈ (oneServerScheduler.resolver.Resolve timeoutEnv "a.example.com").sent,
      (timeoutEnv.exchange p.1 p.2).isTransportError = true) ∧
    (oneServerScheduler.resolver.Resolve timeoutEnv "a.example.com").status
      = ResolveStatus.Failed ∧
    (oneServerScheduler.resolver.Resolve timeoutEnv "a.example.com").attempts = 6 ∧
    (oneServerScheduler.resolver.Resolve timeoutEnv "a.example.com").err ≠ none ∧
    (workerTask oneServerScheduler "a.example.com" timeoutEnv).totalRequests
      = int32 (oneServerScheduler.totalRequests + 6) ∧
    (workerTask oneServerScheduler "a.example.com" timeoutEnv).totalRetries
      = int32 (oneServerScheduler.totalRetries + 5) :=
  ⟨by decide, by decide,
    resolve_all_transport_errors_failed oneServerScheduler timeoutEnv "a.example.com"
      (by decide) (by decide)⟩

/-- C2: an exchange made at attempt `k` that does not end in a transport
error is the first such exchange and the last exchange of the call, and it
decides the result with `attempts = k`: a reply with another rcode than
success gives `NotFound` with an empty ip and an error, a success reply gives
`Success` with the first A record of the answer in answer order, a success
reply without A record gives `NotFound` without error, and an error that is
not a transport error gives `Failed` with that error. -/
theorem resolve_first_non_transport_decides (r : Resolver) (env : DNSEnv)
    (domain : String) (k : Nat) (server : String)
    (hmade : (k, server) ∈ (r.Resolve env domain).sent)
    (hnt : (env.exchange k server).isTransportError = false) :
    1 ≤ k ∧ k ≤ 6 ∧ (r.Resolve env domain).attempts = k ∧
    (r.Resolve env domain).sent.head? = some (k, server) ∧
    (∀ p ∈ (r.Resolve env domain).sent.tail,
      (env.exchange p.1 p.2).isTransportError = true) ∧
    (∀ rcode answer, env.exchange k server = ExchangeResult.reply rcode answer →
      rcode ≠ RcodeSuccess →
      (r.Resolve env domain).status = ResolveStatus.NotFound ∧
      (r.Resolve env domain).ip = "" ∧ (r.Resolve env domain).err ≠ none) ∧
    (∀ answer pre addr post,
      env.exchange k server = ExchangeResult.reply RcodeSuccess answer →
      answer = pre ++ RR.A addr :: post → (∀ x ∈ pre, ∃ t, x = RR.other t) →
      (r.Resolve env domain).status = ResolveStatus.Success ∧
      (r.Resolve env domain).ip = addr ∧ (r.Resolve env domain).err = none) ∧
    (∀ answer, env.exchange k server = ExchangeResult.reply RcodeSuccess answer →
      (∀ x ∈ answer, ∃ t, x = RR.other t) →
      (r.Resolve env domain).status = ResolveStatus.NotFound ∧
      (r.Resolve env domain).err = none) ∧
    (∀ err, env.exchange k server = ExchangeResult.error err →
      (r.Resolve env domain).status = ResolveStatus.Failed ∧
      (r.Resolve env domain).err = some (GoError.exchange err)) := by
  unfold Resolver.Resolve at hmade ⊢
  obtain ⟨hk, hatt, hhead, htail, hdec⟩ :=
    resolveLoop_decided r env domain (List.range' 1 maxAttempts) initLoop
      (by simp [initLoop]) k server hmade hnt
  have hk' : 1 ≤ k ∧ k ≤ 6 := by
    simp only [List.mem_range', maxAttempts] at hk
    omega
  refine ⟨hk'.1, hk'.2, hatt, hhead, htail, ?_, ?_, ?_, ?_⟩
  · intro rcode answer hex hrc
    rw [hex] at hdec
    simp only [decides, hrc, ne_eq, not_false_eq_true, if_true] at hdec
    exact ⟨hdec.1, hdec.2.1, by simp [hdec.2.2]⟩
  · intro answer pre addr post hex hans hpre
    rw [hex] at hdec
    simp only [decides, ne_eq, not_true_eq_false, if_false,
      firstA_eq_some answer pre post addr hans hpre] at hdec
    exact hdec
  · intro answer hex hno
    rw [hex] at hdec
    simp only [decides, ne_eq, not_true_eq_false, if_false, firstA_eq_none answer hno] at hdec
    exact ⟨hdec.1, hdec.2.2⟩
  · intro err hex
    rw [hex] at hdec
    simp only [decides] at hdec
    exact ⟨hdec.1, hdec.2.2⟩

/-- C2 at the default resolver when the first exchange times out and the
second is answered: the second exchange decides. -/
theorem resolve_first_non_transport_decides_witness :
    (2, "8.8.4.4:53") ∈ ((NewResolver false).Resolve answerEnv "a.example.com").sent ∧
    (answerEnv.exchange 2 "8.8.4.4:53").isTransportError = false ∧
    ((NewResolver false).Resolve answerEnv "a.example.com").attempts = 2 ∧
    ((NewResolver false).Resolve answerEnv "a.example.com").status = ResolveStatus.Success ∧
    ((NewResolver false).Resolve answerEnv "a.example.com").ip = "198.51.100.7" ∧
    ((NewResolver false).Resolve answerEnv "a.example.com").err = none :=
  have h := resolve_first_non_transport_decides (NewResolver false) answerEnv
    "a.example.com" 2 "8.8.4.4:53" (by decide) (by decide)
  have h7 := h.2.2.2.2.2.2.1 [RR.other 5, RR.A "198.51.100.7", RR.A "198.51.100.8"]
    [RR.other 5] "198.51.100.7" [RR.A "198.51.100.8"] (by decide) (by decide)
    (by intro x hx; exact ⟨5, by simpa using hx⟩)
  ⟨by decide, by decide, h.2.2.1, h7⟩

/-- C3, as it holds: the attempts returned by `Resolve` are between 1 and 6 and
count the exchanges made plus the attempts skipped for want of an unused
server, so that the exchanges are at most the attempts. -/
theorem resolve_attempts_exchanges_plus_skipped (r : Resolver) (env : DNSEnv)
    (domain : String) :
    1 ≤ (r.Resolve env domain).attempts ∧ (r.Resolve env domain).attempts ≤ 6 ∧
    (r.Resolve env domain).sent.length + (r.Resolve env domain).skipped.length
      = (r.Resolve env domain).attempts ∧
    (r.Resolve env domain).sent.length ≤ (r.Resolve env domain).attempts := by
  obtain ⟨h1, h2, h3⟩ := resolveLoop_attempts r env domain maxAttempts 1 initLoop
    (by decide) (by decide) (by simp [initLoop])
  unfold Resolver.Resolve
  refine ⟨h1, h2, h3, ?_⟩
  omega

/-- C3 fails as stated: with one custom server whose exchanges time out,
`Resolve` returns 6 attempts after a single exchange. -/
theorem resolve_attempts_not_exchanges :
    (oneServerResolver.Resolve timeoutEnv "a.example.com").attempts = 6 ∧
    (oneServerResolver.Resolve timeoutEnv "a.example.com").sent.length = 1 ∧
    ¬ ((oneServerResolver.Resolve timeoutEnv "a.example.com").attempts
        = (oneServerResolver.Resolve timeoutEnv "a.example.com").sent.length) := by
  decide

/-! ## Properties of the monitor -/

theorem int32_of_range (x : Int) (h1 : -2147483648 ≤ x) (h2 : x < 2147483648) :
    int32 x = x := by
  unfold int32
  omega

/-- The fields of the scheduler that `adjustWorkers` leaves alone. -/
theorem adjustWorkers_fields (s : scheduler) (delta : Int) :
    (adjustWorkers s delta).resolver = s.resolver ∧
    (adjustWorkers s delta).domain = s.domain ∧
    (adjustWorkers s delta).adaptive = s.adaptive ∧
    (adjustWorkers s delta).totalTasks = s.totalTasks ∧
    (adjustWorkers s delta).scanned = s.scanned ∧
    (adjustWorkers s delta).failed = s.failed ∧
    (adjustWorkers s delta).totalRequests = s.totalRequests ∧
    (adjustWorkers s delta).totalRetries = s.totalRetries ∧
    (adjustWorkers s delta).minConcurrency = s.minConcurrency ∧
    (adjustWorkers s delta).totalResolutions = s.totalResolutions ∧
    (adjustWorkers s delta).retriedResolutions = s.retriedResolutions ∧
    (adjustWorkers s delta).failedDomains = s.failedDomains ∧
    (adjustWorkers s delta).results = s.results ∧
    (adjustWorkers s delta).statuses = s.statuses ∧
    (adjustWorkers s delta).resolved = s.resolved := by
  unfold adjustWorkers
  dsimp only
  split_ifs <;> simp

/-- A tick is `adjustWorkers` on the cleared window, with a delta among
0, 40, 20, -60 and -120; it grows only below `maxConcurrency` and shrinks only
above `minConcurrency`. -/
theorem monitorTick_eq_adjust (s : scheduler) :
    ∃ delta : Int, (delta = 0 ∨ delta = 40 ∨ delta = 20 ∨ delta = -60 ∨ delta = -120) ∧
      (0 < delta → s.activeWorkers < maxConcurrency) ∧
      (delta < 0 → s.minConcurrency < s.activeWorkers) ∧
      monitorTick s = adjustWorkers (clearWindow s) delta := by
  unfold monitorTick
  dsimp only
  split_ifs with h0 h1 h2 h3 h4
  · exact ⟨0, by simp, by simp, by simp, by simp [adjustWorkers, clearWindow]⟩
  · exact ⟨40, by simp, fun _ => h1.2, by simp, rfl⟩
  · exact ⟨20, by simp, fun _ => h2.2.2, by simp, rfl⟩
  · exact ⟨-60, by simp, by simp, fun _ => h3.2.2, rfl⟩
  · exact ⟨-120, by simp, by simp, fun _ => h4.2, rfl⟩
  · exact ⟨0, by simp, by simp, by simp, by simp [adjustWorkers, clearWindow]⟩

/-- Growth by 20 or 40 workers from a count in the `int32` range. -/
theorem adjustWorkers_grow (s : scheduler) (delta : Int) (hd : delta = 40 ∨ delta = 20)
    (h1 : -2147483648 ≤ s.activeWorkers) (h2 : s.activeWorkers < maxConcurrency) :
    (adjustWorkers s delta).activeWorkers = s.activeWorkers + delta ∧
    (adjustWorkers s delta).stopSignals = s.stopSignals := by
  unfold maxConcurrency at h2
  rcases hd with rfl | rfl <;>
  · simp only [adjustWorkers, int32]
    constructor
    · simp only [gt_iff_lt, Int.reduceLT, if_true]
      omega
    · simp

/-- A shrink by 60 or 120 workers stops `min(|delta|, activeWorkers -
minConcurrency)` workers and sends as many stop signals. -/
theorem adjustWorkers_shrink (s : scheduler) (delta : Int) (hd : delta = -60 ∨ delta = -120)
    (hmin1 : -2147483648 + 120 ≤ s.minConcurrency)
    (hle : s.minConcurrency ≤ s.activeWorkers) (h2 : s.activeWorkers < 2147483648) :
    (adjustWorkers s delta).activeWorkers
      = s.activeWorkers - min (-delta) (s.activeWorkers - s.minConcurrency) ∧
    ((adjustWorkers s delta).stopSignals : Int)
      = s.stopSignals + min (-delta) (s.activeWorkers - s.minConcurrency) := by
  rcases hd with rfl | rfl <;>
  · simp only [adjustWorkers, int32]
    split_ifs <;> (try simp only [Nat.cast_add]) <;> (constructor <;> omega)

/-- C4: a monitor tick with window counters `totalResolutions` and
`retriedResolutions` leaves the worker count alone when the total is 0;
otherwise, with the retry rate `retried / total` and the worker count `w`, it
requests +40 when the rate is below 0.20 and `w < 5000`, +20 when the rate is
in [0.20, 0.50) and `w < 5000`, -60 when the rate is in [0.50, 0.70) and
`w > minConcurrency`, -120 when the rate is at least 0.70 and
`w > minConcurrency`, and nothing in every other case; both window counters
are zero after the tick. -/
theorem monitorTick_rule_table (s : scheduler) :
    (s.totalResolutions = 0 → monitorTick s = clearWindow s) ∧
    (s.totalResolutions ≠ 0 →
      retryRate s.retriedResolutions s.totalResolutions < 1 / 5 →
      s.activeWorkers < 5000 → monitorTick s = adjustWorkers (clearWindow s) 40) ∧
    (s.totalResolutions ≠ 0 →
      1 / 5 ≤ retryRate s.retriedResolutions s.totalResolutions →
      retryRate s.retriedResolutions s.totalResolutions < 1 / 2 →
      s.activeWorkers < 5000 → monitorTick s = adjustWorkers (clearWindow s) 20) ∧
    (s.totalResolutions ≠ 0 →
      1 / 2 ≤ retryRate s.retriedResolutions s.totalResolutions →
      retryRate s.retriedResolutions s.totalResolutions < 7 / 10 →
      s.minConcurrency < s.activeWorkers →
      monitorTick s = adjustWorkers (clearWindow s) (-60)) ∧
    (s.totalResolutions ≠ 0 →
      7 / 10 ≤ retryRate s.retriedResolutions s.totalResolutions →
      s.minConcurrency < s.activeWorkers →
      monitorTick s = adjustWorkers (clearWindow s) (-120)) ∧
    (s.totalResolutions ≠ 0 →
      (retryRate s.retriedResolutions s.totalResolutions < 1 / 2 → 5000 ≤ s.activeWorkers) →
      (1 / 2 ≤ retryRate s.retriedResolutions s.totalResolutions →
        s.activeWorkers ≤ s.minConcurrency) →
      monitorTick s = clearWindow s) ∧
    (clearWindow s).activeWorkers = s.activeWorkers ∧
    (clearWindow s).stopSignals = s.stopSignals ∧
    (clearWindow s).spawned = s.spawned ∧
    (monitorTick s).totalResolutions = 0 ∧ (monitorTick s).retriedResolutions = 0 := by
  have e1 : (20 : ℚ) / 100 = 1 / 5 := by norm_num
  have e2 : (50 : ℚ) / 100 = 1 / 2 := by norm_num
  have e3 : (70 : ℚ) / 100 = 7 / 10 := by norm_num
  have h15 : (1 : ℚ) / 5 < 1 / 2 := by norm_num
  have h27 : (1 : ℚ) / 2 < 7 / 10 := by norm_num
  refine ⟨?_, ?_, ?_, ?_, ?_, ?_, rfl, rfl, rfl, ?_, ?_⟩
  · intro h0
    unfold monitorTick
    dsimp only
    rw [if_pos h0]
    rfl
  · intro h0 hr hw
    unfold monitorTick
    dsimp only
    rw [e1, if_neg h0, if_pos ⟨hr, hw⟩]
    rfl
  · intro h0 hr1 hr2 hw
    unfold monitorTick
    dsimp only
    rw [e1, e2, if_neg h0, if_neg (fun h => absurd h.1 (not_lt.mpr hr1)),
      if_pos ⟨hr1, hr2, hw⟩]
    rfl
  · intro h0 hr1 hr2 hw
    have n1 : ¬ retryRate s.retriedResolutions s.totalResolutions < 1 / 5 :=
      not_lt.mpr (le_trans h15.le hr1)
    unfold monitorTick
    dsimp only
    rw [e1, e2, e3, if_neg h0, if_neg (fun h => n1 h.1),
      if_neg (fun h => absurd h.2.1 (not_lt.mpr hr1)), if_pos ⟨hr1, hr2, hw⟩]
    rfl
  · intro h0 hr hw
    have n2 : ¬ retryRate s.retriedResolutions s.totalResolutions < 1 / 2 :=
      not_lt.mpr (le_trans h27.le hr)
    have n1 : ¬ retryRate s.retriedResolutions s.totalResolutions < 1 / 5 :=
      fun h => n2 (lt_trans h h15)
    unfold monitorTick
    dsimp only
    rw [e1, e2, e3, if_neg h0, if_neg (fun h => n1 h.1), if_neg (fun h => n2 h.2.1),
      if_neg (fun h => absurd h.2.1 (not_lt.mpr hr)), if_pos ⟨hr, hw⟩]
    rfl
  · intro h0 hlow hhigh
    unfold monitorTick
    dsimp only
    rw [e1, e2, e3, if_neg h0]
    unfold maxConcurrency
    split_ifs with h1 h2 h3 h4
    · exact absurd (hlow (lt_trans h1.1 h15)) (not_le.mpr h1.2)
    · exact absurd (hlow h2.2.1) (not_le.mpr h2.2.2)
    · exact absurd (hhigh h3.1) (not_le.mpr h3.2.2)
    · exact absurd (hhigh (le_trans h27.le h4.1)) (not_le.mpr h4.2)
    · rfl
  · obtain ⟨d, -, -, -, h⟩ := monitorTick_eq_adjust s
    rw [h, (adjustWorkers_fields _ d).2.2.2.2.2.2.2.2.2.1]
    rfl
  · obtain ⟨d, -, -, -, h⟩ := monitorTick_eq_adjust s
    rw [h, (adjustWorkers_fields _ d).2.2.2.2.2.2.2.2.2.2.1]
    rfl

theorem monitorTick_bounds (s : scheduler) (h : WorkersInBounds s) :
    WorkersInBounds (monitorTick s) ∧ (monitorTick s).adaptive = s.adaptive ∧
    (monitorTick s).minConcurrency = s.minConcurrency := by
  obtain ⟨h1, h2, h3, h4⟩ := h
  obtain ⟨d, hd, hpos, hneg, he⟩ := monitorTick_eq_adjust s
  have hf := adjustWorkers_fields (clearWindow s) d
  have hmin : (monitorTick s).minConcurrency = s.minConcurrency := by
    rw [he, hf.2.2.2.2.2.2.2.2.1]; rfl
  have hada : (monitorTick s).adaptive = s.adaptive := by
    rw [he, hf.2.2.1]; rfl
  refine ⟨?_, hada, hmin⟩
  unfold WorkersInBounds
  rw [hmin]
  refine ⟨h1, h2, ?_⟩
  rw [he]
  unfold maxConcurrency at hpos
  rcases hd with rfl | rfl | rfl | rfl | rfl
  · have : adjustWorkers (clearWindow s) 0 = clearWindow s := by simp [adjustWorkers]
    rw [this]
    exact ⟨h3, h4⟩
  · have hw := hpos (by decide)
    obtain ⟨ha, -⟩ := adjustWorkers_grow (clearWindow s) 40 (Or.inl rfl)
      (show -2147483648 ≤ s.activeWorkers by omega) hw
    rw [ha]
    show s.minConcurrency ≤ s.activeWorkers + 40 ∧ s.activeWorkers + 40 ≤ 5039
    omega
  · have hw := hpos (by decide)
    obtain ⟨ha, -⟩ := adjustWorkers_grow (clearWindow s) 20 (Or.inr rfl)
      (show -2147483648 ≤ s.activeWorkers by omega) hw
    rw [ha]
    show s.minConcurrency ≤ s.activeWorkers + 20 ∧ s.activeWorkers + 20 ≤ 5039
    omega
  · obtain ⟨ha, -⟩ := adjustWorkers_shrink (clearWindow s) (-60) (Or.inl rfl)
      (show -2147483648 + 120 ≤ s.minConcurrency by omega) h3
      (show s.activeWorkers < 2147483648 by omega)
    rw [ha]
    show s.minConcurrency ≤ s.activeWorkers - min (- -60) (s.activeWorkers - s.minConcurrency) ∧
      s.activeWorkers - min (- -60) (s.activeWorkers - s.minConcurrency) ≤ 5039
    omega
  · obtain ⟨ha, -⟩ := adjustWorkers_shrink (clearWindow s) (-120) (Or.inr rfl)
      (show -2147483648 + 120 ≤ s.minConcurrency by omega) h3
      (show s.activeWorkers < 2147483648 by omega)
    rw [ha]
    show s.minConcurrency ≤ s.activeWorkers - min (- -120) (s.activeWorkers - s.minConcurrency) ∧
      s.activeWorkers - min (- -120) (s.activeWorkers - s.minConcurrency) ≤ 5039
    omega

theorem tickWith_bounds (s : scheduler) (window : Int × Int) (h : WorkersInBounds s) :
    WorkersInBounds (tickWith s window) ∧ (tickWith s window).adaptive = s.adaptive ∧
    (tickWith s window).minConcurrency = s.minConcurrency :=
  monitorTick_bounds { s with totalResolutions := window.1, retriedResolutions := window.2 } h

theorem foldl_tickWith_bounds (windows : List (Int × Int)) :
    ∀ s : scheduler, WorkersInBounds s →
    WorkersInBounds (windows.foldl tickWith s) ∧
    (windows.foldl tickWith s).adaptive = s.adaptive ∧
    (windows.foldl tickWith s).minConcurrency = s.minConcurrency := by
  induction windows with
  | nil => intro s h; exact ⟨h, rfl, rfl⟩
  | cons w rest ih =>
    intro s h
    obtain ⟨h1, h2, h3⟩ := tickWith_bounds s w h
    obtain ⟨i1, i2, i3⟩ := ih (tickWith s w) h1
    exact ⟨i1, i2.trans h2, i3.trans h3⟩

/-- The sizes chosen by `newScheduler`. -/
theorem newScheduler_sizes (resolver : Resolver) (domain : String) (totalTasks : Int)
    (concurrency : Int) (adaptive : Bool) (maxQPS : Int) :
    (newScheduler resolver domain totalTasks concurrency adaptive maxQPS).adaptive = adaptive ∧
    (newScheduler resolver domain totalTasks concurrency adaptive maxQPS).activeWorkers
      = (newScheduler resolver domain totalTasks concurrency adaptive maxQPS).minConcurrency ∧
    (adaptive = true →
      WorkersInBounds (newScheduler resolver domain totalTasks concurrency adaptive maxQPS)) := by
  refine ⟨rfl, ?_, ?_⟩
  · simp only [newScheduler]
    split_ifs <;> rfl
  · intro ha
    subst ha
    simp only [WorkersInBounds, newScheduler, guaranteedMinConcurrency, int32, Bool.not_true,
      Bool.false_eq_true, false_and, if_false, true_and]
    split_ifs with h <;> omega

theorem monitorTick_shrink (s : scheduler) (h0 : s.totalResolutions ≠ 0)
    (hr : 1 / 2 ≤ retryRate s.retriedResolutions s.totalResolutions)
    (hw : s.minConcurrency < s.activeWorkers) :
    monitorTick s = adjustWorkers (clearWindow s)
      (-(shrinkStep (retryRate s.retriedResolutions s.totalResolutions))) := by
  have e1 : (20 : ℚ) / 100 = 1 / 5 := by norm_num
  have e2 : (50 : ℚ) / 100 = 1 / 2 := by norm_num
  have e3 : (70 : ℚ) / 100 = 7 / 10 := by norm_num
  have h15 : (1 : ℚ) / 5 < 1 / 2 := by norm_num
  have n2 : ¬ retryRate s.retriedResolutions s.totalResolutions < 1 / 2 := not_lt.mpr hr
  have n1 : ¬ retryRate s.retriedResolutions s.totalResolutions < 1 / 5 :=
    fun h => n2 (lt_trans h h15)
  unfold monitorTick shrinkStep
  dsimp only
  rw [e1, e2, e3, if_neg h0, if_neg (fun h => n1 h.1), if_neg (fun h => n2 h.2.1)]
  by_cases h7 : retryRate s.retriedResolutions s.totalResolutions < 7 / 10
  · rw [if_pos ⟨hr, h7, hw⟩, if_pos h7]
    rfl
  · rw [if_neg (fun h => h7 h.2.1), if_pos ⟨not_lt.mp h7, hw⟩, if_neg h7]
    rfl

theorem monitorTicks_snoc (s : scheduler) (windows : List (Int × Int))
    (window : Int × Int) (ha : s.adaptive = true) :
    monitorTicks s (windows ++ [window]) = tickWith (monitorTicks s windows) window := by
  simp [monitorTicks, ha, List.foldl_append]

/-- C5: from the state built by `newScheduler`, after any sequence of monitor
ticks with arbitrary window counters the worker count is at least
`minConcurrency`; and a tick that shrinks (retry rate at least one half, worker
count above the minimum) sends `min(|delta|, activeWorkers - minConcurrency)`
stop signals and decrements `activeWorkers` by that number, where `|delta|` is
60 below a rate of 0.70 and 120 from there on. -/
theorem active_workers_at_least_min (resolver : Resolver) (domain : String)
    (totalTasks concurrency : Int) (adaptive : Bool) (maxQPS : Int)
    (windows : List (Int × Int)) (window : Int × Int) :
    (monitorTicks (newScheduler resolver domain totalTasks concurrency adaptive maxQPS)
        windows).minConcurrency
      ≤ (monitorTicks (newScheduler resolver domain totalTasks concurrency adaptive maxQPS)
        windows).activeWorkers ∧
    (window.1 ≠ 0 → 1 / 2 ≤ retryRate window.2 window.1 →
      (monitorTicks (newScheduler resolver domain totalTasks concurrency adaptive maxQPS)
          windows).minConcurrency
        < (monitorTicks (newScheduler resolver domain totalTasks concurrency adaptive maxQPS)
          windows).activeWorkers →
      ((monitorTicks (newScheduler resolver domain totalTasks concurrency adaptive maxQPS)
          (windows ++ [window])).stopSignals : Int)
        = (monitorTicks (newScheduler resolver domain totalTasks concurrency adaptive maxQPS)
            windows).stopSignals
          + min (shrinkStep (retryRate window.2 window.1))
            ((monitorTicks (newScheduler resolver domain totalTasks concurrency adaptive maxQPS)
                windows).activeWorkers
              - (monitorTicks (newScheduler resolver domain totalTasks concurrency adaptive
                  maxQPS) windows).minConcurrency) ∧
      (monitorTicks (newScheduler resolver domain totalTasks concurrency adaptive maxQPS)
          (windows ++ [window])).activeWorkers
        = (monitorTicks (newScheduler resolver domain totalTasks concurrency adaptive maxQPS)
            windows).activeWorkers
          - min (shrinkStep (retryRate window.2 window.1))
            ((monitorTicks (newScheduler resolver domain totalTasks concurrency adaptive maxQPS)
                windows).activeWorkers
              - (monitorTicks (newScheduler resolver domain totalTasks concurrency adaptive
                  maxQPS) windows).minConcurrency)) := by
  obtain ⟨hada, heq, hb⟩ := newScheduler_sizes resolver domain totalTasks concurrency adaptive maxQPS
  generalize newScheduler resolver domain totalTasks concurrency adaptive maxQPS = s0 at *
  cases adaptive with
  | false =>
    have hm : ∀ ws, monitorTicks s0 ws = s0 := fun ws => by simp [monitorTicks, hada]
    rw [hm, hm]
    refine ⟨by omega, ?_⟩
    intro _ _ hlt
    omega
  | true =>
    have hs := foldl_tickWith_bounds windows s0 (hb rfl)
    rw [monitorTicks_snoc s0 windows window hada]
    have hm : monitorTicks s0 windows = windows.foldl tickWith s0 := by
      simp [monitorTicks, hada]
    rw [hm]
    generalize windows.foldl tickWith s0 = s at *
    obtain ⟨⟨b1, b2, b3, b4⟩, -, -⟩ := hs
    refine ⟨b3, ?_⟩
    intro h0 hr hlt
    have hshr := monitorTick_shrink
      { s with totalResolutions := window.1, retriedResolutions := window.2 } h0 hr hlt
    rw [show tickWith s window = monitorTick
      { s with totalResolutions := window.1, retriedResolutions := window.2 } from rfl, hshr]
    have hd : -(shrinkStep (retryRate window.2 window.1)) = -60 ∨
        -(shrinkStep (retryRate window.2 window.1)) = -120 := by
      unfold shrinkStep
      split_ifs
      · left; rfl
      · right; rfl
    obtain ⟨ha, hsig⟩ := adjustWorkers_shrink
      (clearWindow { s with totalResolutions := window.1, retriedResolutions := window.2 })
      _ hd (show -2147483648 + 120 ≤ s.minConcurrency by omega) b3
      (show s.activeWorkers < 2147483648 by omega)
    rw [neg_neg] at ha hsig
    exact ⟨hsig, ha⟩

/-- C6 fails on the code: in adaptive mode with the default sizing, 122 ticks
with a retry rate of 0 bring `activeWorkers` from 150 to 5030, above
`maxConcurrency`. -/
theorem active_workers_exceed_max :
    (monitorTicks (newScheduler (NewResolver false) "example.com" 10000 0 true 0)
      (List.replicate 122 (1, 0))).activeWorkers = 5030 ∧
    maxConcurrency < (monitorTicks (newScheduler (NewResolver false) "example.com" 10000 0 true 0)
      (List.replicate 122 (1, 0))).activeWorkers := by
  have key : ∀ (n : Nat) (s : scheduler), -2147483648 ≤ s.activeWorkers →
      s.activeWorkers + 40 * (n : Int) ≤ 5030 →
      ((List.replicate n ((1 : Int), (0 : Int))).foldl tickWith s).activeWorkers
        = s.activeWorkers + 40 * (n : Int) := by
    intro n
    induction n with
    | zero => intro s _ _; simp
    | succ n ih =>
      intro s h1 h2
      have hw : s.activeWorkers < maxConcurrency := by
        unfold maxConcurrency
        push_cast at h2
        omega
      have ht : tickWith s (1, 0) = adjustWorkers
          (clearWindow { s with totalResolutions := 1, retriedResolutions := 0 }) 40 := by
        unfold tickWith monitorTick
        dsimp only
        rw [if_neg (by decide), if_pos ⟨by norm_num [retryRate], hw⟩]
        rfl
      have hstep : (tickWith s (1, 0)).activeWorkers = s.activeWorkers + 40 := by
        rw [ht]
        exact (adjustWorkers_grow _ 40 (Or.inl rfl) h1 hw).1
      rw [List.replicate_succ, List.foldl_cons, ih _ (by rw [hstep]; omega)
        (by rw [hstep]; push_cast at h2 ⊢; omega), hstep]
      push_cast
      ring
  have h := key 122 (newScheduler (NewResolver false) "example.com" 10000 0 true 0)
    (by decide) (by decide)
  have hv : (monitorTicks (newScheduler (NewResolver false) "example.com" 10000 0 true 0)
      (List.replicate 122 (1, 0))).activeWorkers = 5030 := by
    simp only [monitorTicks, newScheduler_sizes, if_true]
    rw [h]
    decide
  rw [hv]
  exact ⟨rfl, by decide⟩

/-- The growth of the monitor overshoots `maxConcurrency` by less than one
step: in adaptive mode the worker count stays at most 5039. -/
theorem active_workers_at_most_5039 (resolver : Resolver) (domain : String)
    (totalTasks concurrency : Int) (maxQPS : Int) (windows : List (Int × Int)) :
    (monitorTicks (newScheduler resolver domain totalTasks concurrency true maxQPS)
      windows).activeWorkers ≤ 5039 := by
  obtain ⟨hada, -, hb⟩ := newScheduler_sizes resolver domain totalTasks concurrency true maxQPS
  have hs := foldl_tickWith_bounds windows _ (hb rfl)
  simp only [monitorTicks, hada, if_true]
  exact hs.1.2.2.2

/-- C9: in adaptive mode `newScheduler` sets `minConcurrency` to 150, except
when `0 < concurrency < 150`, where `minConcurrency` and the initial
`activeWorkers` are `concurrency`; in every adaptive case the initial
`activeWorkers` equals `minConcurrency`. -/
theorem newScheduler_adaptive_sizing (resolver : Resolver) (domain : String)
    (totalTasks concurrency : Int) (maxQPS : Int) :
    (newScheduler resolver domain totalTasks concurrency true maxQPS).activeWorkers
      = (newScheduler resolver domain totalTasks concurrency true maxQPS).minConcurrency ∧
    (0 < concurrency ∧ concurrency < 150 →
      (newScheduler resolver domain totalTasks concurrency true maxQPS).minConcurrency
        = concurrency ∧
      (newScheduler resolver domain totalTasks concurrency true maxQPS).activeWorkers
        = concurrency) ∧
    (¬ (0 < concurrency ∧ concurrency < 150) →
      (newScheduler resolver domain totalTasks concurrency true maxQPS).minConcurrency = 150) := by
  simp only [newScheduler, guaranteedMinConcurrency, int32, Bool.not_true,
    Bool.false_eq_true, false_and, if_false, true_and]
  refine ⟨?_, ?_⟩
  · intro h
    rw [if_pos h]
    omega
  · intro h
    rw [if_neg h]
    decide

/-! ## Properties of `run` -/

theorem monitorTick_sameScan (s : scheduler) : SameScan s (monitorTick s) := by
  obtain ⟨d, -, -, -, he⟩ := monitorTick_eq_adjust s
  obtain ⟨f1, f2, f3, f4, f5, f6, f7, f8, f9, -, -, f12, f13, f14, f15⟩ :=
    adjustWorkers_fields (clearWindow s) d
  rw [he]
  exact ⟨f1, f2, f3, f4, f5, f6, f7, f8, f9, f12, f13, f14, f15⟩

theorem monitorFor_sameScan (n : Nat) : ∀ s : scheduler, SameScan s (monitorFor s n) := by
  induction n with
  | zero => intro s; exact ⟨rfl, rfl, rfl, rfl, rfl, rfl, rfl, rfl, rfl, rfl, rfl, rfl, rfl⟩
  | succ n ih =>
    intro s
    unfold monitorFor
    split_ifs
    · obtain ⟨a1, a2, a3, a4, a5, a6, a7, a8, a9, a10, a11, a12, a13⟩ := monitorTick_sameScan s
      obtain ⟨b1, b2, b3, b4, b5, b6, b7, b8, b9, b10, b11, b12, b13⟩ := ih (monitorTick s)
      exact ⟨b1.trans a1, b2.trans a2, b3.trans a3, b4.trans a4, b5.trans a5, b6.trans a6,
        b7.trans a7, b8.trans a8, b9.trans a9, b10.trans a10, b11.trans a11, b12.trans a12,
        b13.trans a13⟩
    · exact ⟨rfl, rfl, rfl, rfl, rfl, rfl, rfl, rfl, rfl, rfl, rfl, rfl, rfl⟩

theorem monitorFor_not_adaptive (n : Nat) (s : scheduler) (h : s.adaptive = false) :
    monitorFor s n = s := by
  cases n with
  | zero => rfl
  | succ n => simp [monitorFor, h]

theorem monitorFor_bounds (n : Nat) : ∀ s : scheduler, WorkersInBounds s →
    WorkersInBounds (monitorFor s n) := by
  induction n with
  | zero => intro s h; exact h
  | succ n ih =>
    intro s h
    unfold monitorFor
    split_ifs
    · exact ih _ (monitorTick_bounds s h).1
    · exact h

/-- The status that `sendStatus` appends. -/
theorem sendStatus_statuses (s : scheduler) (phase : String) (totalRetrying : Int) :
    ∃ st : ScanStatus, (sendStatus s phase totalRetrying).statuses = s.statuses ++ [st] ∧
      st.Scanned = s.scanned ∧ st.Total = s.totalTasks ∧ st.Failed = s.failed ∧
      st.Concurrency = s.activeWorkers ∧ st.TotalRequests = s.totalRequests ∧
      st.TotalRetries = s.totalRetries ∧ st.TotalRetrying = totalRetrying ∧
      (phase ≠ "" → st.Phase = phase) :=
  ⟨_, rfl, rfl, rfl, rfl, rfl, rfl, rfl, rfl, fun h => by simp [h]⟩

/-- The fields that `sendStatus` leaves alone: all but `statuses`. -/
theorem sendStatus_fields (s : scheduler) (phase : String) (totalRetrying : Int) :
    (sendStatus s phase totalRetrying).resolver = s.resolver ∧
    (sendStatus s phase totalRetrying).domain = s.domain ∧
    (sendStatus s phase totalRetrying).adaptive = s.adaptive ∧
    (sendStatus s phase totalRetrying).totalTasks = s.totalTasks ∧
    (sendStatus s phase totalRetrying).scanned = s.scanned ∧
    (sendStatus s phase totalRetrying).failed = s.failed ∧
    (sendStatus s phase totalRetrying).totalRequests = s.totalRequests ∧
    (sendStatus s phase totalRetrying).totalRetries = s.totalRetries ∧
    (sendStatus s phase totalRetrying).activeWorkers = s.activeWorkers ∧
    (sendStatus s phase totalRetrying).minConcurrency = s.minConcurrency ∧
    (sendStatus s phase totalRetrying).failedDomains = s.failedDomains ∧
    (sendStatus s phase totalRetrying).stopSignals = s.stopSignals ∧
    (sendStatus s phase totalRetrying).spawned = s.spawned ∧
    (sendStatus s phase totalRetrying).resolved = s.resolved :=
  ⟨rfl, rfl, rfl, rfl, rfl, rfl, rfl, rfl, rfl, rfl, rfl, rfl, rfl, rfl⟩

/-- The fields that a worker leaves alone, and what it appends to `resolved`
and `failedDomains`. -/
theorem workerTask_fields (s : scheduler) (task : String) (env : DNSEnv) :
    (workerTask s task env).resolver = s.resolver ∧
    (workerTask s task env).domain = s.domain ∧
    (workerTask s task env).adaptive = s.adaptive ∧
    (workerTask s task env).totalTasks = s.totalTasks ∧
    (workerTask s task env).activeWorkers = s.activeWorkers ∧
    (workerTask s task env).minConcurrency = s.minConcurrency ∧
    (workerTask s task env).stopSignals = s.stopSignals ∧
    (workerTask s task env).spawned = s.spawned ∧
    (workerTask s task env).resolved = s.resolved ++ [task] ∧
    (workerTask s task env).failedDomains =
      (if (s.resolver.Resolve env task).status = ResolveStatus.Failed
        then s.failedDomains ++ [task] else s.failedDomains) := by
  unfold workerTask workerStatus
  split_ifs <;> simp [sendStatus, recordResolution] <;> assumption

/-- A property kept by the monitor and by each worker pass holds after a
phase. -/
theorem phaseLoop_induction (P : scheduler → Prop) (sch : Schedule) (phase : Nat)
    (hmon : ∀ s n, P s → P (monitorFor s n))
    (hwork : ∀ s task env, P s → P (workerTask s task env)) (tasks : List String) :
    ∀ (i : Nat) (s : scheduler), P s → P (phaseLoop sch phase i tasks s) := by
  induction tasks with
  | nil => intro i s h; exact hmon s _ h
  | cons task rest ih =>
    intro i s h
    exact ih (i + 1) _ (hwork _ task _ (hmon s _ h))

/-- What a phase appends to `resolved` and to `failedDomains`. -/
theorem phaseLoop_trace (sch : Schedule) (phase : Nat) (tasks : List String) :
    ∀ (i : Nat) (s : scheduler),
    (phaseLoop sch phase i tasks s).resolver = s.resolver ∧
    (phaseLoop sch phase i tasks s).resolved = s.resolved ++ tasks ∧
    (phaseLoop sch phase i tasks s).failedDomains
      = s.failedDomains ++ failedCandidates s.resolver (sch.env phase) i tasks := by
  induction tasks with
  | nil =>
    intro i s
    obtain ⟨h1, -, -, -, -, -, -, -, -, h10, -, -, h13⟩ := monitorFor_sameScan (sch.ticks phase i) s
    simp [phaseLoop, failedCandidates, h1, h10, h13]
  | cons task rest ih =>
    intro i s
    obtain ⟨h1, -, -, -, -, -, -, -, -, h10, -, -, h13⟩ := monitorFor_sameScan (sch.ticks phase i) s
    obtain ⟨w1, -, -, -, -, -, -, -, w9, w10⟩ :=
      workerTask_fields (monitorFor s (sch.ticks phase i)) task (sch.env phase i)
    obtain ⟨i1, i2, i3⟩ := ih (i + 1)
      (workerTask (monitorFor s (sch.ticks phase i)) task (sch.env phase i))
    simp only [phaseLoop]
    rw [i1, i2, i3, w1, w9, w10, h1, h10, h13]
    refine ⟨rfl, by simp, ?_⟩
    simp only [failedCandidates]
    split_ifs <;> simp

theorem monitorFor_launchable (s : scheduler) (n : Nat) (h : Launchable s) :
    Launchable (monitorFor s n) := by
  cases ha : s.adaptive with
  | false => rw [monitorFor_not_adaptive n s ha]; exact h
  | true =>
    have hb := monitorFor_bounds n s (h.2 ha)
    refine ⟨?_, fun _ => hb⟩
    obtain ⟨b1, -, b3, -⟩ := hb
    omega

theorem workerTask_launchable (s : scheduler) (task : String) (env : DNSEnv)
    (h : Launchable s) : Launchable (workerTask s task env) := by
  obtain ⟨-, -, w3, -, w5, w6, -⟩ := workerTask_fields s task env
  unfold Launchable WorkersInBounds at *
  rw [w3, w5, w6]
  exact h

theorem phaseLoop_launchable (sch : Schedule) (phase : Nat) (tasks : List String) (i : Nat)
    (s : scheduler) (h : Launchable s) : Launchable (phaseLoop sch phase i tasks s) :=
  phaseLoop_induction Launchable sch phase monitorFor_launchable workerTask_launchable
    tasks i s h

theorem sendStatus_launchable (s : scheduler) (phase : String) (totalRetrying : Int)
    (h : Launchable s) : Launchable (sendStatus s phase totalRetrying) := h

theorem runPhase_launchable (sch : Schedule) (phase : Nat) (feedBlocks : Bool)
    (tasks : List String) (s : scheduler) (h : Launchable s) :
    runPhase sch phase feedBlocks tasks s = some (phaseLoop sch phase 0 tasks s) := by
  unfold runPhase
  have := h.1
  rw [if_neg (by omega), if_neg (by omega)]

theorem newScheduler_launchable (resolver : Resolver) (domain : String)
    (totalTasks concurrency : Int) (adaptive : Bool) (maxQPS : Int)
    (hpos : 0 < (newScheduler resolver domain totalTasks concurrency adaptive
      maxQPS).activeWorkers) :
    Launchable (newScheduler resolver domain totalTasks concurrency adaptive maxQPS) := by
  refine ⟨hpos, fun ha => ?_⟩
  have h := (newScheduler_sizes resolver domain totalTasks concurrency adaptive maxQPS).2.2
  exact h ha

theorem sendStatus_noRetryStatus (s : scheduler) (phase : String) (totalRetrying : Int)
    (hp : phase ≠ "retry_scan") (h : NoRetryStatus s) :
    NoRetryStatus (sendStatus s phase totalRetrying) := by
  intro st hst
  simp only [sendStatus, List.mem_append, List.mem_singleton] at hst
  rcases hst with hst | rfl
  · exact h st hst
  · simp only [ite_self]
    split_ifs
    · decide
    · exact hp

theorem monitorFor_noRetryStatus (s : scheduler) (n : Nat) (h : NoRetryStatus s) :
    NoRetryStatus (monitorFor s n) := by
  unfold NoRetryStatus
  rw [(monitorFor_sameScan n s).2.2.2.2.2.2.2.2.2.2.2.1]
  exact h

theorem workerTask_noRetryStatus (s : scheduler) (task : String) (env : DNSEnv)
    (h : NoRetryStatus s) : NoRetryStatus (workerTask s task env) := by
  unfold workerTask workerStatus
  split_ifs
  · exact sendStatus_noRetryStatus _ "" 0 (by decide) h
  · exact h

theorem monitorFor_mem_statuses (st : ScanStatus) (s : scheduler) (n : Nat)
    (h : st ∈ s.statuses) : st ∈ (monitorFor s n).statuses := by
  rw [(monitorFor_sameScan n s).2.2.2.2.2.2.2.2.2.2.2.1]
  exact h

theorem workerTask_mem_statuses (st : ScanStatus) (s : scheduler) (task : String)
    (env : DNSEnv) (h : st ∈ s.statuses) : st ∈ (workerTask s task env).statuses := by
  unfold workerTask workerStatus
  split_ifs
  · simp only [sendStatus, List.mem_append]
    left
    exact h
  · exact h

/-- The two courses of `run` once workers are launched: without and with a
retry phase. -/
theorem run_structure (s0 : scheduler) (resolver : Resolver) (domain : String)
    (totalTasks concurrency : Int) (adaptive : Bool) (maxQPS : Int) (enableRetry : Bool)
    (words : List String) (sch : Schedule)
    (hs0 : s0 = newScheduler resolver domain totalTasks concurrency adaptive maxQPS)
    (hpos : 0 < s0.activeWorkers) :
    ∃ s1 sfin : scheduler,
      runPhase sch 1 true (candidates s0 words) (sendStatus s0 "main_scan" 0) = some s1 ∧
      run s0 enableRetry words sch = some sfin ∧
      s1.resolved = candidates s0 words ∧
      s1.failedDomains = failedCandidates s0.resolver (sch.env 1) 0 (candidates s0 words) ∧
      (ranRetry sfin ↔ enableRetry = true ∧
        failedCandidates s0.resolver (sch.env 1) 0 (candidates s0 words) ≠ []) ∧
      (¬ ranRetry sfin → sfin.resolved = candidates s0 words) ∧
      (ranRetry sfin →
        (startRetry s1).failedDomains = [] ∧ (startRetry s1).scanned = 0 ∧
        (startRetry s1).failed = 0 ∧
        (startRetry s1).totalTasks
          = (failedCandidates s0.resolver (sch.env 1) 0 (candidates s0 words)).length ∧
        (startRetry s1).resolved = candidates s0 words ∧
        (∃ s2 : scheduler,
          runPhase sch 2 false
            (failedCandidates s0.resolver (sch.env 1) 0 (candidates s0 words))
            (startRetry s1) = some s2 ∧
          sfin = sendStatus s2 "done" 0 ∧
          sfin.resolved = candidates s0 words
            ++ failedCandidates s0.resolver (sch.env 1) 0 (candidates s0 words))) := by
  have hl0 : Launchable s0 := by
    rw [hs0] at hpos ⊢
    exact newScheduler_launchable _ _ _ _ _ _ hpos
  have hres0 : s0.resolved = [] := by rw [hs0]; rfl
  have hfd0 : s0.failedDomains = [] := by rw [hs0]; rfl
  have hst0 : s0.statuses = [] := by rw [hs0]; rfl
  clear hs0
  have hr1 := runPhase_launchable sch 1 true (candidates s0 words)
    (sendStatus s0 "main_scan" 0) hl0
  obtain ⟨t1, t2, t3⟩ := phaseLoop_trace sch 1 (candidates s0 words) 0
    (sendStatus s0 "main_scan" 0)
  have hl1 : Launchable (phaseLoop sch 1 0 (candidates s0 words) (sendStatus s0 "main_scan" 0)) :=
    phaseLoop_launchable sch 1 _ 0 _ hl0
  have hn1 : NoRetryStatus
      (phaseLoop sch 1 0 (candidates s0 words) (sendStatus s0 "main_scan" 0)) :=
    phaseLoop_induction NoRetryStatus sch 1 monitorFor_noRetryStatus
      workerTask_noRetryStatus _ 0 _
      (sendStatus_noRetryStatus s0 "main_scan" 0 (by decide)
        (by intro st hst; rw [hst0] at hst; simp at hst))
  generalize phaseLoop sch 1 0 (candidates s0 words) (sendStatus s0 "main_scan" 0) = s1 at *
  have t1' : s1.resolver = s0.resolver := t1
  have t2' : s1.resolved = candidates s0 words := by
    rw [t2]; show s0.resolved ++ _ = _; rw [hres0]; rfl
  have t3' : s1.failedDomains
      = failedCandidates s0.resolver (sch.env 1) 0 (candidates s0 words) := by
    rw [t3]; show s0.failedDomains ++ _ = _; rw [hfd0]; rfl
  generalize failedCandidates s0.resolver (sch.env 1) 0 (candidates s0 words) = failedList at *
  have hrun : run s0 enableRetry words sch =
      if !enableRetry ∨ s1.failedDomains.length = 0 then some (sendStatus s1 "done" 0)
      else match runPhase sch 2 false s1.failedDomains (startRetry s1) with
        | none => none
        | some s2 => some (sendStatus s2 "done" 0) := by
    unfold run
    rw [if_neg (not_lt.mpr hl0.1.le), hr1]
  by_cases hc : enableRetry = true ∧ failedList ≠ []
  · obtain ⟨he, hf⟩ := hc
    have hlr : Launchable (startRetry s1) := hl1
    have hr2 := runPhase_launchable sch 2 false failedList (startRetry s1) hlr
    obtain ⟨u1, u2, u3⟩ := phaseLoop_trace sch 2 failedList 0 (startRetry s1)
    have hmem : ∃ st ∈ (phaseLoop sch 2 0 failedList (startRetry s1)).statuses,
        st.Phase = "retry_scan" := by
      obtain ⟨st, hst, -, -, -, -, -, -, -, hph⟩ :=
        sendStatus_statuses
          { s1 with failedDomains := [], totalTasks := (s1.failedDomains.length : Int),
                    scanned := 0, failed := 0 } "retry_scan" (s1.failedDomains.length : Int)
      refine ⟨st, ?_, hph (by decide)⟩
      apply phaseLoop_induction (fun s => st ∈ s.statuses) sch 2
        (monitorFor_mem_statuses st) (workerTask_mem_statuses st)
      show st ∈ (startRetry s1).statuses
      unfold startRetry
      rw [hst]
      simp
    have hfin : run s0 enableRetry words sch
        = some (sendStatus (phaseLoop sch 2 0 failedList (startRetry s1)) "done" 0) := by
      rw [hrun, if_neg, t3', hr2]
      rw [t3']
      simp [he, hf]
    have hran : ranRetry (sendStatus (phaseLoop sch 2 0 failedList (startRetry s1)) "done" 0) := by
      obtain ⟨st, hst, hph⟩ := hmem
      exact ⟨st, by simp only [sendStatus, List.mem_append]; left; exact hst, hph⟩
    refine ⟨s1, _, hr1, hfin, t2', t3', ⟨fun _ => ⟨he, hf⟩, fun _ => hran⟩,
      fun h => absurd hran h, fun _ => ⟨rfl, rfl, rfl, ?_, t2', ?_⟩⟩
    · show ((s1.failedDomains.length : Nat) : Int) = _
      rw [t3']
    · refine ⟨_, hr2, rfl, ?_⟩
      show (phaseLoop sch 2 0 failedList (startRetry s1)).resolved = _
      rw [u2]
      show s1.resolved ++ failedList = _
      rw [t2']
  · have hfin : run s0 enableRetry words sch = some (sendStatus s1 "done" 0) := by
      rw [hrun, if_pos]
      rw [t3']
      by_cases he : enableRetry = true
      · right
        have : failedList = [] := by
          by_contra hne
          exact hc ⟨he, hne⟩
        simp [this]
      · left
        simp at he
        simp [he]
    have hnot : ¬ ranRetry (sendStatus s1 "done" 0) := by
      rintro ⟨st, hst, hph⟩
      exact sendStatus_noRetryStatus s1 "done" 0 (by decide) hn1 st hst hph
    exact ⟨s1, _, hr1, hfin, t2', t3', ⟨fun h => absurd h hnot, fun h => absurd h hc⟩,
      fun _ => t2', fun h => absurd h hnot⟩

theorem sendStatus_fixedWorkers (a : Int) (s : scheduler) (phase : String)
    (totalRetrying : Int) (h : FixedWorkers a s) :
    FixedWorkers a (sendStatus s phase totalRetrying) := by
  obtain ⟨h1, h2, h3, h4, h5, h6⟩ := h
  refine ⟨h1, h2, h3, h4, h5, ?_⟩
  intro st hst
  simp only [sendStatus, List.mem_append, List.mem_singleton] at hst
  rcases hst with hst | rfl
  · exact h6 st hst
  · exact h2

theorem monitorFor_fixedWorkers (a : Int) (s : scheduler) (n : Nat)
    (h : FixedWorkers a s) : FixedWorkers a (monitorFor s n) := by
  rw [monitorFor_not_adaptive n s h.1]
  exact h

theorem workerTask_fixedWorkers (a : Int) (s : scheduler) (task : String) (env : DNSEnv)
    (h : FixedWorkers a s) : FixedWorkers a (workerTask s task env) := by
  have hr : FixedWorkers a (recordResolution s task (s.resolver.Resolve env task)) := h
  unfold workerTask workerStatus
  split_ifs
  · exact sendStatus_fixedWorkers a _ "" 0 hr
  · exact hr

theorem runPhase_fixedWorkers (a : Int) (sch : Schedule) (phase : Nat) (feedBlocks : Bool)
    (tasks : List String) (s s' : scheduler) (h : FixedWorkers a s)
    (hrun : runPhase sch phase feedBlocks tasks s = some s') : FixedWorkers a s' := by
  unfold runPhase at hrun
  split_ifs at hrun
  · cases hrun
    exact monitorFor_fixedWorkers a s _ h
  · cases hrun
    exact phaseLoop_induction (FixedWorkers a) sch phase (monitorFor_fixedWorkers a)
      (workerTask_fixedWorkers a) tasks 0 s h

theorem run_fixedWorkers (a : Int) (sch : Schedule) (enableRetry : Bool)
    (words : List String) (s s' : scheduler) (h : FixedWorkers a s)
    (hrun : run s enableRetry words sch = some s') : FixedWorkers a s' := by
  unfold run at hrun
  split_ifs at hrun
  cases h1 : runPhase sch 1 true (candidates s words) (sendStatus s "main_scan" 0) with
  | none => rw [h1] at hrun; cases hrun
  | some s1 =>
    rw [h1] at hrun
    have f1 := runPhase_fixedWorkers a sch 1 true _ _ s1
      (sendStatus_fixedWorkers a s "main_scan" 0 h) h1
    simp only at hrun
    split_ifs at hrun
    · cases hrun
      exact sendStatus_fixedWorkers a s1 "done" 0 f1
    · have fr : FixedWorkers a (startRetry s1) := by
        unfold startRetry
        exact sendStatus_fixedWorkers a _ "retry_scan" _ f1
      cases h2 : runPhase sch 2 false s1.failedDomains (startRetry s1) with
      | none => rw [h2] at hrun; cases hrun
      | some s2 =>
        rw [h2] at hrun
        cases hrun
        exact sendStatus_fixedWorkers a s2 "done" 0
          (runPhase_fixedWorkers a sch 2 false _ _ s2 fr h2)

/-- C10, as it holds: without adaptive mode `newScheduler` sets
`minConcurrency` and `activeWorkers` to the same value, which is
`concurrency` when `0 < concurrency < 2^31` and 150 when `concurrency ≤ 0`;
`run` starts no monitor, so that it ends with the same worker count, no worker
spawned or stopped, and every status it sends reports that count; and it does
end when the count is positive. -/
theorem run_fixed_concurrency (s0 : scheduler) (resolver : Resolver) (domain : String)
    (totalTasks concurrency : Int) (maxQPS : Int) (enableRetry : Bool)
    (words : List String) (sch : Schedule)
    (hs0 : s0 = newScheduler resolver domain totalTasks concurrency false maxQPS) :
    s0.minConcurrency = s0.activeWorkers ∧
    (0 < concurrency → concurrency < 2147483648 → s0.activeWorkers = concurrency) ∧
    (concurrency ≤ 0 → s0.activeWorkers = 150) ∧
    (∀ sfin, run s0 enableRetry words sch = some sfin →
      sfin.activeWorkers = s0.activeWorkers ∧ sfin.minConcurrency = s0.activeWorkers ∧
      sfin.spawned = 0 ∧ sfin.stopSignals = 0 ∧
      ∀ st ∈ sfin.statuses, st.Concurrency = s0.activeWorkers) ∧
    (0 < s0.activeWorkers → ∃ sfin, run s0 enableRetry words sch = some sfin) := by
  obtain ⟨hada, heq, -⟩ := newScheduler_sizes resolver domain totalTasks concurrency false maxQPS
  have hfix : FixedWorkers s0.activeWorkers s0 := by
    rw [hs0]
    exact ⟨hada, rfl, heq.symm, rfl, rfl, by intro st hst; simp [newScheduler] at hst⟩
  refine ⟨by rw [hs0]; exact heq.symm, ?_, ?_, ?_, ?_⟩
  · intro h1 h2
    rw [hs0]
    simp only [newScheduler, Bool.not_false, true_and, int32]
    rw [if_pos h1]
    omega
  · intro h1
    rw [hs0]
    simp only [newScheduler, Bool.not_false, true_and, Bool.false_eq_true, false_and, if_false,
      guaranteedMinConcurrency, int32]
    rw [if_neg (by omega), if_neg (by omega)]
    decide
  · intro sfin hrun
    obtain ⟨-, f2, f3, f4, f5, f6⟩ := run_fixedWorkers _ sch enableRetry words s0 sfin hfix hrun
    exact ⟨f2, f3, f4, f5, f6⟩
  · intro hpos
    obtain ⟨s1, sfin, -, hrun, -⟩ := run_structure s0 resolver domain totalTasks concurrency
      false maxQPS enableRetry words sch hs0 hpos
    exact ⟨sfin, hrun⟩

/-- C10 with `concurrency = 1`: exactly one worker and no growth. -/
theorem run_fixed_concurrency_witness :
    oneServerScheduler = newScheduler oneServerResolver "example.com" 1 1 false 0 ∧
    oneServerScheduler.minConcurrency = oneServerScheduler.activeWorkers ∧
    oneServerScheduler.activeWorkers = 1 ∧
    (∀ sfin, run oneServerScheduler true ["a"] timeoutSchedule = some sfin →
      sfin.activeWorkers = oneServerScheduler.activeWorkers ∧
      sfin.minConcurrency = oneServerScheduler.activeWorkers ∧
      sfin.spawned = 0 ∧ sfin.stopSignals = 0 ∧
      ∀ st ∈ sfin.statuses, st.Concurrency = oneServerScheduler.activeWorkers) ∧
    (∃ sfin, run oneServerScheduler true ["a"] timeoutSchedule = some sfin) :=
  have h := run_fixed_concurrency oneServerScheduler oneServerResolver "example.com" 1 1 0
    true ["a"] timeoutSchedule rfl
  ⟨rfl, h.1, h.2.1 (by decide) (by decide), h.2.2.2.1, h.2.2.2.2 (by decide)⟩

/-- C10 fails as stated: with `concurrency = 0` and no adaptive mode,
`newScheduler` sets both sizes to 150. -/
theorem newScheduler_zero_concurrency :
    (newScheduler (NewResolver false) "example.com" 1 0 false 0).minConcurrency = 150 ∧
    (newScheduler (NewResolver false) "example.com" 1 0 false 0).activeWorkers = 150 ∧
    ¬ ((newScheduler (NewResolver false) "example.com" 1 0 false 0).minConcurrency = 0 ∧
      (newScheduler (NewResolver false) "example.com" 1 0 false 0).activeWorkers = 0) := by
  decide

/-! ## Properties of `SetDNSServers` and of the server selection -/

theorem validServers_length (servers : List String) :
    (validServers servers).length = servers.length := by
  simp [validServers]

theorem validServers_getElem? (servers : List String) (i : Nat) (s : String)
    (h : servers[i]? = some s) :
    (':' ∉ s.data → (validServers servers)[i]? = some (s ++ ":53")) ∧
    (':' ∈ s.data → (validServers servers)[i]? = some s) := by
  simp only [validServers, List.getElem?_map, h, Option.map_some']
  constructor
  · intro hc
    simp [hc]
  · intro hc
    simp [hc]

theorem setDNSServers_tier1_ne_nil (r : Resolver) (servers : List String)
    (h : r.tier1Servers ≠ []) : (r.SetDNSServers servers).tier1Servers ≠ [] := by
  unfold Resolver.SetDNSServers
  split_ifs with hv
  · intro hnil
    simp only at hnil
    rw [hnil] at hv
    simp at hv
  · exact h

theorem foldl_setDNSServers_tier1_ne_nil (calls : List (List String)) :
    ∀ r : Resolver, r.tier1Servers ≠ [] →
    (calls.foldl Resolver.SetDNSServers r).tier1Servers ≠ [] := by
  induction calls with
  | nil => intro r h; exact h
  | cons servers rest ih =>
    intro r h
    exact ih _ (setDNSServers_tier1_ne_nil r servers h)

/-- C12: `SetDNSServers` with an empty list leaves both tiers unchanged; with
a non-empty list tier 1 becomes the list, in the same order and of the same
length, where an entry without `:` gets `:53` appended and any other entry is
kept, and tier 2 becomes empty; tier 1 is therefore non-empty after any
sequence of `SetDNSServers` calls on the resolver made by `NewResolver`. -/
theorem setDNSServers_tiers (r : Resolver) (servers : List String) (debugNetwork : Bool)
    (calls : List (List String)) :
    (servers = [] → r.SetDNSServers servers = r) ∧
    (servers ≠ [] →
      (r.SetDNSServers servers).tier1Servers.length = servers.length ∧
      (∀ (i : Nat) (s : String), servers[i]? = some s →
        (':' ∉ s.data → (r.SetDNSServers servers).tier1Servers[i]? = some (s ++ ":53")) ∧
        (':' ∈ s.data → (r.SetDNSServers servers).tier1Servers[i]? = some s)) ∧
      (r.SetDNSServers servers).tier2Servers = []) ∧
    (calls.foldl Resolver.SetDNSServers (NewResolver debugNetwork)).tier1Servers ≠ [] := by
  refine ⟨?_, ?_, ?_⟩
  · intro h
    subst h
    simp [Resolver.SetDNSServers, validServers]
  · intro h
    have hpos : (validServers servers).length > 0 := by
      rw [validServers_length]
      exact List.length_pos.mpr h
    have he : r.SetDNSServers servers
        = { r with tier1Servers := validServers servers, tier2Servers := [] } := by
      unfold Resolver.SetDNSServers
      rw [if_pos hpos]
    rw [he]
    exact ⟨validServers_length servers, validServers_getElem? servers, rfl⟩
  · exact foldl_setDNSServers_tier1_ne_nil calls _ (by simp [NewResolver])

/-! ## The monitor under a high retry rate -/

/-- A tick with a retry rate of at least one half changes nothing when the
worker count is at the minimum. -/
theorem tickWith_at_min (s : scheduler) (w : Int × Int)
    (hmin : s.activeWorkers = s.minConcurrency) (h0 : w.1 ≠ 0)
    (hr : 1 / 2 ≤ retryRate w.2 w.1) :
    (tickWith s w).activeWorkers = s.activeWorkers ∧
    (tickWith s w).minConcurrency = s.minConcurrency ∧
    (tickWith s w).stopSignals = s.stopSignals := by
  have e1 : (20 : ℚ) / 100 = 1 / 5 := by norm_num
  have e2 : (50 : ℚ) / 100 = 1 / 2 := by norm_num
  have e3 : (70 : ℚ) / 100 = 7 / 10 := by norm_num
  have h15 : (1 : ℚ) / 5 < 1 / 2 := by norm_num
  have n2 : ¬ retryRate w.2 w.1 < 1 / 2 := not_lt.mpr hr
  have n1 : ¬ retryRate w.2 w.1 < 1 / 5 := fun h => n2 (lt_trans h h15)
  have hno : ¬ s.minConcurrency < s.activeWorkers := not_lt.mpr hmin.le
  have ht : tickWith s w
      = clearWindow { s with totalResolutions := w.1, retriedResolutions := w.2 } := by
    unfold tickWith monitorTick
    dsimp only
    rw [e1, e2, e3, if_neg h0, if_neg (fun h => n1 h.1), if_neg (fun h => n2 h.2.1),
      if_neg (fun h => hno h.2.2), if_neg (fun h => hno h.2)]
    rfl
  rw [ht]
  exact ⟨rfl, rfl, rfl⟩

theorem foldl_tickWith_at_min (windows : List (Int × Int)) :
    ∀ s : scheduler, s.activeWorkers = s.minConcurrency →
    (∀ w ∈ windows, w.1 ≠ 0 ∧ 1 / 2 ≤ retryRate w.2 w.1) →
    (windows.foldl tickWith s).activeWorkers = s.activeWorkers ∧
    (windows.foldl tickWith s).minConcurrency = s.minConcurrency ∧
    (windows.foldl tickWith s).stopSignals = s.stopSignals := by
  induction windows with
  | nil => intro s _ _; exact ⟨rfl, rfl, rfl⟩
  | cons w rest ih =>
    intro s hmin hall
    obtain ⟨h0, hr⟩ := hall w (by simp)
    obtain ⟨t1, t2, t3⟩ := tickWith_at_min s w hmin h0 hr
    obtain ⟨i1, i2, i3⟩ := ih (tickWith s w) (by rw [t1, t2]; exact hmin)
      (fun w' hw' => hall w' (List.mem_cons_of_mem _ hw'))
    exact ⟨i1.trans t1, i2.trans t2, i3.trans t3⟩

/-- With the default sizing, ticks whose windows all have a retry rate of 0.80
leave the worker count at 150 and send no stop signal. -/
theorem default_sizing_high_rate (resolver : Resolver) (domain : String)
    (totalTasks concurrency maxQPS : Int) (windows : List (Int × Int))
    (hdef : ¬ (0 < concurrency ∧ concurrency < 150))
    (hrate : ∀ w ∈ windows, w.1 ≠ 0 ∧ retryRate w.2 w.1 = 4 / 5) :
    (monitorTicks (newScheduler resolver domain totalTasks concurrency true maxQPS)
      windows).activeWorkers = 150 ∧
    (monitorTicks (newScheduler resolver domain totalTasks concurrency true maxQPS)
      windows).minConcurrency = 150 ∧
    (monitorTicks (newScheduler resolver domain totalTasks concurrency true maxQPS)
      windows).stopSignals = 0 := by
  obtain ⟨hada, heq, -⟩ := newScheduler_sizes resolver domain totalTasks concurrency true maxQPS
  have hmin : (newScheduler resolver domain totalTasks concurrency true maxQPS).minConcurrency
      = 150 := by
    simp only [newScheduler, guaranteedMinConcurrency, int32, Bool.not_true,
      Bool.false_eq_true, false_and, if_false, true_and]
    rw [if_neg hdef]
    decide
  have hsig : (newScheduler resolver domain totalTasks concurrency true maxQPS).stopSignals
      = 0 := rfl
  obtain ⟨f1, f2, f3⟩ := foldl_tickWith_at_min windows _ heq (fun w hw => by
    obtain ⟨h0, hr⟩ := hrate w hw
    refine ⟨h0, ?_⟩
    rw [hr]
    norm_num)
  simp only [monitorTicks, hada, if_true]
  rw [f1, f2, f3, heq, hmin, hsig]
  exact ⟨rfl, rfl, rfl⟩

theorem highRetryWindow_rate (n : Nat) :
    ∀ w ∈ List.replicate n highRetryWindow, w.1 ≠ 0 ∧ retryRate w.2 w.1 = 4 / 5 := by
  intro w hw
  rw [List.eq_of_mem_replicate hw]
  constructor
  · decide
  · norm_num [retryRate, highRetryWindow]

/-- C11, as it holds: in adaptive mode with the default sizing, when every
monitor window has a retry rate of 0.80 the worker count does not drop at any
tick: it starts at `minConcurrency = 150`, the monitor shrinks only above the
minimum, so that it stays at 150, never below, and no stop signal is sent. -/
theorem high_retry_rate_keeps_default_workers (resolver : Resolver) (domain : String)
    (totalTasks concurrency maxQPS : Int) (windows : List (Int × Int))
    (hdef : ¬ (0 < concurrency ∧ concurrency < 150))
    (hrate : ∀ w ∈ windows, w.1 ≠ 0 ∧ retryRate w.2 w.1 = 4 / 5) :
    (monitorTicks (newScheduler resolver domain totalTasks concurrency true maxQPS)
      windows).activeWorkers = 150 ∧
    (monitorTicks (newScheduler resolver domain totalTasks concurrency true maxQPS)
      windows).minConcurrency = 150 ∧
    (monitorTicks (newScheduler resolver domain totalTasks concurrency true maxQPS)
      windows).stopSignals = 0 :=
  default_sizing_high_rate resolver domain totalTasks concurrency maxQPS windows hdef hrate

/-- C11 on three windows of retry rate 0.80. -/
theorem high_retry_rate_keeps_default_workers_witness :
    ¬ (0 < (0 : Int) ∧ (0 : Int) < 150) ∧
    (∀ w ∈ List.replicate 3 highRetryWindow, w.1 ≠ 0 ∧ retryRate w.2 w.1 = 4 / 5) ∧
    (monitorTicks (newScheduler (NewResolver false) "example.com" 10000 0 true 0)
      (List.replicate 3 highRetryWindow)).activeWorkers = 150 ∧
    (monitorTicks (newScheduler (NewResolver false) "example.com" 10000 0 true 0)
      (List.replicate 3 highRetryWindow)).minConcurrency = 150 ∧
    (monitorTicks (newScheduler (NewResolver false) "example.com" 10000 0 true 0)
      (List.replicate 3 highRetryWindow)).stopSignals = 0 :=
  ⟨by decide, highRetryWindow_rate 3,
    high_retry_rate_keeps_default_workers (NewResolver false) "example.com" 10000 0 0
      (List.replicate 3 highRetryWindow) (by decide) (highRetryWindow_rate 3)⟩

/-- C11 fails as stated: with the default sizing and three windows of retry
rate 0.80, the worker count is 150 before the first tick and after each of the
first three ticks, so that no tick drops it by 120. -/
theorem high_retry_rate_no_drop :
    (monitorTicks defaultAdaptiveScheduler (List.replicate 0 highRetryWindow)).activeWorkers
      = 150 ∧
    (monitorTicks defaultAdaptiveScheduler (List.replicate 1 highRetryWindow)).activeWorkers
      = 150 ∧
    (monitorTicks defaultAdaptiveScheduler (List.replicate 2 highRetryWindow)).activeWorkers
      = 150 ∧
    (monitorTicks defaultAdaptiveScheduler (List.replicate 3 highRetryWindow)).activeWorkers
      = 150 ∧
    ¬ ∃ k, k < 3 ∧
      (monitorTicks defaultAdaptiveScheduler
          (List.replicate (k + 1) highRetryWindow)).activeWorkers
        = (monitorTicks defaultAdaptiveScheduler
            (List.replicate k highRetryWindow)).activeWorkers - 120 := by
  have h : ∀ n, (monitorTicks defaultAdaptiveScheduler
      (List.replicate n highRetryWindow)).activeWorkers = 150 := fun n =>
    (default_sizing_high_rate (NewResolver false) "example.com" 10000 0 0
      (List.replicate n highRetryWindow) (by decide) (highRetryWindow_rate n)).1
  refine ⟨h 0, h 1, h 2, h 3, ?_⟩
  rintro ⟨k, -, hk⟩
  rw [h (k + 1), h k] at hk
  exact absurd hk (by decide)

/-! ## The servers of the exchanges -/

/-- A selected server is a server of the list that was not used. -/
theorem selectServer_some (intn : Nat → Nat) (servers used : List String)
    (server : String) (h : selectServer intn servers used = some server) :
    server ∈ servers ∧ server ∉ used := by
  unfold selectServer at h
  dsimp only at h
  split_ifs at h with h1 h2
  simp only [Option.some.injEq] at h
  have hlt : intn (servers.filter (fun s => !(used.contains s))).length
      % (servers.filter (fun s => !(used.contains s))).length
      < (servers.filter (fun s => !(used.contains s))).length :=
    Nat.mod_lt _ (Nat.pos_of_ne_zero h2)
  rw [List.getD_eq_getElem _ _ hlt] at h
  have hmem := List.getElem_mem hlt
  rw [h] at hmem
  have := List.mem_filter.mp hmem
  simpa using this

theorem attemptBody_selection (r : Resolver) (env : DNSEnv) (a : Nat) (st : LoopState) :
    (if a ≤ 3 then selectServer (env.intn a) r.tier1Servers st.usedServers
      else selectServer (env.intn a) r.tier2Servers st.usedServers)
      = selectServer (env.intn a) (tierOf r a) st.usedServers := by
  unfold tierOf
  split_ifs <;> rfl

/-- An iteration that returns has made an exchange with a selected server. -/
theorem attemptBody_inl_server (r : Resolver) (env : DNSEnv) (a : Nat) (st : LoopState)
    (res : ResolveResult) (hb : attemptBody r env a st = Sum.inl res) :
    ∃ server, selectServer (env.intn a) (tierOf r a) st.usedServers = some server ∧
      res.sent = (a, server) :: st.sent ∧ res.skipped = st.skipped ∧
      res.sleeps = st.sleeps := by
  unfold attemptBody at hb
  simp only at hb
  split at hb
  · cases hb
  · rename_i server hsel
    rw [attemptBody_selection] at hsel
    refine ⟨server, hsel, ?_⟩
    split at hb
    · split at hb
      · cases hb; exact ⟨rfl, rfl, rfl⟩
      · split at hb <;> (cases hb; exact ⟨rfl, rfl, rfl⟩)
    · split at hb
      · cases hb
      · cases hb; exact ⟨rfl, rfl, rfl⟩

/-- An iteration that continues has skipped the attempt, or made an exchange
with a selected server and slept. -/
theorem attemptBody_inr_server (r : Resolver) (env : DNSEnv) (a : Nat) (st st' : LoopState)
    (hb : attemptBody r env a st = Sum.inr st') :
    (selectServer (env.intn a) (tierOf r a) st.usedServers = none ∧
      st'.sent = st.sent ∧ st'.skipped = a :: st.skipped ∧ st'.sleeps = st.sleeps ∧
      st'.usedServers = st.usedServers) ∨
    (∃ server, selectServer (env.intn a) (tierOf r a) st.usedServers = some server ∧
      st'.sent = (a, server) :: st.sent ∧ st'.skipped = st.skipped ∧
      st'.sleeps = a :: st.sleeps ∧ st'.usedServers = server :: st.usedServers) := by
  unfold attemptBody at hb
  simp only at hb
  split at hb
  · rename_i hsel
    rw [attemptBody_selection] at hsel
    cases hb
    left
    exact ⟨hsel, rfl, rfl, rfl, rfl⟩
  · rename_i server hsel
    rw [attemptBody_selection] at hsel
    split at hb
    · split at hb
      · cases hb
      · split at hb <;> cases hb
    · split at hb
      · cases hb
        right
        exact ⟨server, hsel, rfl, rfl, rfl, rfl⟩
      · cases hb

theorem traceInv_exchange (r : Resolver) (k : Nat) (st st' : LoopState) (server : String)
    (hk : 1 ≤ k) (h : TraceInv r k st)
    (hsel : server ∈ tierOf r k ∧ server ∉ st.usedServers)
    (hsent : st'.sent = (k, server) :: st.sent) (hskip : st'.skipped = st.skipped)
    (hsleep : st'.sleeps = st.sleeps ∨ st'.sleeps = k :: st.sleeps)
    (hused : st'.usedServers = server :: st.usedServers) :
    TraceInv r (k + 1) st' := by
  obtain ⟨i1, i2, i3, i4, i5, i6⟩ := h
  obtain ⟨hin, hnot⟩ := hsel
  rw [i1] at hnot
  unfold TraceInv
  rw [hsent, hskip, hused, i1]
  refine ⟨rfl, ?_, ?_, ?_, ?_, ?_⟩
  · simp only [List.map_cons, List.nodup_cons]
    exact ⟨hnot, i2⟩
  · simp only [List.map_cons, List.nodup_cons]
    refine ⟨?_, i3⟩
    intro hmem
    obtain ⟨p, hp, hpk⟩ := List.mem_map.mp hmem
    have := (i4 p hp).2.1
    omega
  · intro p hp
    rcases List.mem_cons.mp hp with rfl | hp
    · exact ⟨hk, Nat.lt_succ_self _, hin⟩
    · obtain ⟨a1, a2, a3⟩ := i4 p hp
      exact ⟨a1, by omega, a3⟩
  · intro j hj
    rcases hsleep with hs | hs
    · rw [hs] at hj
      obtain ⟨srv, hsrv⟩ := i5 j hj
      exact ⟨srv, List.mem_cons_of_mem _ hsrv⟩
    · rw [hs] at hj
      rcases List.mem_cons.mp hj with rfl | hj
      · exact ⟨server, List.mem_cons_self _ _⟩
      · obtain ⟨srv, hsrv⟩ := i5 j hj
        exact ⟨srv, List.mem_cons_of_mem _ hsrv⟩
  · intro j hj
    obtain ⟨b1, b2⟩ := i6 j hj
    refine ⟨by omega, ?_⟩
    intro srv hmem
    rcases List.mem_cons.mp hmem with heq | hmem
    · have : j = k := congrArg Prod.fst heq
      omega
    · exact b2 srv hmem

theorem traceInv_skip (r : Resolver) (k : Nat) (st st' : LoopState) (h : TraceInv r k st)
    (hsent : st'.sent = st.sent) (hskip : st'.skipped = k :: st.skipped)
    (hsleep : st'.sleeps = st.sleeps) (hused : st'.usedServers = st.usedServers) :
    TraceInv r (k + 1) st' := by
  obtain ⟨i1, i2, i3, i4, i5, i6⟩ := h
  unfold TraceInv
  rw [hsent, hskip, hsleep, hused]
  refine ⟨i1, i2, i3, ?_, i5, ?_⟩
  · intro p hp
    obtain ⟨a1, a2, a3⟩ := i4 p hp
    exact ⟨a1, by omega, a3⟩
  · intro j hj
    rcases List.mem_cons.mp hj with rfl | hj
    · refine ⟨Nat.lt_succ_self _, ?_⟩
      intro srv hmem
      have := (i4 _ hmem).2.1
      simp at this
    · obtain ⟨b1, b2⟩ := i6 j hj
      exact ⟨by omega, b2⟩

theorem traceInv_result (r : Resolver) (k : Nat) (st : LoopState) (res : ResolveResult)
    (hk : k ≤ maxAttempts + 1) (h : TraceInv r k st) (hsent : res.sent = st.sent)
    (hskip : res.skipped = st.skipped) (hsleep : res.sleeps = st.sleeps) :
    ResultTraceOK r res := by
  obtain ⟨-, i2, i3, i4, i5, i6⟩ := h
  unfold ResultTraceOK
  rw [hsent, hskip, hsleep]
  refine ⟨i2, i3, ?_, i5, fun j hj => (i6 j hj).2⟩
  intro p hp
  obtain ⟨a1, a2, a3⟩ := i4 p hp
  unfold maxAttempts at hk
  exact ⟨a1, by omega, a3⟩

/-- The trace of the loop from attempt `k` on keeps the invariant of the
trace. -/
theorem resolveLoop_trace_ok (r : Resolver) (env : DNSEnv) (domain : String) (n : Nat) :
    ∀ (k : Nat) (st : LoopState), 1 ≤ k → k + n = maxAttempts + 1 → TraceInv r k st →
    ResultTraceOK r (resolveLoop r env domain (List.range' k n) st) := by
  induction n with
  | zero =>
    intro k st _ hkn h
    simp only [List.range', resolveLoop]
    apply traceInv_result r k st _ (by omega) h
    · simp only [afterLoop]; split <;> rfl
    · simp only [afterLoop]; split <;> rfl
    · simp only [afterLoop]; split <;> rfl
  | succ n ih =>
    intro k st hk hkn h
    simp only [List.range', resolveLoop]
    cases hb : attemptBody r env k st with
    | inl res =>
      simp only
      obtain ⟨server, hsel, hsent, hskip, hsleep⟩ := attemptBody_inl_server r env k st res hb
      have hinv := traceInv_exchange r k st
        { st with sent := res.sent, usedServers := server :: st.usedServers } server hk h
        (selectServer_some _ _ _ _ hsel) hsent rfl (Or.inl rfl) rfl
      exact traceInv_result r (k + 1) _ res (by omega) hinv rfl hskip hsleep
    | inr st' =>
      simp only
      apply ih (k + 1) st' (by omega) (by omega)
      rcases attemptBody_inr_server r env k st st' hb with
        ⟨-, hsent, hskip, hsleep, hused⟩ | ⟨server, hsel, hsent, hskip, hsleep, hused⟩
      · exact traceInv_skip r k st st' h hsent hskip hsleep hused
      · exact traceInv_exchange r k st st' server hk h (selectServer_some _ _ _ _ hsel)
          hsent hskip (Or.inr hsleep) hused

theorem resolve_trace_ok (r : Resolver) (env : DNSEnv) (domain : String) :
    ResultTraceOK r (r.Resolve env domain) := by
  unfold Resolver.Resolve
  apply resolveLoop_trace_ok r env domain maxAttempts 1 initLoop (by decide) (by decide)
  unfold TraceInv initLoop
  simp

/-- Distinct attempts taken from a list of three are at most three. -/
theorem length_le_three_of_nodup (l : List (Nat × String)) (a b c : Nat)
    (hnd : (l.map Prod.fst).Nodup) (hmem : ∀ p ∈ l, p.1 = a ∨ p.1 = b ∨ p.1 = c) :
    l.length ≤ 3 := by
  have hsub : l.map Prod.fst ⊆ [a, b, c] := by
    intro x hx
    obtain ⟨p, hp, rfl⟩ := List.mem_map.mp hx
    simpa using hmem p hp
  have := (hnd.subperm hsub).length_le
  simpa using this

/-- C13: whatever the random selection picks, every exchange of a `Resolve`
call is made at an attempt from 1 to 6, with a tier-1 server at the attempts
1 to 3 and a tier-2 server at the attempts 4 to 6; no server is sent the query
twice and no attempt makes two exchanges, so that at most 3 exchanges go to
each tier; and an attempt whose tier has no server left unused by the earlier
attempts, as every skipped attempt, makes no exchange and no sleep. -/
theorem resolve_exchanges_by_tier (r : Resolver) (env : DNSEnv) (domain : String) :
    (∀ k server, (k, server) ∈ (r.Resolve env domain).sent →
      1 ≤ k ∧ k ≤ 6 ∧ (k ≤ 3 → server ∈ r.tier1Servers) ∧
      (3 < k → server ∈ r.tier2Servers)) ∧
    ((r.Resolve env domain).sent.map Prod.snd).Nodup ∧
    ((r.Resolve env domain).sent.map Prod.fst).Nodup ∧
    ((r.Resolve env domain).sent.filter (fun p => decide (p.1 ≤ 3))).length ≤ 3 ∧
    ((r.Resolve env domain).sent.filter (fun p => decide (3 < p.1))).length ≤ 3 ∧
    (∀ k, (∀ server ∈ tierOf r k, ∃ j, j < k ∧ (j, server) ∈ (r.Resolve env domain).sent) →
      (∀ server, (k, server) ∉ (r.Resolve env domain).sent) ∧
      k ∉ (r.Resolve env domain).sleeps) ∧
    (∀ k ∈ (r.Resolve env domain).skipped,
      (∀ server, (k, server) ∉ (r.Resolve env domain).sent) ∧
      k ∉ (r.Resolve env domain).sleeps) := by
  obtain ⟨h1, h2, h3, h4, h5⟩ := resolve_trace_ok r env domain
  generalize r.Resolve env domain = res at *
  have hno : ∀ k, (∀ server ∈ tierOf r k, ∃ j, j < k ∧ (j, server) ∈ res.sent) →
      ∀ server, (k, server) ∉ res.sent := by
    intro k hall server hmem
    obtain ⟨j, hj, hjm⟩ := hall server (h3 _ hmem).2.2
    have := List.inj_on_of_nodup_map h1 hmem hjm rfl
    have hkj : k = j := congrArg Prod.fst this
    omega
  refine ⟨?_, h1, h2, ?_, ?_, ?_, ?_⟩
  · intro k server hmem
    obtain ⟨a1, a2, a3⟩ := h3 _ hmem
    refine ⟨a1, a2, ?_, ?_⟩
    · intro hk
      simpa [tierOf, hk] using a3
    · intro hk
      have : ¬ k ≤ 3 := by omega
      simpa [tierOf, this] using a3
  · apply length_le_three_of_nodup _ 1 2 3
    · exact h2.sublist ((List.filter_sublist _).map Prod.fst)
    · intro p hp
      obtain ⟨hp1, hp2⟩ := List.mem_filter.mp hp
      have := (h3 p hp1).1
      simp only [decide_eq_true_eq] at hp2
      omega
  · apply length_le_three_of_nodup _ 4 5 6
    · exact h2.sublist ((List.filter_sublist _).map Prod.fst)
    · intro p hp
      obtain ⟨hp1, hp2⟩ := List.mem_filter.mp hp
      have := (h3 p hp1).2.1
      simp only [decide_eq_true_eq] at hp2
      omega
  · intro k hall
    refine ⟨hno k hall, ?_⟩
    intro hs
    obtain ⟨server, hmem⟩ := h4 k hs
    exact hno k hall server hmem
  · intro k hk
    refine ⟨h5 k hk, ?_⟩
    intro hs
    obtain ⟨server, hmem⟩ := h4 k hs
    exact h5 k hk server hmem

/-! ## The worker pool: the steps -/

theorem getElem?_split {α : Type} (l : List α) : ∀ (i : Nat) (w : α), l[i]? = some w →
    ∃ l1 l2, l = l1 ++ w :: l2 ∧ (∀ w', l.set i w' = l1 ++ w' :: l2) ∧
      l.eraseIdx i = l1 ++ l2 := by
  induction l with
  | nil => intro i w h; simp at h
  | cons a l ih =>
    intro i w h
    cases i with
    | zero =>
      simp only [List.getElem?_cons_zero, Option.some.injEq] at h
      subst h
      exact ⟨[], l, rfl, fun _ => rfl, rfl⟩
    | succ i =>
      simp only [List.getElem?_cons_succ] at h
      obtain ⟨l1, l2, h1, h2, h3⟩ := ih i w h
      refine ⟨a :: l1, l2, by rw [h1]; rfl, fun w' => ?_, ?_⟩
      · simp only [List.set_cons_succ, h2 w', List.cons_append]
      · simp only [List.eraseIdx_cons_succ, h3, List.cons_append]

/-- The five kinds of steps of the pool: a tick, a task received, a worker
that returns, a step of a worker after `Resolve`, a stray worker that
returns. -/
theorem poolStep_cases (mainPhase : Bool) (p p' : Pool) (e : PoolEvent)
    (h : poolStep mainPhase p e = some p') :
    ((p'.s = monitorTick p.s ∨ p'.s = p.s) ∧ p'.tasks = p.tasks ∧
      (∃ n, p'.workers = p.workers ++ List.replicate n WorkerState.idle) ∧
      p'.outcomes = p.outcomes ∧ p'.earlier = p.earlier) ∨
    (∃ l1 l2 task rest env, p.workers = l1 ++ WorkerState.idle :: l2 ∧
      p.tasks = task :: rest ∧ p'.tasks = rest ∧
      p'.workers = l1 ++ WorkerState.busy task (p.s.resolver.Resolve env task) 0 :: l2 ∧
      p'.s = { p.s with resolved := p.s.resolved ++ [task] } ∧
      p'.outcomes = p.outcomes ++ [(task, p.s.resolver.Resolve env task)] ∧
      p'.earlier = p.earlier) ∨
    (∃ l1 l2, p.workers = l1 ++ WorkerState.idle :: l2 ∧ p'.workers = l1 ++ l2 ∧
      p'.s = p.s ∧ p'.tasks = p.tasks ∧ p'.outcomes = p.outcomes ∧
      p'.earlier = p.earlier) ∨
    (∃ l1 l2 subdomain res pc, p.workers = l1 ++ WorkerState.busy subdomain res pc :: l2 ∧
      p'.workers = l1 ++ nextWorker subdomain res pc :: l2 ∧
      p'.s = workerUpdate p.s subdomain res pc ∧ p'.tasks = p.tasks ∧
      p'.outcomes = p.outcomes ∧ p'.earlier = p.earlier) := by
  cases e with
  | tick =>
    left
    simp only [poolStep] at h
    split_ifs at h with ha hm
    · cases h
      exact ⟨Or.inl rfl, rfl, ⟨_, rfl⟩, rfl, rfl⟩
    · cases h
      exact ⟨Or.inl rfl, rfl, ⟨0, by simp⟩, rfl, rfl⟩
    · cases h
      exact ⟨Or.inr rfl, rfl, ⟨0, by simp⟩, rfl, rfl⟩
  | receive i env =>
    right; left
    simp only [poolStep] at h
    split at h
    · rename_i task rest hw ht
      cases h
      obtain ⟨l1, l2, e1, e2, -⟩ := getElem?_split p.workers i _ hw
      exact ⟨l1, l2, task, rest, env, e1, ht, rfl, e2 _, rfl, rfl, rfl⟩
    · cases h
  | stop i =>
    right; right; left
    simp only [poolStep] at h
    split_ifs at h with hc
    cases h
    obtain ⟨l1, l2, e1, -, e3⟩ := getElem?_split p.workers i _ hc.1
    exact ⟨l1, l2, e1, e3, rfl, rfl, rfl, rfl⟩
  | closed i =>
    right; right; left
    simp only [poolStep] at h
    split_ifs at h with hc
    cases h
    obtain ⟨l1, l2, e1, -, e3⟩ := getElem?_split p.workers i _ hc.1
    exact ⟨l1, l2, e1, e3, rfl, rfl, rfl, rfl⟩
  | update i =>
    right; right; right
    simp only [poolStep] at h
    split at h
    · rename_i subdomain res pc hw
      cases h
      obtain ⟨l1, l2, e1, e2, -⟩ := getElem?_split p.workers i _ hw
      exact ⟨l1, l2, subdomain, res, pc, e1, e2 _, rfl, rfl, rfl, rfl⟩
    · cases h
  | strayStop =>
    left
    simp only [poolStep] at h
    split_ifs at h
    cases h
    exact ⟨Or.inr rfl, rfl, ⟨0, by simp⟩, rfl, rfl⟩
  | strayClosed =>
    left
    simp only [poolStep] at h
    split_ifs at h
    cases h
    exact ⟨Or.inr rfl, rfl, ⟨0, by simp⟩, rfl, rfl⟩

/-- A property kept by every step holds along a list of events. -/
theorem poolRun_induction (P : Pool → Prop) (mainPhase : Bool)
    (hstep : ∀ p p' e, P p → poolStep mainPhase p e = some p' → P p')
    (events : List PoolEvent) : ∀ p p', P p → poolRun mainPhase events p = some p' → P p' := by
  induction events with
  | nil =>
    intro p p' hp h
    simp only [poolRun, Option.some.injEq] at h
    rw [← h]
    exact hp
  | cons e rest ih =>
    intro p p' hp h
    simp only [poolRun] at h
    cases hs : poolStep mainPhase p e with
    | none => rw [hs] at h; cases h
    | some q =>
      rw [hs] at h
      exact ih q p' (hstep p q e hp hs) h

/-- What a step of a worker after `Resolve` changes in `failedDomains`. -/
theorem workerUpdate_failedDomains (s : scheduler) (subdomain : String)
    (res : ResolveResult) (pc : Nat) :
    (workerUpdate s subdomain res pc).failedDomains =
      if pc = 5 ∧ res.status = ResolveStatus.Failed then s.failedDomains ++ [subdomain]
      else s.failedDomains := by
  rcases pc with _ | _ | _ | _ | _ | _ | _ | _ | pc <;>
    simp only [workerUpdate, workerStatus, sendStatus] <;> split_ifs <;> simp_all

theorem pendingFailed_append (l1 l2 : List WorkerState) :
    pendingFailed (l1 ++ l2) = pendingFailed l1 ++ pendingFailed l2 := by
  simp [pendingFailed, List.filterMap_append]

theorem pendingFailed_replicate_idle (n : Nat) :
    pendingFailed (List.replicate n WorkerState.idle) = [] := by
  induction n with
  | zero => rfl
  | succ n ih =>
    simp only [List.replicate_succ, pendingFailed, List.filterMap_cons,
      WorkerState.pendingFailed] at ih ⊢
    exact ih

theorem pendingFailed_cons (w : WorkerState) (l : List WorkerState) :
    pendingFailed (w :: l) = w.pendingFailed.toList ++ pendingFailed l := by
  simp only [pendingFailed, List.filterMap_cons]
  cases w.pendingFailed <;> rfl

/-- A step of a worker after `Resolve` moves its failed domain from what is
still to append into `failedDomains`. -/
theorem workerUpdate_pendingFailed (s : scheduler) (subdomain : String)
    (res : ResolveResult) (pc : Nat) (a : String) :
    List.count a (workerUpdate s subdomain res pc).failedDomains
      + List.count a (nextWorker subdomain res pc).pendingFailed.toList
    = List.count a s.failedDomains
      + List.count a (WorkerState.busy subdomain res pc).pendingFailed.toList := by
  rw [workerUpdate_failedDomains]
  unfold nextWorker workerSteps
  by_cases hf : res.status = ResolveStatus.Failed
  · rcases pc with _ | _ | _ | _ | _ | _ | _ | _ | pc
    any_goals simp [WorkerState.pendingFailed, hf, List.count_append]
    have h9 : ¬ (pc + 1 + 1 + 1 + 1 + 1 + 1 + 1 + 1 + 1 < 9) := by omega
    simp [h9, WorkerState.pendingFailed]
  · rcases pc with _ | _ | _ | _ | _ | _ | _ | _ | pc
    any_goals simp [WorkerState.pendingFailed, hf]
    have h9 : ¬ (pc + 1 + 1 + 1 + 1 + 1 + 1 + 1 + 1 + 1 < 9) := by omega
    simp [h9, WorkerState.pendingFailed]

theorem failedOf_append_singleton (outcomes : List (String × ResolveResult))
    (task : String) (res : ResolveResult) :
    failedOf (outcomes ++ [(task, res)]) = failedOf outcomes
      ++ (WorkerState.busy task res 0).pendingFailed.toList := by
  by_cases hf : res.status = ResolveStatus.Failed <;>
    simp [failedOf, List.filter_append, WorkerState.pendingFailed, hf]

/-- Every step of the pool keeps the trace of the phase. -/
theorem poolStep_phaseTrace (tasks0 : List String) (mainPhase : Bool) (p p' : Pool)
    (e : PoolEvent) (hp : PhaseTrace tasks0 p) (h : poolStep mainPhase p e = some p') :
    PhaseTrace tasks0 p' := by
  obtain ⟨hq, hf⟩ := hp
  rw [List.perm_iff_count] at hf
  unfold PhaseTrace
  rw [List.perm_iff_count]
  rcases poolStep_cases mainPhase p p' e h with
    ⟨hs, ht, ⟨n, hw⟩, ho, -⟩ | ⟨l1, l2, task, rest, env, hw, ht, ht', hw', hs, ho, -⟩ |
    ⟨l1, l2, hw, hw', hs, ht, ho, -⟩ | ⟨l1, l2, sub, res, pc, hw, hw', hs, ht, ho, -⟩
  · have hfd : p'.s.failedDomains = p.s.failedDomains := by
      rcases hs with hs | hs
      · rw [hs]; exact (monitorTick_sameScan p.s).2.2.2.2.2.2.2.2.2.1
      · rw [hs]
    rw [ht, ho, hw, hfd, pendingFailed_append, pendingFailed_replicate_idle, List.append_nil]
    exact ⟨hq, hf⟩
  · rw [ht', ho, hw', hs]
    refine ⟨?_, fun a => ?_⟩
    · rw [← hq, ht]; simp
    · have := hf a
      rw [hw] at this
      simp only [failedOf_append_singleton, pendingFailed_append, pendingFailed_cons,
        List.count_append] at this ⊢
      simp only [WorkerState.pendingFailed, Option.toList, List.count_nil] at this
      omega
  · rw [ht, ho, hw', hs]
    refine ⟨hq, fun a => ?_⟩
    have := hf a
    rw [hw] at this
    simp only [pendingFailed_append, pendingFailed_cons, List.count_append] at this ⊢
    simp only [WorkerState.pendingFailed, Option.toList, List.count_nil] at this
    omega
  · rw [ht, ho, hw', hs]
    refine ⟨hq, fun a => ?_⟩
    have := hf a
    rw [hw] at this
    have hu := workerUpdate_pendingFailed p.s sub res pc a
    simp only [pendingFailed_append, pendingFailed_cons, List.count_append] at this ⊢
    omega

theorem poolRun_phaseTrace (tasks0 : List String) (mainPhase : Bool)
    (events : List PoolEvent) (p p' : Pool) (hp : PhaseTrace tasks0 p)
    (h : poolRun mainPhase events p = some p') : PhaseTrace tasks0 p' :=
  poolRun_induction (PhaseTrace tasks0) mainPhase
    (fun q q' e hq hs => poolStep_phaseTrace tasks0 mainPhase q q' e hq hs) events p p' hp h

/-- A step of a worker after `Resolve` sends no status or one `main_scan`
status. -/
theorem workerUpdate_statuses (s : scheduler) (subdomain : String) (res : ResolveResult)
    (pc : Nat) :
    (workerUpdate s subdomain res pc).statuses = s.statuses ∨
    ∃ st, (workerUpdate s subdomain res pc).statuses = s.statuses ++ [st] ∧
      st.Phase = "main_scan" := by
  rcases pc with _ | _ | _ | _ | _ | _ | _ | _ | pc
  any_goals (left; simp only [workerUpdate]; split_ifs <;> rfl)
  any_goals (left; rfl)
  simp only [workerUpdate, workerStatus]
  split_ifs
  · right
    exact ⟨_, rfl, by simp⟩
  · left; rfl

/-- The statuses after a step of the pool: those before, and at most one new
`main_scan` status. -/
theorem poolStep_statuses (mainPhase : Bool) (p p' : Pool) (e : PoolEvent)
    (h : poolStep mainPhase p e = some p') :
    p'.s.statuses = p.s.statuses ∨
    ∃ st, p'.s.statuses = p.s.statuses ++ [st] ∧ st.Phase = "main_scan" := by
  rcases poolStep_cases mainPhase p p' e h with
    ⟨hs, -⟩ | ⟨l1, l2, task, rest, env, -, -, -, -, hs, -⟩ |
    ⟨l1, l2, -, -, hs, -⟩ | ⟨l1, l2, sub, res, pc, -, -, hs, -⟩
  · left
    rcases hs with hs | hs
    · rw [hs]; exact (monitorTick_sameScan p.s).2.2.2.2.2.2.2.2.2.2.2.1
    · rw [hs]
  · left; rw [hs]
  · left; rw [hs]
  · rw [hs]
    exact workerUpdate_statuses p.s sub res pc

theorem poolRun_noRetryStatus (mainPhase : Bool) (events : List PoolEvent) (p p' : Pool)
    (hp : NoRetryStatus p.s) (h : poolRun mainPhase events p = some p') :
    NoRetryStatus p'.s := by
  refine poolRun_induction (fun q => NoRetryStatus q.s) mainPhase ?_ events p p' hp h
  intro q q' e hq hs st hst
  rcases poolStep_statuses mainPhase q q' e hs with he | ⟨st', he, hph⟩
  · rw [he] at hst; exact hq st hst
  · rw [he] at hst
    rcases List.mem_append.mp hst with hm | hm
    · exact hq st hm
    · rw [List.mem_singleton.mp hm, hph]
      decide

theorem poolRun_mem_statuses (st : ScanStatus) (mainPhase : Bool) (events : List PoolEvent)
    (p p' : Pool) (hp : st ∈ p.s.statuses) (h : poolRun mainPhase events p = some p') :
    st ∈ p'.s.statuses := by
  refine poolRun_induction (fun q => st ∈ q.s.statuses) mainPhase ?_ events p p' hp h
  intro q q' e hq hs
  rcases poolStep_statuses mainPhase q q' e hs with he | ⟨st', he, -⟩
  · rw [he]; exact hq
  · rw [he]; exact List.mem_append_left _ hq

theorem mainScan_some (s : scheduler) (words : List String) (events : List PoolEvent)
    (p1 : Pool) (h : mainScan s words events = some p1) :
    poolRun true events (launchMain s words) = some p1 ∧ p1.workers = [] := by
  unfold mainScan at h
  split_ifs at h
  cases hr : poolRun true events (launchMain s words) with
  | none => rw [hr] at h; cases h
  | some p =>
    rw [hr] at h
    simp only at h
    split_ifs at h with hw ht
    cases h
    exact ⟨rfl, not_not.mp hw⟩

theorem retryScan_some (p1 : Pool) (events : List PoolEvent) (p2 : Pool)
    (h : retryScan p1 events = some p2) :
    poolRun false events (launchRetry p1) = some p2 ∧ p2.workers = [] ∧ p2.strays = 0 := by
  unfold retryScan at h
  split_ifs at h
  cases hr : poolRun false events (launchRetry p1) with
  | none => rw [hr] at h; cases h
  | some p =>
    rw [hr] at h
    simp only at h
    split_ifs at h with hw
    cases h
    simp only [not_or, not_not] at hw
    exact ⟨rfl, hw.1, hw.2⟩

/-- At the return of `wg.Wait` in phase 1 the tasks were received in order,
each once, and `failedDomains` holds the candidates that ended `Failed`, each
once. -/
theorem mainScan_phaseTrace (s : scheduler) (words : List String)
    (events : List PoolEvent) (p1 : Pool) (hfd : s.failedDomains = [])
    (h : mainScan s words events = some p1) :
    p1.workers = [] ∧ p1.earlier = [] ∧
    p1.outcomes.map Prod.fst ++ p1.tasks = candidates s words ∧
    List.Perm p1.s.failedDomains (failedOf p1.outcomes) := by
  obtain ⟨hr, hw⟩ := mainScan_some s words events p1 h
  have h0 : PhaseTrace (candidates s words) (launchMain s words) := by
    refine ⟨rfl, ?_⟩
    show List.Perm (s.failedDomains ++ pendingFailed (List.replicate _ WorkerState.idle)) _
    rw [hfd, pendingFailed_replicate_idle]
    exact List.Perm.refl _
  obtain ⟨t1, t2⟩ := poolRun_phaseTrace _ true events _ p1 h0 hr
  have he : p1.earlier = [] :=
    poolRun_induction (fun q => q.earlier = []) true
      (fun q q' e hq hs => by
        rcases poolStep_cases true q q' e hs with
          ⟨-, -, -, -, he⟩ | ⟨_, _, _, _, _, -, -, -, -, -, -, he⟩ |
          ⟨_, _, -, -, -, -, -, he⟩ | ⟨_, _, _, _, _, -, -, -, -, -, he⟩ <;>
        rw [he, hq])
      events _ p1 rfl hr
  rw [hw] at t2
  simp only [pendingFailed, List.filterMap_nil, List.append_nil] at t2
  exact ⟨hw, he, t1, t2⟩

/-- The two courses of `runPool`: without and with a retry phase. -/
theorem runPool_cases (s : scheduler) (enableRetry : Bool) (words : List String)
    (events1 events2 : List PoolEvent) (pfin : Pool) (hst : NoRetryStatus s)
    (hrun : runPool s enableRetry words events1 events2 = some pfin) :
    ∃ p1, mainScan s words events1 = some p1 ∧
      (((!enableRetry) = true ∨ p1.s.failedDomains.length = 0) ∧
        pfin = { p1 with s := sendStatus p1.s "done" 0 } ∧ ¬ ranRetry pfin.s ∨
      ¬ ((!enableRetry) = true ∨ p1.s.failedDomains.length = 0) ∧
        ∃ p2, retryScan p1 events2 = some p2 ∧
          pfin = { p2 with s := sendStatus p2.s "done" 0 } ∧ ranRetry pfin.s) := by
  unfold runPool at hrun
  cases h1 : mainScan s words events1 with
  | none => rw [h1] at hrun; cases hrun
  | some p1 =>
    rw [h1] at hrun
    simp only at hrun
    refine ⟨p1, rfl, ?_⟩
    have hn1 : NoRetryStatus p1.s :=
      poolRun_noRetryStatus true events1 _ p1
        (sendStatus_noRetryStatus s "main_scan" 0 (by decide) hst)
        (mainScan_some s words events1 p1 h1).1
    split_ifs at hrun with hc
    · left
      cases hrun
      refine ⟨hc, rfl, ?_⟩
      rintro ⟨st, hm, hph⟩
      exact sendStatus_noRetryStatus p1.s "done" 0 (by decide) hn1 st hm hph
    · right
      refine ⟨hc, ?_⟩
      cases h2 : retryScan p1 events2 with
      | none => rw [h2] at hrun; cases hrun
      | some p2 =>
        rw [h2] at hrun
        cases hrun
        refine ⟨p2, rfl, rfl, ?_⟩
        obtain ⟨st, hst', -, -, -, -, -, -, -, hph⟩ :=
          sendStatus_statuses
            { p1.s with failedDomains := [], totalTasks := (p1.s.failedDomains.length : Int),
                        scanned := 0, failed := 0 } "retry_scan"
            (p1.s.failedDomains.length : Int)
        have hm0 : st ∈ (launchRetry p1).s.statuses := by
          show st ∈ (startRetry p1.s).statuses
          unfold startRetry
          rw [hst']
          simp
        have hm2 := poolRun_mem_statuses st false events2 _ p2 hm0
          (retryScan_some p1 events2 p2 h2).1
        exact ⟨st, by simp only [sendStatus, List.mem_append]; left; exact hm2,
          hph (by decide)⟩

theorem workerUpdate_resolver (s : scheduler) (subdomain : String) (res : ResolveResult)
    (pc : Nat) : (workerUpdate s subdomain res pc).resolver = s.resolver := by
  rcases pc with _ | _ | _ | _ | _ | _ | _ | _ | pc <;>
    simp only [workerUpdate, workerStatus, sendStatus] <;> split_ifs <;> rfl

theorem poolStep_resolvedBy (r : Resolver) (mainPhase : Bool) (p p' : Pool) (e : PoolEvent)
    (hp : ResolvedBy r p) (h : poolStep mainPhase p e = some p') : ResolvedBy r p' := by
  obtain ⟨hr, ho, hw⟩ := hp
  unfold ResolvedBy
  rcases poolStep_cases mainPhase p p' e h with
    ⟨hs, -, ⟨n, hw'⟩, ho', he'⟩ | ⟨l1, l2, task, rest, env, hw0, -, -, hw', hs, ho', he'⟩ |
    ⟨l1, l2, hw0, hw', hs, -, ho', he'⟩ | ⟨l1, l2, sub, res, pc, hw0, hw', hs, -, ho', he'⟩
  · refine ⟨?_, by rw [ho', he']; exact ho, ?_⟩
    · rcases hs with hs | hs
      · rw [hs, (monitorTick_sameScan p.s).1]; exact hr
      · rw [hs]; exact hr
    · intro sub res pc hm
      rw [hw'] at hm
      rcases List.mem_append.mp hm with hm | hm
      · exact hw sub res pc hm
      · have := List.eq_of_mem_replicate hm
        cases this
  · refine ⟨by rw [hs]; exact hr, ?_, ?_⟩
    · intro o hm
      rw [ho', he', ← List.append_assoc] at hm
      rcases List.mem_append.mp hm with hm | hm
      · exact ho o hm
      · rw [List.mem_singleton.mp hm]
        exact ⟨env, by rw [hr]⟩
    · intro sub res pc hm
      rw [hw'] at hm
      rcases List.mem_append.mp hm with hm | hm
      · exact hw sub res pc (by rw [hw0]; exact List.mem_append_left _ hm)
      · rcases List.mem_cons.mp hm with hm | hm
        · cases hm
          exact ⟨env, by rw [hr]⟩
        · exact hw sub res pc
            (by rw [hw0]; exact List.mem_append_right _ (List.mem_cons_of_mem _ hm))
  · refine ⟨by rw [hs]; exact hr, by rw [ho', he']; exact ho, ?_⟩
    intro sub res pc hm
    rw [hw'] at hm
    apply hw sub res pc
    rw [hw0]
    rcases List.mem_append.mp hm with hm | hm
    · exact List.mem_append_left _ hm
    · exact List.mem_append_right _ (List.mem_cons_of_mem _ hm)
  · refine ⟨by rw [hs, workerUpdate_resolver]; exact hr, by rw [ho', he']; exact ho, ?_⟩
    intro sub' res' pc' hm
    rw [hw'] at hm
    rcases List.mem_append.mp hm with hm | hm
    · exact hw sub' res' pc' (by rw [hw0]; exact List.mem_append_left _ hm)
    · rcases List.mem_cons.mp hm with hm | hm
      · unfold nextWorker at hm
        split_ifs at hm
        cases hm
        exact hw sub res pc (by rw [hw0]; simp)
      · exact hw sub' res' pc'
          (by rw [hw0]; exact List.mem_append_right _ (List.mem_cons_of_mem _ hm))

theorem poolRun_resolvedBy (r : Resolver) (mainPhase : Bool) (events : List PoolEvent)
    (p p' : Pool) (hp : ResolvedBy r p) (h : poolRun mainPhase events p = some p') :
    ResolvedBy r p' :=
  poolRun_induction (ResolvedBy r) mainPhase
    (fun q q' e hq hs => poolStep_resolvedBy r mainPhase q q' e hq hs) events p p' hp h

theorem launchMain_resolvedBy (s : scheduler) (words : List String) :
    ResolvedBy s.resolver (launchMain s words) := by
  refine ⟨rfl, by intro o hm; simp [launchMain] at hm, ?_⟩
  intro sub res pc hm
  have := List.eq_of_mem_replicate hm
  cases this

theorem launchRetry_resolvedBy (r : Resolver) (p : Pool) (hp : ResolvedBy r p)
    (he : p.earlier = []) : ResolvedBy r (launchRetry p) := by
  obtain ⟨hr, ho, -⟩ := hp
  refine ⟨hr, ?_, ?_⟩
  · intro o hm
    apply ho
    rw [he]
    simpa [launchRetry] using hm
  · intro sub res pc hm
    have := List.eq_of_mem_replicate hm
    cases this

theorem workerUpdate_workers (s : scheduler) (subdomain : String) (res : ResolveResult)
    (pc : Nat) :
    (workerUpdate s subdomain res pc).activeWorkers = s.activeWorkers ∧
    (workerUpdate s subdomain res pc).minConcurrency = s.minConcurrency ∧
    (workerUpdate s subdomain res pc).adaptive = s.adaptive ∧
    (workerUpdate s subdomain res pc).stopSignals = s.stopSignals := by
  rcases pc with _ | _ | _ | _ | _ | _ | _ | _ | pc
  any_goals (simp only [workerUpdate]; split_ifs <;> exact ⟨rfl, rfl, rfl, rfl⟩)
  any_goals (first | exact ⟨rfl, rfl, rfl, rfl⟩ | skip)
  simp only [workerUpdate, workerStatus]
  split_ifs <;> exact ⟨rfl, rfl, rfl, rfl⟩

/-- A tick keeps the balance of workers and stop signals: what it adds to
`activeWorkers` it starts, what it takes off it sends as stop signals. -/
theorem monitorTick_balance (s : scheduler) (h : WorkersInBounds s) :
    s.spawned ≤ (monitorTick s).spawned ∧ s.stopSignals ≤ (monitorTick s).stopSignals ∧
    (monitorTick s).activeWorkers + ((monitorTick s).stopSignals : Int)
      = s.activeWorkers + (s.stopSignals : Int)
        + (((monitorTick s).spawned - s.spawned : Nat) : Int) := by
  obtain ⟨h1, h2, h3, h4⟩ := h
  obtain ⟨d, hd, hpos, hneg, he⟩ := monitorTick_eq_adjust s
  rw [he]
  have ea : (clearWindow s).activeWorkers = s.activeWorkers := rfl
  have em : (clearWindow s).minConcurrency = s.minConcurrency := rfl
  have es : (clearWindow s).stopSignals = s.stopSignals := rfl
  have ep : (clearWindow s).spawned = s.spawned := rfl
  unfold maxConcurrency at hpos
  rcases hd with rfl | rfl | rfl | rfl | rfl
  · simp [adjustWorkers, ea, es, ep]
  all_goals
    simp only [adjustWorkers, int32, ea, em, es, ep]
    split_ifs <;> (try simp only [Nat.cast_add]) <;>
      (refine ⟨?_, ?_, ?_⟩ <;> omega)

theorem poolStep_mainBalance (p p' : Pool) (e : PoolEvent) (hp : MainBalance p)
    (h : poolStep true p e = some p') : MainBalance p' := by
  obtain ⟨h0, hr, hl, hb⟩ := hp
  cases e with
  | tick =>
    simp only [poolStep, if_true] at h
    split_ifs at h with ha
    · cases h
      have hwb := hl.2 ha
      obtain ⟨hwb', hada, -⟩ := monitorTick_bounds p.s hwb
      obtain ⟨b1, b2, b3⟩ := monitorTick_balance p.s hwb
      refine ⟨h0, le_trans hr b2, ⟨?_, fun _ => hwb'⟩, ?_⟩
      · obtain ⟨c1, -, c3, -⟩ := hwb'
        show 0 < (monitorTick p.s).activeWorkers
        omega
      · intro ht
        have := hb ht
        show (((p.workers ++ List.replicate _ WorkerState.idle).length : Nat) : Int) + _ = _
        rw [List.length_append, List.length_replicate, b3]
        push_cast
        omega
    · cases h
      exact ⟨h0, hr, hl, hb⟩
  | receive i env =>
    simp only [poolStep] at h
    split at h
    · rename_i task rest hw ht
      cases h
      refine ⟨h0, hr, hl, fun _ => ?_⟩
      show (((p.workers.set i _).length : Nat) : Int) + _ = _
      rw [List.length_set]
      exact hb (by rw [ht]; simp)
    · cases h
  | stop i =>
    simp only [poolStep] at h
    split_ifs at h with hc
    cases h
    obtain ⟨hw, hlt⟩ := hc
    have hi : i < p.workers.length := by
      by_contra hn
      rw [List.getElem?_eq_none (by omega)] at hw
      cases hw
    refine ⟨h0, hlt, hl, fun ht => ?_⟩
    have := hb ht
    show (((p.workers.eraseIdx i).length : Nat) : Int) + ((p.stopsRead + 1 : Nat) : Int) = _
    rw [List.length_eraseIdx, if_pos hi]
    push_cast
    omega
  | closed i =>
    simp only [poolStep] at h
    split_ifs at h with hc
    cases h
    exact ⟨h0, hr, hl, fun ht => absurd hc.2 ht⟩
  | update i =>
    simp only [poolStep] at h
    split at h
    · rename_i sub res pc hw
      cases h
      obtain ⟨u1, u2, u3, u4⟩ := workerUpdate_workers p.s sub res pc
      refine ⟨h0, ?_, ⟨?_, ?_⟩, fun ht => ?_⟩
      · show p.stopsRead ≤ (workerUpdate p.s sub res pc).stopSignals
        rw [u4]; exact hr
      · show 0 < (workerUpdate p.s sub res pc).activeWorkers
        rw [u1]; exact hl.1
      · show (workerUpdate p.s sub res pc).adaptive = true → WorkersInBounds _
        intro ha
        rw [u3] at ha
        have := hl.2 ha
        unfold WorkersInBounds at this ⊢
        rw [u1, u2]
        exact this
      · show (((p.workers.set i _).length : Nat) : Int) + _
          = (workerUpdate p.s sub res pc).activeWorkers
            + ((workerUpdate p.s sub res pc).stopSignals : Int)
        rw [List.length_set, u1, u4]
        exact hb ht
    · cases h
  | strayStop =>
    simp only [poolStep] at h
    split_ifs at h with hc
    cases h
    omega
  | strayClosed =>
    simp only [poolStep] at h
    split_ifs at h with hc
    cases h
    omega

theorem poolRun_mainBalance (events : List PoolEvent) (p p' : Pool) (hp : MainBalance p)
    (h : poolRun true events p = some p') : MainBalance p' :=
  poolRun_induction MainBalance true (fun q q' e hq hs => poolStep_mainBalance q q' e hq hs)
    events p p' hp h

/-- Phase 1 drains the task channel: the monitor keeps `minConcurrency`
workers clear of its stop signals, so the last worker of the phase returns on
the closed and empty channel, and every candidate has been received. -/
theorem mainScan_drained (s : scheduler) (words : List String) (events : List PoolEvent)
    (p1 : Pool) (hl : Launchable s) (hs : s.stopSignals = 0)
    (h : mainScan s words events = some p1) :
    p1.tasks = [] ∧ p1.strays = 0 ∧ p1.stopsRead ≤ p1.s.stopSignals ∧ Launchable p1.s := by
  obtain ⟨hr, hw⟩ := mainScan_some s words events p1 h
  have h0 : MainBalance (launchMain s words) := by
    refine ⟨rfl, Nat.zero_le _, sendStatus_launchable s "main_scan" 0 hl, fun _ => ?_⟩
    show (((List.replicate s.activeWorkers.toNat WorkerState.idle).length : Nat) : Int)
      + ((0 : Nat) : Int) = s.activeWorkers + (s.stopSignals : Int)
    rw [List.length_replicate, hs]
    have := hl.1
    simp only [Nat.cast_zero, add_zero]
    omega
  obtain ⟨b0, b1, b2, b3⟩ := poolRun_mainBalance events _ p1 h0 hr
  refine ⟨?_, b0, b1, b2⟩
  by_contra ht
  have := b3 ht
  rw [hw] at this
  have hpos := b2.1
  simp only [List.length_nil, Nat.cast_zero, zero_add] at this
  omega

/-- C8: in every interleaving of the goroutines that lets `run` return, the
tasks of phase 1 are received in order, each once, all of them when `run`
launched at least one worker, and at the return of
`wg.Wait` `failedDomains` holds the candidates whose resolution ended
`Failed`, each once; `run` goes through a retry phase exactly when
`enableRetry` is true and at least one of them ended `Failed`.  Without
retry phase no further resolution is made.  With it, before any task of
phase 2 is received the tasks of phase 2 are that list, `failedDomains` is
empty, `scanned` and `failed` are 0 and `totalTasks` is its length, and the
workers of phase 2 receive tasks of that list only, in order, each at most
once. -/
theorem runPool_retry_phase (s0 : scheduler) (resolver : Resolver) (domain : String)
    (totalTasks concurrency : Int) (adaptive : Bool) (maxQPS : Int) (enableRetry : Bool)
    (words : List String) (events1 events2 : List PoolEvent) (pfin : Pool)
    (hs0 : s0 = newScheduler resolver domain totalTasks concurrency adaptive maxQPS)
    (hrun : runPool s0 enableRetry words events1 events2 = some pfin) :
    ∃ p1 : Pool, mainScan s0 words events1 = some p1 ∧
      (∀ o ∈ p1.outcomes, ∃ env, o.2 = s0.resolver.Resolve env o.1) ∧
      p1.outcomes.map Prod.fst ++ p1.tasks = candidates s0 words ∧
      (0 < s0.activeWorkers → p1.tasks = []) ∧
      List.Perm p1.s.failedDomains (failedOf p1.outcomes) ∧
      (ranRetry pfin.s ↔ enableRetry = true ∧ failedOf p1.outcomes ≠ []) ∧
      (¬ ranRetry pfin.s → pfin.earlier = [] ∧ pfin.outcomes = p1.outcomes) ∧
      (ranRetry pfin.s →
        (launchRetry p1).tasks = p1.s.failedDomains ∧
        List.Perm (launchRetry p1).tasks (failedOf p1.outcomes) ∧
        (launchRetry p1).outcomes = [] ∧
        (launchRetry p1).s.failedDomains = [] ∧
        (launchRetry p1).s.scanned = 0 ∧ (launchRetry p1).s.failed = 0 ∧
        (launchRetry p1).s.totalTasks = ((failedOf p1.outcomes).length : Int) ∧
        ∃ p2 : Pool, retryScan p1 events2 = some p2 ∧
          pfin = { p2 with s := sendStatus p2.s "done" 0 } ∧
          p2.earlier = p1.outcomes ∧
          p2.outcomes.map Prod.fst ++ p2.tasks = (launchRetry p1).tasks) := by
  have hfd0 : s0.failedDomains = [] := by rw [hs0]; rfl
  have hst0 : NoRetryStatus s0 := by
    rw [hs0]; intro st hst; simp [newScheduler] at hst
  obtain ⟨p1, h1, hcase⟩ := runPool_cases s0 enableRetry words events1 events2 pfin hst0 hrun
  obtain ⟨hw1, he1, hq1, hf1⟩ := mainScan_phaseTrace s0 words events1 p1 hfd0 h1
  have hrb1 : ResolvedBy s0.resolver p1 :=
    poolRun_resolvedBy _ true events1 _ p1 (launchMain_resolvedBy s0 words)
      (mainScan_some s0 words events1 p1 h1).1
  have hlen : p1.s.failedDomains.length = (failedOf p1.outcomes).length := hf1.length_eq
  have hcond : ((!enableRetry) = true ∨ p1.s.failedDomains.length = 0) ↔
      ¬ (enableRetry = true ∧ failedOf p1.outcomes ≠ []) := by
    rw [hlen, List.length_eq_zero]
    cases enableRetry <;> simp
  have hdr : 0 < s0.activeWorkers → p1.tasks = [] := fun hpos =>
    (mainScan_drained s0 words events1 p1
      (by
        rw [hs0] at hpos ⊢
        exact newScheduler_launchable resolver domain totalTasks concurrency adaptive maxQPS hpos)
      (by rw [hs0]; rfl) h1).1
  refine ⟨p1, h1, fun o ho => hrb1.2.1 o (by rw [he1]; simpa using ho), hq1, hdr, hf1, ?_⟩
  rcases hcase with ⟨hc, hfin, hnot⟩ | ⟨hc, p2, h2, hfin, hran⟩
  · refine ⟨⟨fun h => absurd h hnot, fun h => absurd h (hcond.mp hc)⟩, ?_,
      fun h => absurd h hnot⟩
    intro _
    rw [hfin]
    exact ⟨he1, rfl⟩
  · refine ⟨⟨fun _ => not_not.mp (fun h => hc (hcond.mpr h)), fun _ => hran⟩,
      fun h => absurd hran h, fun _ => ?_⟩
    obtain ⟨hr2, -, -⟩ := retryScan_some p1 events2 p2 h2
    have h0 : PhaseTrace p1.s.failedDomains (launchRetry p1) := by
      refine ⟨rfl, ?_⟩
      show List.Perm ([] ++ pendingFailed (List.replicate _ WorkerState.idle)) _
      rw [pendingFailed_replicate_idle]
      exact List.Perm.refl _
    obtain ⟨t1, -⟩ := poolRun_phaseTrace _ false events2 _ p2 h0 hr2
    have he2 : p2.earlier = p1.outcomes :=
      poolRun_induction (fun q => q.earlier = p1.outcomes) false
        (fun q q' e hq hs => by
          rcases poolStep_cases false q q' e hs with
            ⟨-, -, -, -, he⟩ | ⟨_, _, _, _, _, -, -, -, -, -, -, he⟩ |
            ⟨_, _, -, -, -, -, -, he⟩ | ⟨_, _, _, _, _, -, -, -, -, -, he⟩ <;>
          rw [he, hq])
        events2 _ p2 rfl hr2
    refine ⟨rfl, hf1, rfl, rfl, rfl, rfl, ?_, p2, h2, hfin, he2, t1⟩
    show ((p1.s.failedDomains.length : Nat) : Int) = _
    rw [hlen]

/-- C8 on one worker and one candidate that times out, with retry enabled. -/
theorem runPool_retry_phase_witness :
    oneServerScheduler = newScheduler oneServerResolver "example.com" 1 1 false 0 ∧
    ∃ pfin : Pool,
      runPool oneServerScheduler true ["a"] oneWorkerEvents oneWorkerEvents = some pfin ∧
      (∃ p1 : Pool, mainScan oneServerScheduler ["a"] oneWorkerEvents = some p1 ∧
        (∀ o ∈ p1.outcomes, ∃ env, o.2 = oneServerScheduler.resolver.Resolve env o.1) ∧
        p1.outcomes.map Prod.fst ++ p1.tasks = candidates oneServerScheduler ["a"] ∧
        (0 < oneServerScheduler.activeWorkers → p1.tasks = []) ∧
        List.Perm p1.s.failedDomains (failedOf p1.outcomes) ∧
        (ranRetry pfin.s ↔ true = true ∧ failedOf p1.outcomes ≠ []) ∧
        (¬ ranRetry pfin.s → pfin.earlier = [] ∧ pfin.outcomes = p1.outcomes) ∧
        (ranRetry pfin.s →
          (launchRetry p1).tasks = p1.s.failedDomains ∧
          List.Perm (launchRetry p1).tasks (failedOf p1.outcomes) ∧
          (launchRetry p1).outcomes = [] ∧
          (launchRetry p1).s.failedDomains = [] ∧
          (launchRetry p1).s.scanned = 0 ∧ (launchRetry p1).s.failed = 0 ∧
          (launchRetry p1).s.totalTasks = ((failedOf p1.outcomes).length : Int) ∧
          ∃ p2 : Pool, retryScan p1 oneWorkerEvents = some p2 ∧
            pfin = { p2 with s := sendStatus p2.s "done" 0 } ∧
            p2.earlier = p1.outcomes ∧
            p2.outcomes.map Prod.fst ++ p2.tasks = (launchRetry p1).tasks)) := by
  have hs : (runPool oneServerScheduler true ["a"] oneWorkerEvents oneWorkerEvents).isSome
      = true := by decide
  obtain ⟨pfin, h⟩ := Option.isSome_iff_exists.mp hs
  exact ⟨rfl, pfin, h,
    runPool_retry_phase oneServerScheduler oneServerResolver "example.com" 1 1 false 0 true
      ["a"] oneWorkerEvents oneWorkerEvents pfin rfl h⟩

/-! ## The worker pool: the request counters -/

theorem resolve_attempts_range (r : Resolver) (env : DNSEnv) (domain : String) :
    1 ≤ (r.Resolve env domain).attempts ∧ (r.Resolve env domain).attempts ≤ 6 := by
  obtain ⟨h1, h2, -⟩ := resolveLoop_attempts r env domain maxAttempts 1 initLoop
    (by decide) (by decide) (by simp [initLoop])
  exact ⟨h1, h2⟩

theorem totalAttempts_bounds (outcomes : List (String × ResolveResult))
    (h : ∀ o ∈ outcomes, 1 ≤ o.2.attempts ∧ o.2.attempts ≤ 6) :
    outcomes.length ≤ totalAttempts outcomes ∧
    totalAttempts outcomes ≤ 6 * outcomes.length := by
  induction outcomes with
  | nil => simp [totalAttempts]
  | cons o rest ih =>
    obtain ⟨h1, h2⟩ := h o (by simp)
    obtain ⟨i1, i2⟩ := ih (fun o' ho' => h o' (List.mem_cons_of_mem _ ho'))
    simp only [totalAttempts, List.map_cons, List.sum_cons, List.length_cons] at i1 i2 ⊢
    omega

/-- A step of a worker after `Resolve` moves what it has to add into the
counters, when the counters cannot wrap. -/
theorem workerUpdate_counters (s : scheduler) (subdomain : String) (res : ResolveResult)
    (pc : Nat) (ha1 : 1 ≤ res.attempts) (ha6 : res.attempts ≤ 6)
    (h1 : 0 ≤ s.scanned)
    (h2 : s.scanned + ((WorkerState.busy subdomain res pc).dueScanned : Int) < 2147483648)
    (h3 : 0 ≤ s.totalRequests)
    (h4 : s.totalRequests + ((WorkerState.busy subdomain res pc).dueRequests : Int)
      < 2147483648)
    (h5 : 0 ≤ s.totalRetries)
    (h6 : s.totalRetries + ((WorkerState.busy subdomain res pc).dueRetries : Int)
      < 2147483648) :
    (workerUpdate s subdomain res pc).scanned
        + ((nextWorker subdomain res pc).dueScanned : Int)
      = s.scanned + ((WorkerState.busy subdomain res pc).dueScanned : Int) ∧
    0 ≤ (workerUpdate s subdomain res pc).scanned ∧
    (workerUpdate s subdomain res pc).totalRequests
        + ((nextWorker subdomain res pc).dueRequests : Int)
      = s.totalRequests + ((WorkerState.busy subdomain res pc).dueRequests : Int) ∧
    0 ≤ (workerUpdate s subdomain res pc).totalRequests ∧
    (workerUpdate s subdomain res pc).totalRetries
        + ((nextWorker subdomain res pc).dueRetries : Int)
      = s.totalRetries + ((WorkerState.busy subdomain res pc).dueRetries : Int) ∧
    0 ≤ (workerUpdate s subdomain res pc).totalRetries := by
  rcases pc with _ | _ | _ | _ | _ | _ | _ | _ | pc
  all_goals
    simp only [WorkerState.dueScanned, WorkerState.dueRequests, WorkerState.dueRetries,
      nextWorker, workerSteps, workerUpdate, workerStatus, sendStatus, int32,
      Nat.reduceAdd, Nat.reduceLT, Nat.reduceLeDiff, Nat.reduceEqDiff, Nat.add_eq_zero,
      one_ne_zero, and_false, if_false, if_true, le_refl, Nat.zero_le, zero_le_one,
      Nat.cast_zero, Nat.cast_one, add_zero, Nat.succ_ne_zero, OfNat.ofNat_ne_zero] at *
    refine ⟨?_, ?_, ?_, ?_, ?_, ?_⟩ <;>
      first
        | trivial
        | omega
        | (split_ifs <;> (try simp only []) <;> omega)

theorem due_append (f : WorkerState → Nat) (l1 l2 : List WorkerState) :
    due f (l1 ++ l2) = due f l1 + due f l2 := by
  simp [due]

theorem due_cons (f : WorkerState → Nat) (w : WorkerState) (l : List WorkerState) :
    due f (w :: l) = f w + due f l := by
  simp [due]

theorem due_replicate_idle (f : WorkerState → Nat) (hf : f WorkerState.idle = 0) (n : Nat) :
    due f (List.replicate n WorkerState.idle) = 0 := by
  induction n with
  | zero => rfl
  | succ n ih => rw [List.replicate_succ, due_cons, hf, ih]

theorem totalAttempts_append_singleton (outcomes : List (String × ResolveResult))
    (task : String) (res : ResolveResult) :
    totalAttempts (outcomes ++ [(task, res)]) = totalAttempts outcomes + res.attempts := by
  simp [totalAttempts]

/-- The attempts of the logged resolutions are between the number of
resolutions and six times that number. -/
theorem resolvedBy_totalAttempts (r : Resolver) (p : Pool) (hp : ResolvedBy r p) :
    p.earlier.length ≤ totalAttempts p.earlier ∧
    totalAttempts p.earlier ≤ 6 * p.earlier.length ∧
    p.outcomes.length ≤ totalAttempts p.outcomes ∧
    totalAttempts p.outcomes ≤ 6 * p.outcomes.length := by
  have hrange : ∀ o ∈ p.earlier ++ p.outcomes, 1 ≤ o.2.attempts ∧ o.2.attempts ≤ 6 := by
    intro o ho
    obtain ⟨env, he⟩ := hp.2.1 o ho
    rw [he]
    exact resolve_attempts_range r env o.1
  obtain ⟨a1, a2⟩ := totalAttempts_bounds p.earlier
    (fun o ho => hrange o (List.mem_append_left _ ho))
  obtain ⟨a3, a4⟩ := totalAttempts_bounds p.outcomes
    (fun o ho => hrange o (List.mem_append_right _ ho))
  exact ⟨a1, a2, a3, a4⟩

/-- Every step of the pool keeps the invariant of the counters. -/
theorem poolStep_poolCounters (r : Resolver) (mainPhase : Bool) (p p' : Pool)
    (e : PoolEvent) (hp : PoolCounters r p) (h : poolStep mainPhase p e = some p') :
    PoolCounters r p' := by
  obtain ⟨hrb, hbal⟩ := hp
  have hrb' := poolStep_resolvedBy r mainPhase p p' e hrb h
  refine ⟨hrb', ?_⟩
  intro hbound
  obtain ⟨t1, t2, t3, t4⟩ := resolvedBy_totalAttempts r p hrb
  unfold CountersBalanced
  rcases poolStep_cases mainPhase p p' e h with
    ⟨hs, -, ⟨n, hw'⟩, ho', he'⟩ | ⟨l1, l2, task, rest, env, hw0, -, -, hw', hs, ho', he'⟩ |
    ⟨l1, l2, hw0, hw', hs, -, ho', he'⟩ | ⟨l1, l2, sub, res, pc, hw0, hw', hs, -, ho', he'⟩
  · rw [ho', he'] at hbound ⊢
    obtain ⟨b1, b2, b3, b4, b5, b6⟩ := hbal hbound
    have hsc : p'.s.scanned = p.s.scanned ∧ p'.s.totalRequests = p.s.totalRequests ∧
        p'.s.totalRetries = p.s.totalRetries := by
      rcases hs with hs | hs
      · rw [hs]
        obtain ⟨-, -, -, -, a5, -, a7, a8, -⟩ := monitorTick_sameScan p.s
        exact ⟨a5, a7, a8⟩
      · rw [hs]; exact ⟨rfl, rfl, rfl⟩
    rw [hsc.1, hsc.2.1, hsc.2.2, hw', due_append, due_append, due_append,
      due_replicate_idle _ rfl, due_replicate_idle _ rfl, due_replicate_idle _ rfl]
    simp only [add_zero]
    exact ⟨b1, b2, b3, b4, b5, b6⟩
  · rw [ho', he'] at hbound ⊢
    simp only [List.length_append, List.length_singleton, Nat.cast_add, Nat.cast_one]
      at hbound ⊢
    obtain ⟨b1, b2, b3, b4, b5, b6⟩ := hbal (by omega)
    obtain ⟨k1, k2⟩ := resolve_attempts_range p.s.resolver env task
    rw [hw0] at b1 b3 b5
    rw [hs, hw', totalAttempts_append_singleton]
    simp only [due_append, due_cons, WorkerState.dueScanned, WorkerState.dueRequests,
      WorkerState.dueRetries, Nat.cast_add] at b1 b3 b5 ⊢
    simp only [if_true, Nat.zero_le, Nat.cast_zero, Nat.cast_one] at b1 b3 b5 ⊢
    refine ⟨?_, b2, ?_, b4, ?_, b6⟩
    · show p.s.scanned + _ = _
      omega
    · show p.s.totalRequests + _ = _
      omega
    · show p.s.totalRetries + _ + _ = _
      omega
  · rw [ho', he'] at hbound ⊢
    obtain ⟨b1, b2, b3, b4, b5, b6⟩ := hbal hbound
    rw [hw0] at b1 b3 b5
    rw [hs, hw']
    simp only [due_append, due_cons, WorkerState.dueScanned, WorkerState.dueRequests,
      WorkerState.dueRetries, Nat.cast_add, Nat.cast_zero] at b1 b3 b5 ⊢
    exact ⟨by omega, b2, by omega, b4, by omega, b6⟩
  · rw [ho', he'] at hbound ⊢
    obtain ⟨b1, b2, b3, b4, b5, b6⟩ := hbal hbound
    obtain ⟨env, henv⟩ := hrb.2.2 sub res pc (by rw [hw0]; simp)
    have hk := resolve_attempts_range r env sub
    rw [← henv] at hk
    rw [hw0] at b1 b3 b5
    simp only [due_append, due_cons, Nat.cast_add] at b1 b3 b5
    obtain ⟨u1, u2, u3, u4, u5, u6⟩ := workerUpdate_counters p.s sub res pc hk.1 hk.2
      b2 (by omega) b4 (by omega) b6 (by omega)
    rw [hs, hw']
    simp only [due_append, due_cons, Nat.cast_add]
    exact ⟨by omega, u2, by omega, u4, by omega, u6⟩

theorem poolRun_poolCounters (r : Resolver) (mainPhase : Bool) (events : List PoolEvent)
    (p p' : Pool) (hp : PoolCounters r p) (h : poolRun mainPhase events p = some p') :
    PoolCounters r p' :=
  poolRun_induction (PoolCounters r) mainPhase
    (fun q q' e hq hs => poolStep_poolCounters r mainPhase q q' e hq hs) events p p' hp h

theorem quiescent_due (f : WorkerState → Nat) (hf : f WorkerState.idle = 0)
    (workers : List WorkerState) (h : ∀ w ∈ workers, w = WorkerState.idle) :
    due f workers = 0 := by
  induction workers with
  | nil => rfl
  | cons w rest ih =>
    rw [due_cons, h w (by simp), hf, ih (fun w' hw' => h w' (List.mem_cons_of_mem _ hw'))]

/-- When no worker is in the middle of its updates and the counters cannot
have wrapped, the counters are the resolutions of the phase, the attempts of
the run and its retries. -/
theorem poolCounters_quiescent (r : Resolver) (p : Pool) (hp : PoolCounters r p)
    (hq : Quiescent p)
    (hbound : 6 * ((p.earlier.length : Int) + (p.outcomes.length : Int)) < 2147483648) :
    p.s.scanned = (p.outcomes.length : Int) ∧
    p.s.scanned ≤ p.s.totalRequests ∧
    p.s.totalRetries
      = p.s.totalRequests - ((p.earlier.length : Int) + (p.outcomes.length : Int)) ∧
    p.s.totalRetries ≤ p.s.totalRequests - p.s.scanned := by
  obtain ⟨hrb, hbal⟩ := hp
  obtain ⟨b1, b2, b3, b4, b5, b6⟩ := hbal hbound
  obtain ⟨t1, t2, t3, t4⟩ := resolvedBy_totalAttempts r p hrb
  rw [quiescent_due _ rfl p.workers hq] at b1 b3 b5
  simp only [Nat.cast_zero, add_zero] at b1 b3 b5
  refine ⟨b1, ?_, ?_, ?_⟩ <;> omega

theorem launchMain_poolCounters (s : scheduler) (words : List String)
    (h1 : s.scanned = 0) (h2 : s.totalRequests = 0) (h3 : s.totalRetries = 0) :
    PoolCounters s.resolver (launchMain s words) := by
  refine ⟨launchMain_resolvedBy s words, fun _ => ?_⟩
  unfold CountersBalanced
  have hd : ∀ f, f WorkerState.idle = 0 → due f (launchMain s words).workers = 0 :=
    fun f hf => due_replicate_idle f hf _
  rw [hd _ rfl, hd _ rfl, hd _ rfl]
  show s.scanned + _ = _ ∧ 0 ≤ s.scanned ∧ s.totalRequests + _ = _ ∧ 0 ≤ s.totalRequests ∧
    s.totalRetries + _ + _ = _ ∧ 0 ≤ s.totalRetries
  rw [h1, h2, h3]
  simp [launchMain, totalAttempts]

theorem launchRetry_poolCounters (r : Resolver) (p : Pool) (hp : PoolCounters r p)
    (hw : p.workers = []) (he : p.earlier = []) : PoolCounters r (launchRetry p) := by
  obtain ⟨hrb, hbal⟩ := hp
  refine ⟨launchRetry_resolvedBy r p hrb he, fun hbound => ?_⟩
  have hb : 6 * ((p.earlier.length : Int) + (p.outcomes.length : Int)) < 2147483648 := by
    rw [he]
    simpa [launchRetry] using hbound
  obtain ⟨b1, b2, b3, b4, b5, b6⟩ := hbal hb
  rw [hw] at b1 b3 b5
  rw [he] at b3 b5
  unfold CountersBalanced
  have hd : ∀ f, f WorkerState.idle = 0 → due f (launchRetry p).workers = 0 :=
    fun f hf => due_replicate_idle f hf _
  rw [hd _ rfl, hd _ rfl, hd _ rfl]
  show (0 : Int) + _ = _ ∧ (0 : Int) ≤ 0 ∧ p.s.totalRequests + _ = _ ∧ 0 ≤ p.s.totalRequests ∧
    p.s.totalRetries + _ + _ = _ ∧ 0 ≤ p.s.totalRetries
  simp only [launchRetry, due, totalAttempts, List.map_nil, List.sum_nil, List.length_nil,
    Nat.cast_zero, add_zero, zero_add] at b1 b3 b5 ⊢
  exact ⟨trivial, le_refl _, b3, b4, by omega, b6⟩

/-- The `done` status of a pool without running worker. -/
theorem done_status_counters (r : Resolver) (p : Pool) (hp : PoolCounters r p)
    (hw : p.workers = [])
    (hbound : 6 * ((p.earlier.length : Int) + (p.outcomes.length : Int)) < 2147483648) :
    ∃ st, (sendStatus p.s "done" 0).statuses.getLast? = some st ∧ st.Phase = "done" ∧
      st.Scanned = (p.outcomes.length : Int) ∧
      st.Scanned ≤ st.TotalRequests ∧
      st.TotalRetries
        = st.TotalRequests - ((p.earlier.length : Int) + (p.outcomes.length : Int)) ∧
      st.TotalRetries ≤ st.TotalRequests - st.Scanned := by
  obtain ⟨q1, q2, q3, q4⟩ := poolCounters_quiescent r p hp
    (by intro w hm; rw [hw] at hm; cases hm) hbound
  obtain ⟨st, e, e1, -, -, -, e5, e6, -, e8⟩ := sendStatus_statuses p.s "done" 0
  refine ⟨st, by rw [e]; simp, e8 (by decide), ?_, ?_, ?_, ?_⟩
  · rw [e1]; exact q1
  · rw [e1, e5]; exact q2
  · rw [e6, e5]; exact q3
  · rw [e6, e5, e1]; exact q4

/-- C7, as it holds: in every interleaving of the workers and the monitor, as
long as the `int32` counters cannot have wrapped (6 times the resolutions
made below 2^31), whenever no worker is in the middle of its counter updates
`totalRequests ≥ scanned` and `totalRetries` is `totalRequests` minus the
resolutions made in the run so far, hence at most `totalRequests - scanned`.
In phase 1 `scanned` counts those resolutions and `totalRetries =
totalRequests - scanned`; phase 2 starts `scanned` again at 0 and only the
inequality is left.  The same holds in the `done` status, with the equality
when the run had no retry phase. -/
theorem runPool_request_counters (s0 : scheduler) (resolver : Resolver) (domain : String)
    (totalTasks concurrency : Int) (adaptive : Bool) (maxQPS : Int) (words : List String)
    (hs0 : s0 = newScheduler resolver domain totalTasks concurrency adaptive maxQPS) :
    (∀ (events : List PoolEvent) (p : Pool),
      poolRun true events (launchMain s0 words) = some p → Quiescent p →
      6 * (p.outcomes.length : Int) < 2147483648 →
      p.s.scanned = (p.outcomes.length : Int) ∧ p.s.scanned ≤ p.s.totalRequests ∧
      p.s.totalRetries = p.s.totalRequests - p.s.scanned) ∧
    (∀ (events1 events2 : List PoolEvent) (p1 p : Pool),
      mainScan s0 words events1 = some p1 →
      poolRun false events2 (launchRetry p1) = some p → Quiescent p →
      6 * ((p.earlier.length : Int) + (p.outcomes.length : Int)) < 2147483648 →
      p.s.scanned = (p.outcomes.length : Int) ∧ p.s.scanned ≤ p.s.totalRequests ∧
      p.s.totalRetries
        = p.s.totalRequests - ((p.earlier.length : Int) + (p.outcomes.length : Int)) ∧
      p.s.totalRetries ≤ p.s.totalRequests - p.s.scanned) ∧
    (∀ (enableRetry : Bool) (events1 events2 : List PoolEvent) (pfin : Pool),
      runPool s0 enableRetry words events1 events2 = some pfin →
      6 * ((pfin.earlier.length : Int) + (pfin.outcomes.length : Int)) < 2147483648 →
      ∃ st, pfin.s.statuses.getLast? = some st ∧ st.Phase = "done" ∧
        st.Scanned ≤ st.TotalRequests ∧
        st.TotalRetries
          = st.TotalRequests - ((pfin.earlier.length : Int) + (pfin.outcomes.length : Int)) ∧
        st.TotalRetries ≤ st.TotalRequests - st.Scanned ∧
        (¬ ranRetry pfin.s → st.TotalRetries = st.TotalRequests - st.Scanned)) := by
  have h1 : s0.scanned = 0 := by rw [hs0]; rfl
  have h2 : s0.totalRequests = 0 := by rw [hs0]; rfl
  have h3 : s0.totalRetries = 0 := by rw [hs0]; rfl
  have hfd0 : s0.failedDomains = [] := by rw [hs0]; rfl
  have hst0 : NoRetryStatus s0 := by
    rw [hs0]; intro st hst; simp [newScheduler] at hst
  clear hs0
  have hmain : ∀ (events : List PoolEvent) (p : Pool),
      poolRun true events (launchMain s0 words) = some p →
      PoolCounters s0.resolver p ∧ p.earlier = [] := by
    intro events p hr
    refine ⟨poolRun_poolCounters _ true events _ p
      (launchMain_poolCounters s0 words h1 h2 h3) hr, ?_⟩
    exact poolRun_induction (fun q => q.earlier = []) true
      (fun q q' e hq hs => by
        rcases poolStep_cases true q q' e hs with
          ⟨-, -, -, -, he⟩ | ⟨_, _, _, _, _, -, -, -, -, -, -, he⟩ |
          ⟨_, _, -, -, -, -, -, he⟩ | ⟨_, _, _, _, _, -, -, -, -, -, he⟩ <;>
        rw [he, hq])
      events _ p rfl hr
  have hretry : ∀ (events1 events2 : List PoolEvent) (p1 p : Pool),
      mainScan s0 words events1 = some p1 →
      poolRun false events2 (launchRetry p1) = some p → PoolCounters s0.resolver p := by
    intro events1 events2 p1 p hm hr
    obtain ⟨hr1, hw1⟩ := mainScan_some s0 words events1 p1 hm
    obtain ⟨hc1, he1⟩ := hmain events1 p1 hr1
    exact poolRun_poolCounters _ false events2 _ p
      (launchRetry_poolCounters _ p1 hc1 hw1 he1) hr
  refine ⟨?_, ?_, ?_⟩
  · intro events p hr hq hb
    obtain ⟨hc, he⟩ := hmain events p hr
    obtain ⟨q1, q2, q3, -⟩ := poolCounters_quiescent _ p hc hq (by rw [he]; simpa using hb)
    rw [he] at q3
    refine ⟨q1, q2, ?_⟩
    rw [q3, q1]
    simp
  · intro events1 events2 p1 p hm hr hq hb
    exact poolCounters_quiescent _ p (hretry events1 events2 p1 p hm hr) hq hb
  · intro enableRetry events1 events2 pfin hrun hb
    obtain ⟨p1, hm, hcase⟩ :=
      runPool_cases s0 enableRetry words events1 events2 pfin hst0 hrun
    obtain ⟨hr1, hw1⟩ := mainScan_some s0 words events1 p1 hm
    obtain ⟨hc1, he1⟩ := hmain events1 p1 hr1
    rcases hcase with ⟨-, hfin, -⟩ | ⟨-, p2, h2', hfin, hran⟩
    · rw [hfin] at hb ⊢
      obtain ⟨st, d1, d2, d3, d4, d5, d6⟩ := done_status_counters _ p1 hc1 hw1 hb
      refine ⟨st, d1, d2, d4, d5, d6, fun _ => ?_⟩
      rw [he1] at d5
      rw [d5, d3]
      simp
    · obtain ⟨hr2, hw2, -⟩ := retryScan_some p1 events2 p2 h2'
      have hc2 := hretry events1 events2 p1 p2 hm hr2
      have hran' : ranRetry pfin.s := hran
      rw [hfin] at hb ⊢
      obtain ⟨st, d1, d2, -, d4, d5, d6⟩ := done_status_counters _ p2 hc2 hw2 hb
      refine ⟨st, d1, d2, d4, d5, d6, fun hn => ?_⟩
      rw [hfin] at hran'
      exact absurd hran' hn

/-- C7 on one worker and one candidate that times out, with retry enabled:
the `done` status of the run. -/
theorem runPool_request_counters_witness :
    oneServerScheduler = newScheduler oneServerResolver "example.com" 1 1 false 0 ∧
    ∃ pfin : Pool,
      runPool oneServerScheduler true ["a"] oneWorkerEvents oneWorkerEvents = some pfin ∧
      6 * ((pfin.earlier.length : Int) + (pfin.outcomes.length : Int)) < 2147483648 ∧
      ∃ st, pfin.s.statuses.getLast? = some st ∧ st.Phase = "done" ∧
        st.Scanned ≤ st.TotalRequests ∧
        st.TotalRetries
          = st.TotalRequests - ((pfin.earlier.length : Int) + (pfin.outcomes.length : Int)) ∧
        st.TotalRetries ≤ st.TotalRequests - st.Scanned ∧
        (¬ ranRetry pfin.s → st.TotalRetries = st.TotalRequests - st.Scanned) := by
  have hs : (runPool oneServerScheduler true ["a"] oneWorkerEvents oneWorkerEvents).isSome
      = true := by decide
  have hl : (runPool oneServerScheduler true ["a"] oneWorkerEvents oneWorkerEvents).map
      (fun p => (p.earlier.length, p.outcomes.length)) = some (1, 1) := by decide
  obtain ⟨pfin, h⟩ := Option.isSome_iff_exists.mp hs
  rw [h] at hl
  simp only [Option.map_some', Option.some.injEq, Prod.mk.injEq] at hl
  have hb : 6 * ((pfin.earlier.length : Int) + (pfin.outcomes.length : Int)) < 2147483648 := by
    rw [hl.1, hl.2]
    decide
  exact ⟨rfl, pfin, h, hb,
    (runPool_request_counters oneServerScheduler oneServerResolver "example.com" 1 1 false 0
      ["a"] rfl).2.2 true oneWorkerEvents oneWorkerEvents pfin h hb⟩

/-! ## The worker pool: a run of one worker on timeouts -/

theorem poolRun_append (mainPhase : Bool) (a b : List PoolEvent) :
    ∀ p : Pool, poolRun mainPhase (a ++ b) p
      = (poolRun mainPhase a p).bind (poolRun mainPhase b) := by
  induction a with
  | nil => intro p; rfl
  | cons e rest ih =>
    intro p
    simp only [List.cons_append, poolRun]
    cases poolStep mainPhase p e with
    | none => rfl
    | some p' => exact ih p'

theorem int32_add_int32 (a b : Int) : int32 (int32 a + b) = int32 (a + b) := by
  unfold int32
  omega

theorem resolve_timeout_oneServer (t : String) :
    (oneServerResolver.Resolve timeoutEnv t).attempts = 6 ∧
    (oneServerResolver.Resolve timeoutEnv t).status = ResolveStatus.Failed :=
  ⟨rfl, rfl⟩

theorem workerUpdate_scanned_requests (s : scheduler) (subdomain : String)
    (res : ResolveResult) (pc : Nat) :
    (workerUpdate s subdomain res pc).scanned
      = (if pc = 0 then int32 (s.scanned + 1) else s.scanned) ∧
    (workerUpdate s subdomain res pc).totalRequests
      = (if pc = 1 then int32 (s.totalRequests + int32 (res.attempts : Int))
         else s.totalRequests) := by
  rcases pc with _ | _ | _ | _ | _ | _ | _ | _ | pc
  all_goals
    constructor <;>
      simp only [workerUpdate, workerStatus, sendStatus, Nat.reduceAdd, Nat.reduceEqDiff,
        Nat.add_eq_zero, one_ne_zero, and_false, if_false, if_true, OfNat.ofNat_ne_zero,
        OfNat.ofNat_ne_one, OfNat.zero_ne_ofNat, zero_ne_one, Nat.succ_ne_zero,
        add_left_eq_self, Nat.reduceSucc] <;>
      (try split_ifs) <;> rfl

/-- A lone worker that holds a result makes the steps left and is back at its
`select`. -/
theorem poolRun_updates (mainPhase : Bool) (t : String) (res : ResolveResult) :
    ∀ (k pc : Nat) (p : Pool), p.workers = [WorkerState.busy t res pc] → pc + (k + 1) = 9 →
    ∃ p', poolRun mainPhase (List.replicate (k + 1) (PoolEvent.update 0)) p = some p' ∧
      p'.workers = [WorkerState.idle] ∧ p'.tasks = p.tasks ∧
      p'.s.resolver = p.s.resolver ∧
      p'.s.scanned = (if pc = 0 then int32 (p.s.scanned + 1) else p.s.scanned) ∧
      p'.s.totalRequests
        = (if pc ≤ 1 then int32 (p.s.totalRequests + int32 (res.attempts : Int))
           else p.s.totalRequests) := by
  intro k
  induction k with
  | zero =>
    intro pc p hw hk
    have hpc : pc = 8 := by omega
    subst hpc
    obtain ⟨h1, h2⟩ := workerUpdate_scanned_requests p.s t res 8
    refine ⟨{ p with s := workerUpdate p.s t res 8, workers := [WorkerState.idle] }, ?_, rfl,
      rfl, workerUpdate_resolver _ _ _ _, ?_, ?_⟩
    · simp only [List.replicate, poolRun, poolStep, hw, List.getElem?_cons_zero,
        List.set_cons_zero, workerSteps, Nat.reduceAdd, Nat.lt_irrefl, if_false]
    · simpa using h1
    · simpa using h2
  | succ k ih =>
    intro pc p hw hk
    have hlt : pc + 1 < workerSteps := by unfold workerSteps; omega
    have hstep : poolStep mainPhase p (PoolEvent.update 0)
        = some { p with s := workerUpdate p.s t res pc
                        workers := [WorkerState.busy t res (pc + 1)] } := by
      simp only [poolStep, hw, List.getElem?_cons_zero, List.set_cons_zero, hlt, if_true]
    obtain ⟨p', hp', w', t', r', s', q'⟩ := ih (pc + 1)
      { p with s := workerUpdate p.s t res pc
               workers := [WorkerState.busy t res (pc + 1)] } rfl (by omega)
    obtain ⟨h1, h2⟩ := workerUpdate_scanned_requests p.s t res pc
    refine ⟨p', ?_, w', t', ?_, ?_, ?_⟩
    · rw [List.replicate_succ, poolRun, hstep]
      exact hp'
    · rw [r']
      exact workerUpdate_resolver _ _ _ _
    · rw [s']
      simp only [Nat.add_eq_zero, one_ne_zero, and_false, if_false]
      exact h1
    · rw [q']
      simp only [h1, h2]
      by_cases h0 : pc = 0
      · subst h0; simp
      · by_cases h1' : pc = 1
        · subst h1'; simp
        · have a : ¬ pc + 1 ≤ 1 := by omega
          have b : ¬ pc ≤ 1 := by omega
          simp [a, b, h1']

theorem timeoutCycle_run (mainPhase : Bool) (p : Pool) (t : String) (rest : List String)
    (hw : p.workers = [WorkerState.idle]) (ht : p.tasks = t :: rest)
    (hr : p.s.resolver = oneServerResolver) :
    ∃ p', poolRun mainPhase timeoutCycle p = some p' ∧
      p'.workers = [WorkerState.idle] ∧ p'.tasks = rest ∧
      p'.s.resolver = oneServerResolver ∧
      p'.s.scanned = int32 (p.s.scanned + 1) ∧
      p'.s.totalRequests = int32 (p.s.totalRequests + 6) := by
  have hstep : poolStep mainPhase p (PoolEvent.receive 0 timeoutEnv)
      = some { p with
          s := { p.s with resolved := p.s.resolved ++ [t] }
          tasks := rest
          workers := [WorkerState.busy t (oneServerResolver.Resolve timeoutEnv t) 0]
          outcomes := p.outcomes ++ [(t, oneServerResolver.Resolve timeoutEnv t)] } := by
    simp only [poolStep, hw, ht, hr, List.getElem?_cons_zero, List.set_cons_zero]
  obtain ⟨p', hp', w', t', r', s', q'⟩ := poolRun_updates mainPhase t
    (oneServerResolver.Resolve timeoutEnv t) 8 0
    { p with
        s := { p.s with resolved := p.s.resolved ++ [t] }
        tasks := rest
        workers := [WorkerState.busy t (oneServerResolver.Resolve timeoutEnv t) 0]
        outcomes := p.outcomes ++ [(t, oneServerResolver.Resolve timeoutEnv t)] } rfl rfl
  refine ⟨p', ?_, w', t', ?_, ?_, ?_⟩
  · unfold timeoutCycle
    rw [poolRun, hstep]
    exact hp'
  · rw [r']; exact hr
  · rw [s']; rfl
  · rw [q']
    have h6 : ((oneServerResolver.Resolve timeoutEnv t).attempts : Int) = 6 := by
      rw [(resolve_timeout_oneServer t).1]; rfl
    rw [h6]
    simp only [Nat.zero_le, if_true]
    show int32 (p.s.totalRequests + int32 6) = _
    unfold int32
    omega

theorem timeoutCycles_run (mainPhase : Bool) : ∀ (n : Nat) (p : Pool),
    p.workers = [WorkerState.idle] → n ≤ p.tasks.length →
    p.s.resolver = oneServerResolver →
    int32 p.s.scanned = p.s.scanned → int32 p.s.totalRequests = p.s.totalRequests →
    ∃ p', poolRun mainPhase (timeoutCycles n) p = some p' ∧
      p'.workers = [WorkerState.idle] ∧ p'.tasks = p.tasks.drop n ∧
      p'.s.scanned = int32 (p.s.scanned + n) ∧
      p'.s.totalRequests = int32 (p.s.totalRequests + 6 * n) := by
  intro n
  induction n with
  | zero =>
    intro p hw _ _ hs hq
    refine ⟨p, rfl, hw, rfl, ?_, ?_⟩
    · simpa using hs.symm
    · simpa using hq.symm
  | succ n ih =>
    intro p hw hn hr _ _
    cases ht : p.tasks with
    | nil => rw [ht] at hn; simp at hn
    | cons t rest =>
      rw [ht] at hn
      obtain ⟨p1, e1, w1, t1, r1, s1, q1⟩ := timeoutCycle_run mainPhase p t rest hw ht hr
      obtain ⟨p2, e2, w2, t2, s2, q2⟩ := ih p1 w1 (by rw [t1]; simpa using hn) r1
        (by rw [s1]; unfold int32; omega) (by rw [q1]; unfold int32; omega)
      refine ⟨p2, ?_, w2, ?_, ?_, ?_⟩
      · show poolRun mainPhase (timeoutCycle ++ timeoutCycles n) p = _
        rw [poolRun_append, e1]
        exact e2
      · rw [t2, t1]
        rfl
      · rw [s2, s1, int32_add_int32]
        congr 1
        push_cast
        ring
      · rw [q2, q1, int32_add_int32]
        congr 1
        push_cast
        ring

/-- The run of one worker on `n` candidates whose exchanges all time out,
without retry: the `done` status reports `n` and `6 * n` as `int32`. -/
theorem timeoutRun_done (n : Nat) :
    ∃ pfin, runPool oneServerScheduler false (List.replicate n "a")
        (timeoutCycles n ++ [PoolEvent.closed 0]) [] = some pfin ∧
      pfin.workers = [] ∧
      ∃ st, pfin.s.statuses.getLast? = some st ∧ st.Phase = "done" ∧
        st.Scanned = int32 (n : Int) ∧ st.TotalRequests = int32 (6 * (n : Int)) := by
  obtain ⟨p, e, w, t, s, q⟩ := timeoutCycles_run true n
    (launchMain oneServerScheduler (List.replicate n "a")) rfl
    (by simp only [launchMain, candidates, List.length_map, List.length_replicate, le_refl])
    rfl rfl rfl
  have ht : p.tasks = [] := by
    rw [t]
    apply List.drop_eq_nil_of_le
    simp only [launchMain, candidates, List.length_map, List.length_replicate, le_refl]
  have hc : poolStep true p (PoolEvent.closed 0) = some { p with workers := [] } := by
    simp only [poolStep, w, ht, List.getElem?_cons_zero, and_self, if_true]
    rfl
  have hrun : poolRun true [PoolEvent.closed 0] p = some { p with workers := [] } := by
    show (match poolStep true p (PoolEvent.closed 0) with
      | none => none
      | some p' => poolRun true [] p') = _
    rw [hc]
    rfl
  have hm : mainScan oneServerScheduler (List.replicate n "a")
      (timeoutCycles n ++ [PoolEvent.closed 0]) = some { p with workers := [] } := by
    have ha : ¬ oneServerScheduler.activeWorkers < 0 := by decide
    unfold mainScan
    rw [if_neg ha, poolRun_append, e]
    rw [Option.some_bind, hrun]
    show (if ({ p with workers := [] } : Pool).workers ≠ [] then none
      else if (({ p with workers := [] } : Pool).tasks.length : Int) > maxConcurrency then none
      else some { p with workers := [] }) = _
    rw [if_neg (by simp), if_neg]
    show ¬ ((p.tasks.length : Int) > maxConcurrency)
    rw [ht]
    decide
  obtain ⟨st, e1, e2, -, -, -, e3, -, -, e4⟩ :=
    sendStatus_statuses { p with workers := [] }.s "done" 0
  refine ⟨{ { p with workers := [] } with s := sendStatus p.s "done" 0 }, ?_, rfl,
    st, ?_, e4 (by decide), ?_, ?_⟩
  · unfold runPool
    rw [hm]
    exact if_pos (Or.inl rfl)
  · show (sendStatus p.s "done" 0).statuses.getLast? = some st
    rw [e1]
    simp
  · rw [e2]
    show p.s.scanned = _
    rw [s]
    show int32 (0 + (n : Int)) = _
    rw [zero_add]
  · rw [e3]
    show p.s.totalRequests = _
    rw [q]
    show int32 (0 + 6 * (n : Int)) = _
    rw [zero_add]

/-- C7 fails as stated, in two ways.  With one worker and one candidate whose
exchanges time out, with retry enabled, `run` ends with no worker left,
`scanned = 1`, `totalRequests = 12` and `totalRetries = 10`, in the final
state and in the `done` status, and 10 is not 12 - 1.  With one worker and
357913942 candidates whose exchanges time out, without retry, the `int32`
counter `totalRequests` has wrapped at the end: the `done` status reports
`Scanned = 357913942` and `TotalRequests = -2147483644`. -/
theorem runPool_retries_not_requests_minus_scanned :
    (runPool oneServerScheduler true ["a"] oneWorkerEvents oneWorkerEvents).map
        (fun p => (p.workers.length, p.s.scanned, p.s.totalRequests, p.s.totalRetries))
      = some (0, 1, 12, 10) ∧
    (runPool oneServerScheduler true ["a"] oneWorkerEvents oneWorkerEvents).map
        (fun p => (decide (p.s.totalRetries = p.s.totalRequests - p.s.scanned),
          p.s.statuses.getLast?))
      = some (false, some (ScanStatus.mk 1 1 1 1 12 10 "done" 0)) ∧
    (∃ pfin, runPool oneServerScheduler false (List.replicate 357913942 "a")
        (timeoutCycles 357913942 ++ [PoolEvent.closed 0]) [] = some pfin ∧
      pfin.workers = [] ∧
      ∃ st, pfin.s.statuses.getLast? = some st ∧ st.Phase = "done" ∧
        st.Scanned = 357913942 ∧ st.TotalRequests = -2147483644 ∧
        ¬ st.Scanned ≤ st.TotalRequests) := by
  refine ⟨by decide, by decide, ?_⟩
  obtain ⟨pfin, h1, h2, st, h3, h4, h5, h6⟩ := timeoutRun_done 357913942
  have h5' : st.Scanned = 357913942 := by
    rw [h5]
    unfold int32
    norm_num
  have h6' : st.TotalRequests = -2147483644 := by
    rw [h6]
    unfold int32
    norm_num
  refine ⟨pfin, h1, h2, st, h3, h4, h5', h6', ?_⟩
  rw [h5', h6']
  decide

/-! ## The worker pool without monitor -/

theorem workerUpdate_fixedWorkers (a : Int) (s : scheduler) (subdomain : String)
    (res : ResolveResult) (pc : Nat) (h : FixedWorkers a s) :
    FixedWorkers a (workerUpdate s subdomain res pc) := by
  rcases pc with _ | _ | _ | _ | _ | _ | _ | _ | pc
  any_goals (simp only [workerUpdate]; split_ifs <;> exact h)
  any_goals exact h
  simp only [workerUpdate, workerStatus]
  split_ifs
  · exact sendStatus_fixedWorkers a s "" 0 h
  · exact h

/-- Without adaptive mode every step of the pool keeps the worker count:
no tick adjusts it, no worker is started and no stop signal is sent. -/
theorem poolStep_fixedWorkers (a : Int) (mainPhase : Bool) (p p' : Pool) (e : PoolEvent)
    (hp : FixedWorkers a p.s ∧ p.workers.length ≤ a.toNat)
    (h : poolStep mainPhase p e = some p') :
    FixedWorkers a p'.s ∧ p'.workers.length ≤ a.toNat := by
  obtain ⟨hf, hl⟩ := hp
  cases e with
  | tick =>
    simp only [poolStep, hf.1, Bool.false_eq_true, if_false, Option.some.injEq] at h
    rw [← h]
    exact ⟨hf, hl⟩
  | receive i env =>
    simp only [poolStep] at h
    split at h
    · cases h
      exact ⟨hf, by simpa using hl⟩
    · cases h
  | stop i =>
    simp only [poolStep] at h
    split_ifs at h
    cases h
    refine ⟨hf, le_trans ?_ hl⟩
    simp only [List.length_eraseIdx]
    split_ifs <;> omega
  | closed i =>
    simp only [poolStep] at h
    split_ifs at h
    cases h
    refine ⟨hf, le_trans ?_ hl⟩
    simp only [List.length_eraseIdx]
    split_ifs <;> omega
  | update i =>
    simp only [poolStep] at h
    split at h
    · cases h
      exact ⟨workerUpdate_fixedWorkers a p.s _ _ _ hf, by simpa using hl⟩
    · cases h
  | strayStop =>
    simp only [poolStep] at h
    split_ifs at h
    cases h
    exact ⟨hf, hl⟩
  | strayClosed =>
    simp only [poolStep] at h
    split_ifs at h
    cases h
    exact ⟨hf, hl⟩

/-- Without adaptive mode, in every interleaving and at every moment of both
phases of `runPool`, the worker count is the one set by `newScheduler`, at
most that many workers run, and every status reports that count. -/
theorem runPool_fixed_workers (s0 : scheduler) (resolver : Resolver) (domain : String)
    (totalTasks concurrency : Int) (maxQPS : Int) (words : List String)
    (hs0 : s0 = newScheduler resolver domain totalTasks concurrency false maxQPS) :
    (∀ (events : List PoolEvent) (p : Pool),
      poolRun true events (launchMain s0 words) = some p →
      FixedWorkers s0.activeWorkers p.s ∧ p.workers.length ≤ s0.activeWorkers.toNat) ∧
    (∀ (events1 events2 : List PoolEvent) (p1 p : Pool),
      mainScan s0 words events1 = some p1 →
      poolRun false events2 (launchRetry p1) = some p →
      FixedWorkers s0.activeWorkers p.s ∧ p.workers.length ≤ s0.activeWorkers.toNat) := by
  obtain ⟨hada, heq, -⟩ := newScheduler_sizes resolver domain totalTasks concurrency false maxQPS
  have hfix : FixedWorkers s0.activeWorkers s0 := by
    rw [hs0]
    exact ⟨hada, rfl, heq.symm, rfl, rfl, by intro st hst; simp [newScheduler] at hst⟩
  have hmain : ∀ (events : List PoolEvent) (p : Pool),
      poolRun true events (launchMain s0 words) = some p →
      FixedWorkers s0.activeWorkers p.s ∧ p.workers.length ≤ s0.activeWorkers.toNat := by
    intro events p hr
    refine poolRun_induction
      (fun q => FixedWorkers s0.activeWorkers q.s ∧ q.workers.length ≤ s0.activeWorkers.toNat)
      true (fun q q' e hq hs => poolStep_fixedWorkers _ true q q' e hq hs) events _ p ?_ hr
    exact ⟨sendStatus_fixedWorkers _ s0 "main_scan" 0 hfix, by simp [launchMain]⟩
  refine ⟨hmain, ?_⟩
  intro events1 events2 p1 p hm hr
  obtain ⟨hr1, -⟩ := mainScan_some s0 words events1 p1 hm
  obtain ⟨hf1, -⟩ := hmain events1 p1 hr1
  refine poolRun_induction
    (fun q => FixedWorkers s0.activeWorkers q.s ∧ q.workers.length ≤ s0.activeWorkers.toNat)
    false (fun q q' e hq hs => poolStep_fixedWorkers _ false q q' e hq hs) events2 _ p ?_ hr
  have hfr : FixedWorkers s0.activeWorkers (startRetry p1.s) := by
    unfold startRetry
    exact sendStatus_fixedWorkers _ _ "retry_scan" _ hf1
  refine ⟨hfr, ?_⟩
  show (List.replicate _ WorkerState.idle).length ≤ _
  rw [List.length_replicate, hfr.2.1]

end Subsonic
